import Mathlib

/-! Descriptor synthesis of aip-resource-proto-gen.

A shallow embedding of `pkg/cmd/aip-resource-proto-gen` (`main.go`, `builder.go`).

* Go strings are Lean `String`s (sequences of Unicode scalar values).
* The `schemaBuilder` methods mutate three builder objects (`file`, `resource`,
  `service`); here they are state-passing functions on `schemaBuilder`.
* A Go `panic` and a returned `error` are the two constructors of `Failure`.
* Functions of imported packages (`strcase`, `desc.LoadMessageDescriptorForMessage`,
  `FileBuilder.Build`) are fields of `Library`, over which every definition is
  parameterised.
* The `builder` package's constructors and setters record their arguments.  Its checks
  are modelled as panics: a constructor called with a name that `Library.checkName`
  refuses panics, and so does adding a field, method, message or service to a parent that
  already holds an element of that name.  The entry message that the package creates
  for a map field is not modelled as an element of its own.
-/

namespace AipResourceProtoGen

/-! ## Configuration (`main.go`) -/

/-- The `Config` struct of `main.go`. -/
structure Config where
  Syntax : String
  Resource : String
  PluralResource : String
  Package : String
  Service : String
  Methods : String
  IDRequired : Bool
  ParentPattern : String
  WithDisplayName : Bool
  WithTimestamps : Bool
  WithAnnotations : Bool
  WithListOrderBy : Bool
  WithListFilter : Bool
  WithUpdateFieldMask : Bool
  WithUpdateAllowMissing : Bool
  WithDeleteAllowMissing : Bool
  WithHTTPOptions : Bool
  Compact : Bool
  deriving DecidableEq, Repr

/-- The three well-known message types looked up by the builder. -/
inductive WellKnown where
  | Timestamp
  | FieldMask
  | Empty
  deriving DecidableEq, Repr

/-- A `*desc.MessageDescriptor` of an imported message, identified by its full name. -/
structure MessageDescriptor where
  fullName : String
  deriving DecidableEq, Repr

/-! ## Standard-library helpers -/

/-- Go `strings.Contains(s, substr)`: `substr` occurs in `s` as a contiguous run. -/
def stringsContains (s substr : String) : Bool :=
  s.data.tails.any (fun t => substr.data.isPrefixOf t)

/-- Go `strings.Join(elems, sep)`. -/
def stringsJoin (elems : List String) (sep : String) : String :=
  sep.intercalate elems

/-- The match of the regular expression `replaceCurly` anchored at the head of the input:
the number of characters it spans, if there is one.  After the opening brace the
negated class takes every character up to the first closing brace, and needs at least
one. -/
def replaceCurlyMatchAt : List Char → Option Nat
  | [] => none
  | c :: rest =>
    if c = '{' then
      let body := rest.takeWhile (fun x => x != '}')
      if body.isEmpty then none
      else
        match rest.drop body.length with
        | [] => none
        | _ :: _ => some (body.length + 2)
    else none

/-- The scan of `ReplaceAllString`: `skip` characters of the current match are still to be
dropped; otherwise a match at the head is replaced by `repl` and the scan resumes
after it, and a character starting no match is copied. -/
def replaceCurlyScan (repl : List Char) : Nat → List Char → List Char
  | _, [] => []
  | skip + 1, _ :: cs => replaceCurlyScan repl skip cs
  | 0, c :: cs =>
    match replaceCurlyMatchAt (c :: cs) with
    | some n => repl ++ replaceCurlyScan repl (n - 1) cs
    | none => c :: replaceCurlyScan repl 0 cs

/-- The call `replaceCurly.ReplaceAllString(src, repl)` for the package-level regular
expression `replaceCurly` (an opening brace, one or more characters other than a closing
brace, a closing brace) and a replacement without `$`: every leftmost non-overlapping
match is replaced by `repl`. -/
def replaceCurlyReplaceAllString (src repl : String) : String :=
  String.mk (replaceCurlyScan repl.data 0 src.data)

/-- The number of matches of `replaceCurly` in `src` (what `ReplaceAllString` replaces). -/
def replaceCurlyCount : Nat → List Char → Nat
  | _, [] => 0
  | skip + 1, _ :: cs => replaceCurlyCount skip cs
  | 0, c :: cs =>
    match replaceCurlyMatchAt (c :: cs) with
    | some n => replaceCurlyCount (n - 1) cs + 1
    | none => replaceCurlyCount 0 cs


/-! ## Descriptor builders (packages `builder`, `desc`, `annotations`) -/

/-- The `builder.Comments` of a message, field, service or method. -/
structure Comments where
  LeadingComment : String
  TrailingComment : String
  deriving DecidableEq, Repr

/-- The values of `annotations.FieldBehavior` that the builder uses. -/
inductive FieldBehavior where
  | REQUIRED
  | OPTIONAL
  | OUTPUT_ONLY
  | IDENTIFIER
  deriving DecidableEq, Repr

/-- The `descriptorpb.FieldOptions` message: the `google.api.field_behavior` extension,
`none` while unset. -/
structure FieldOptions where
  fieldBehavior : Option (List FieldBehavior)
  deriving DecidableEq, Repr

/-- A `*builder.FieldType`.  A message of the file under construction is referred to by
its name. -/
inductive FieldType where
  | string
  | int32
  | bool
  | message (name : String)
  | importedMessage (md : MessageDescriptor)
  | map (key value : FieldType)
  deriving DecidableEq, Repr

/-- A `*builder.FieldBuilder`. -/
structure FieldBuilder where
  name : String
  type : FieldType
  repeated : Bool
  comments : Comments
  options : Option FieldOptions
  deriving DecidableEq, Repr

/-- The `annotations.ResourceDescriptor` fields that the builder sets. -/
structure ResourceDescriptor where
  type : String
  singular : String
  plural : String
  deriving DecidableEq, Repr

/-- The `descriptorpb.MessageOptions` message: the `google.api.resource` extension. -/
structure MessageOptions where
  resource : Option ResourceDescriptor
  deriving DecidableEq, Repr

/-- A `*builder.MessageBuilder`: fields in the order of `AddField`. -/
structure MessageBuilder where
  name : String
  comments : Comments
  options : Option MessageOptions
  fields : List FieldBuilder
  deriving DecidableEq, Repr

/-- A `*builder.RpcType`: a message of the file under construction (by name) or an
imported one, and the streaming flag. -/
inductive RpcType where
  | message (name : String) (stream : Bool)
  | importedMessage (md : MessageDescriptor) (stream : Bool)
  deriving DecidableEq, Repr

/-- The `Pattern` oneof of `annotations.HttpRule`. -/
inductive HttpPattern where
  | Get (path : String)
  | Put (path : String)
  | Post (path : String)
  | Delete (path : String)
  | Patch (path : String)
  deriving DecidableEq, Repr

/-- The `annotations.HttpRule` fields that the builder sets; `Body` is `""` when unset. -/
structure HttpRule where
  Pattern : HttpPattern
  Body : String
  deriving DecidableEq, Repr

/-- The `descriptorpb.MethodOptions` message: the `google.api.http` and
`google.api.method_signature` extensions, `none` while unset. -/
structure MethodOptions where
  http : Option HttpRule
  methodSignature : Option (List String)
  deriving DecidableEq, Repr

/-- A `*builder.MethodBuilder`. -/
structure MethodBuilder where
  name : String
  req : RpcType
  resp : RpcType
  comments : Comments
  options : Option MethodOptions
  deriving DecidableEq, Repr

/-- The `descriptorpb.ServiceOptions` message: the `google.api.default_host` extension. -/
structure ServiceOptions where
  defaultHost : Option String
  deriving DecidableEq, Repr

/-- A `*builder.ServiceBuilder`: methods in the order of `AddMethod`. -/
structure ServiceBuilder where
  name : String
  comments : Comments
  options : Option ServiceOptions
  methods : List MethodBuilder
  deriving DecidableEq, Repr

/-- A `*builder.FileBuilder`: messages and services in the order they were added. -/
structure FileBuilder where
  name : String
  IsProto3 : Bool
  Package : String
  messages : List MessageBuilder
  services : List ServiceBuilder
  deriving DecidableEq, Repr

/-- A `*desc.FileDescriptor`: the built form of a file builder. -/
structure FileDescriptor where
  file : FileBuilder
  deriving DecidableEq, Repr

/-- The functions of imported packages that the program calls. -/
structure Library where
  /-- The function `strcase.SnakeCase`. -/
  SnakeCase : String → String
  /-- The function `strcase.LowerCamelCase`. -/
  LowerCamelCase : String → String
  /-- The function `desc.LoadMessageDescriptorForMessage` at the three well-known types. -/
  LoadMessageDescriptorForMessage : WellKnown → Except String MessageDescriptor
  /-- The method `FileBuilder.Build`. -/
  Build : FileBuilder → Except String FileDescriptor
  /-- The check of the `builder` package on the name of a message, field, service or
  method under construction: an error for a name that is not an identifier. -/
  checkName : String → Except String Unit
  /-- The text of the error with which the `builder` package refuses an element whose
  name its parent already holds. -/
  conflictError : String → String

/-- How a call ends without a result: a Go `panic`, or a returned `error`. -/
inductive Failure where
  | panic (msg : String)
  | error (msg : String)
  deriving DecidableEq, Repr

/-- The result of a call that may panic or return an error. -/
abbrev Outcome (α : Type) := Except Failure α

/-! ## Name derivation (`main.go`) -/

def Config.HasParent (c : Config) : Bool :=
  c.ParentPattern != ""

def Config.ResourceCollectionIdentifier (lib : Library) (c : Config) : String :=
  lib.LowerCamelCase c.PluralResource

def Config.ResourceSnakeCase (lib : Library) (c : Config) : String :=
  lib.SnakeCase c.Resource

def Config.ResourceNamePattern (lib : Library) (c : Config) : String :=
  let parts := [c.ParentPattern, c.ResourceCollectionIdentifier lib,
    "\x7b" ++ c.ResourceSnakeCase lib ++ "\x7d"]
  let parts := if !c.HasParent then parts.drop 1 else parts
  stringsJoin parts "/"

def Config.ResourceNameUrlRef (lib : Library) (c : Config) : String :=
  replaceCurlyReplaceAllString (c.ResourceNamePattern lib) "*"

def Config.ResourceTypeName (c : Config) : String :=
  c.Service ++ "/" ++ c.Resource

def Config.PluralResourceSnakeCase (lib : Library) (c : Config) : String :=
  lib.SnakeCase c.PluralResource

def Config.ParentNameUrlRef (c : Config) : String :=
  replaceCurlyReplaceAllString c.ParentPattern "*"


/-! ## Builder constructors and option helpers (`builder.go`, package `builder`) -/

def comment (leading trailing : String) : Comments :=
  { LeadingComment := leading, TrailingComment := trailing }

/-- An `fOpts`: a function applied to the field options under construction. -/
abbrev fOpts := FieldOptions → FieldOptions

/-- An `mOpts`: a function applied to the method options under construction. -/
abbrev mOpts := MethodOptions → MethodOptions

/-- A `msgOpts`: a function applied to the message options under construction. -/
abbrev msgOpts := MessageOptions → MessageOptions

/-- A `svcOpts`: a function applied to the service options under construction. -/
abbrev svcOpts := ServiceOptions → ServiceOptions

def fieldOptions (opts : List fOpts) : Option FieldOptions :=
  if opts.length = 0 then none
  else some (opts.foldl (fun o opt => opt o) { fieldBehavior := none })

def fieldBehavior (behaviors : List FieldBehavior) : fOpts :=
  fun opts => { opts with fieldBehavior := some behaviors }

def required : fOpts := fieldBehavior [FieldBehavior.REQUIRED]

def identifier : fOpts := fieldBehavior [FieldBehavior.IDENTIFIER]

def optional : fOpts := fieldBehavior [FieldBehavior.OPTIONAL]

def outputOnly : fOpts := fieldBehavior [FieldBehavior.OUTPUT_ONLY]

def methodOptions (opts : List mOpts) : Option MethodOptions :=
  if opts.length = 0 then none
  else some (opts.foldl (fun o opt => opt o) { http := none, methodSignature := none })

def httpRule (rule : HttpRule) : mOpts :=
  fun opts => { opts with http := some rule }

def methodSignature (signatures : List String) : mOpts :=
  fun opts => { opts with methodSignature := some signatures }

def resource (resource : ResourceDescriptor) : msgOpts :=
  fun opts => { opts with resource := some resource }

def messageOptions (opts : List msgOpts) : Option MessageOptions :=
  if opts.length = 0 then none
  else some (opts.foldl (fun o opt => opt o) { resource := none })

def defaultHost (host : String) : svcOpts :=
  fun opts => { opts with defaultHost := some host }

def serviceOptions (opts : List svcOpts) : Option ServiceOptions :=
  if opts.length = 0 then none
  else some (opts.foldl (fun o opt => opt o) { defaultHost := none })

/-- The Go idiom of panicking with the error of a call when it is not nil: the
methods of the `builder` package without `Try` in their name panic with the error that
the `Try` method returns. -/
def orPanic {α : Type} (r : Except String α) : Outcome α :=
  match r with
  | Except.ok a => pure a
  | Except.error err => throw (Failure.panic err)

/-- The constructor `builder.NewField`: it panics when the name is refused by the check
of the package. -/
def NewField (lib : Library) (name : String) (typ : FieldType) : Outcome FieldBuilder := do
  orPanic (lib.checkName name)
  pure { name := name, type := typ, repeated := false, comments := comment "" "",
         options := none }

/-- The constructor `builder.NewMapField`: a map field is a repeated field of entries. -/
def NewMapField (lib : Library) (name : String) (keyTyp valTyp : FieldType) :
    Outcome FieldBuilder := do
  let f ← NewField lib name (FieldType.map keyTyp valTyp)
  pure { f with repeated := true }

def FieldBuilder.SetComments (f : FieldBuilder) (c : Comments) : FieldBuilder :=
  { f with comments := c }

def FieldBuilder.SetOptions (f : FieldBuilder) (o : Option FieldOptions) : FieldBuilder :=
  { f with options := o }

def FieldBuilder.SetRepeated (f : FieldBuilder) : FieldBuilder :=
  { f with repeated := true }

def FieldTypeMessage (mb : MessageBuilder) : FieldType :=
  FieldType.message mb.name

def FieldTypeImportedMessage (md : MessageDescriptor) : FieldType :=
  FieldType.importedMessage md

/-- The constructor `builder.NewMessage`: it panics when the name is refused by the check
of the package. -/
def NewMessage (lib : Library) (name : String) : Outcome MessageBuilder := do
  orPanic (lib.checkName name)
  pure { name := name, comments := comment "" "", options := none, fields := [] }

def MessageBuilder.SetComments (b : MessageBuilder) (c : Comments) : MessageBuilder :=
  { b with comments := c }

def MessageBuilder.SetOptions (b : MessageBuilder) (o : Option MessageOptions) :
    MessageBuilder :=
  { b with options := o }

/-- The method `MessageBuilder.TryAddField`: a field whose name the message already holds
is refused. -/
def MessageBuilder.TryAddField (lib : Library) (b : MessageBuilder) (f : FieldBuilder) :
    Except String MessageBuilder :=
  if f.name ∈ b.fields.map (fun x => x.name) then Except.error (lib.conflictError f.name)
  else Except.ok { b with fields := b.fields ++ [f] }

def MessageBuilder.AddField (lib : Library) (b : MessageBuilder) (f : FieldBuilder) :
    Outcome MessageBuilder :=
  orPanic (b.TryAddField lib f)

def RpcTypeMessage (mb : MessageBuilder) (stream : Bool) : RpcType :=
  RpcType.message mb.name stream

def RpcTypeImportedMessage (md : MessageDescriptor) (stream : Bool) : RpcType :=
  RpcType.importedMessage md stream

/-- The constructor `builder.NewMethod`: it panics when the name is refused by the check
of the package. -/
def NewMethod (lib : Library) (name : String) (req resp : RpcType) :
    Outcome MethodBuilder := do
  orPanic (lib.checkName name)
  pure { name := name, req := req, resp := resp, comments := comment "" "", options := none }

def MethodBuilder.SetComments (m : MethodBuilder) (c : Comments) : MethodBuilder :=
  { m with comments := c }

def MethodBuilder.SetOptions (m : MethodBuilder) (o : Option MethodOptions) : MethodBuilder :=
  { m with options := o }

/-- The constructor `builder.NewService`: it panics when the name is refused by the check
of the package. -/
def NewService (lib : Library) (name : String) : Outcome ServiceBuilder := do
  orPanic (lib.checkName name)
  pure { name := name, comments := comment "" "", options := none, methods := [] }

/-- The method `ServiceBuilder.SetName` on a service that is not yet part of a file: it
panics when the new name is refused by the check of the package. -/
def ServiceBuilder.SetName (lib : Library) (b : ServiceBuilder) (name : String) :
    Outcome ServiceBuilder := do
  orPanic (lib.checkName name)
  pure { b with name := name }

def ServiceBuilder.SetComments (b : ServiceBuilder) (c : Comments) : ServiceBuilder :=
  { b with comments := c }

def ServiceBuilder.SetOptions (b : ServiceBuilder) (o : Option ServiceOptions) :
    ServiceBuilder :=
  { b with options := o }

/-- The method `ServiceBuilder.TryAddMethod`: a method whose name the service already
holds is refused. -/
def ServiceBuilder.TryAddMethod (lib : Library) (b : ServiceBuilder) (m : MethodBuilder) :
    Except String ServiceBuilder :=
  if m.name ∈ b.methods.map (fun x => x.name) then Except.error (lib.conflictError m.name)
  else Except.ok { b with methods := b.methods ++ [m] }

def ServiceBuilder.AddMethod (lib : Library) (b : ServiceBuilder) (m : MethodBuilder) :
    Outcome ServiceBuilder :=
  orPanic (b.TryAddMethod lib m)

def NewFile (name : String) : FileBuilder :=
  { name := name, IsProto3 := false, Package := "", messages := [], services := [] }

def FileBuilder.SetProto3 (b : FileBuilder) (isProto3 : Bool) : FileBuilder :=
  { b with IsProto3 := isProto3 }

def FileBuilder.SetPackageName (b : FileBuilder) (pkg : String) : FileBuilder :=
  { b with Package := pkg }

/-- The names of the messages and services that the file holds. -/
def FileBuilder.symbols (b : FileBuilder) : List String :=
  b.messages.map (fun x => x.name) ++ b.services.map (fun x => x.name)

/-- The method `FileBuilder.TryAddMessage`: a message whose name the file already holds
is refused. -/
def FileBuilder.TryAddMessage (lib : Library) (b : FileBuilder) (mb : MessageBuilder) :
    Except String FileBuilder :=
  if mb.name ∈ b.symbols then Except.error (lib.conflictError mb.name)
  else Except.ok { b with messages := b.messages ++ [mb] }

def FileBuilder.AddMessage (lib : Library) (b : FileBuilder) (mb : MessageBuilder) :
    Outcome FileBuilder :=
  orPanic (b.TryAddMessage lib mb)

/-- The method `FileBuilder.TryAddService`: a service whose name the file already holds
is refused. -/
def FileBuilder.TryAddService (lib : Library) (b : FileBuilder) (sb : ServiceBuilder) :
    Except String FileBuilder :=
  if sb.name ∈ b.symbols then Except.error (lib.conflictError sb.name)
  else Except.ok { b with services := b.services ++ [sb] }

def FileBuilder.AddService (lib : Library) (b : FileBuilder) (sb : ServiceBuilder) :
    Outcome FileBuilder :=
  orPanic (b.TryAddService lib sb)

/-! ## The schema builder (`builder.go`) -/

/-- The `schemaBuilder` struct from `s.file = b` on: `resource` and `service` are `none`
while the Go pointers are nil.  The service builder that `service` points to is also a
child of `file`. -/
structure schemaBuilder where
  cfg : Config
  file : FileBuilder
  resource : Option MessageBuilder
  service : Option ServiceBuilder
  deriving DecidableEq, Repr

/-- The statement `s.file.AddMessage(mb)`. -/
def schemaBuilder.fileAddMessage (lib : Library) (s : schemaBuilder) (mb : MessageBuilder) :
    Outcome schemaBuilder := do
  let file ← s.file.AddMessage lib mb
  pure { s with file := file }

/-- The value of `s.resource` where the code passes it to the `builder` package. -/
def schemaBuilder.getResource (s : schemaBuilder) : Outcome MessageBuilder :=
  match s.resource with
  | some b => pure b
  | none => throw (Failure.panic "nil pointer dereference")

/-- The statement `s.service.AddMethod(m)`: the method is added to the service builder
that `s.service` points to, which the file holds under the same name. -/
def schemaBuilder.serviceAddMethod (lib : Library) (s : schemaBuilder) (m : MethodBuilder) :
    Outcome schemaBuilder :=
  match s.service with
  | some sb => do
    let sb1 ← sb.AddMethod lib m
    pure { s with
      service := some sb1
      file := { s.file with
        services := s.file.services.map (fun x => if x.name = sb.name then sb1 else x) } }
  | none => throw (Failure.panic "nil pointer dereference")

/-- The message builder `b` of `buildResourceMessage`, as it is when added to the file. -/
def buildResourceMessage.b (lib : Library) (c : Config) : Outcome MessageBuilder := do
  let b ← NewMessage lib c.Resource
  let b := b.SetComments (comment (c.Resource ++ " resource.") "")
  let b := b.SetOptions (messageOptions [resource
    { type := c.ResourceTypeName
      singular := lib.LowerCamelCase c.Resource
      plural := c.ResourceCollectionIdentifier lib }])
  let nameField ← NewField lib "name" FieldType.string
  let nameField := nameField.SetComments (comment "The resource's name." "")
  let nameField := nameField.SetOptions (fieldOptions [identifier])
  let b ← b.AddField lib nameField
  let b ←
    if c.WithDisplayName then do
      let displayNameField ← NewField lib "display_name" FieldType.string
      let displayNameField :=
        displayNameField.SetComments (comment "The resource's display name." "")
      let displayNameField := displayNameField.SetOptions (fieldOptions [optional])
      b.AddField lib displayNameField
    else pure b
  let b ←
    if c.WithTimestamps then do
      let tsDesc ← orPanic (lib.LoadMessageDescriptorForMessage WellKnown.Timestamp)
      let ts := FieldTypeImportedMessage tsDesc
      let createTimeField ← NewField lib "create_time" ts
      let createTimeField := createTimeField.SetComments
        (comment "The time at which the resource was created." "")
      let createTimeField := createTimeField.SetOptions (fieldOptions [outputOnly])
      let b ← b.AddField lib createTimeField
      let updateTimeField ← NewField lib "update_time" ts
      let updateTimeField := updateTimeField.SetComments
        (comment "The time at which the resource was last updated." "")
      let updateTimeField := updateTimeField.SetOptions (fieldOptions [outputOnly])
      b.AddField lib updateTimeField
    else pure b
  let b ←
    if c.WithAnnotations then do
      let annotationsField ←
        NewMapField lib "annotations" FieldType.string FieldType.string
      let annotationsField := annotationsField.SetComments
        (comment "Custom annotations defined by the caller." "")
      let annotationsField := annotationsField.SetOptions (fieldOptions [optional])
      b.AddField lib annotationsField
    else pure b
  pure b

def buildResourceMessage (lib : Library) (s : schemaBuilder) : Outcome schemaBuilder := do
  let b ← buildResourceMessage.b lib s.cfg
  let s ← s.fileAddMessage lib b
  pure { s with resource := some b }

/-- The request message `req` of `buildGetMethod`. -/
def buildGetMethod.req (lib : Library) (c : Config) : Outcome MessageBuilder := do
  let name := "Get" ++ c.Resource
  let reqType := "Get" ++ c.Resource ++ "Request"
  let req ← NewMessage lib reqType
  let req := req.SetComments (comment ("Request for " ++ name ++ " method.") "")
  let nameField ← NewField lib "name" FieldType.string
  let nameField := nameField.SetComments (comment "The name of the resource to retrieve." "")
  let nameField := nameField.SetOptions (fieldOptions [required])
  req.AddField lib nameField

/-- The method `m` of `buildGetMethod`, for the request message `req`; `resource` is the
builder `s.resource`. -/
def buildGetMethod.m (lib : Library) (c : Config) (resource req : MessageBuilder) :
    Outcome MethodBuilder := do
  let name := "Get" ++ c.Resource
  let reqRpc := RpcTypeMessage req false
  let resRpc := RpcTypeMessage resource false
  let m ← NewMethod lib name reqRpc resRpc
  let m := m.SetComments (comment ("Get the " ++ c.Resource ++ " resource") "")
  let m :=
    if c.WithHTTPOptions then
      let rule : HttpRule :=
        { Pattern := HttpPattern.Get ("/v1/\x7bname=" ++ c.ResourceNameUrlRef lib ++ "\x7d")
          Body := "" }
      m.SetOptions (methodOptions [httpRule rule, methodSignature ["name"]])
    else m
  pure m

def buildGetMethod (lib : Library) (s : schemaBuilder) : Outcome schemaBuilder :=
  if !stringsContains s.cfg.Methods "r" then pure s
  else do
    let c := s.cfg
    let req ← buildGetMethod.req lib c
    let m ← buildGetMethod.m lib c (← s.getResource) req
    let s ← s.fileAddMessage lib req
    s.serviceAddMethod lib m

/-- The request message `req` of `buildListMethod`. -/
def buildListMethod.req (lib : Library) (c : Config) : Outcome MessageBuilder := do
  let name := "List" ++ c.Resource
  let reqType := "List" ++ c.Resource ++ "Request"
  let req ← NewMessage lib reqType
  let req := req.SetComments (comment ("Request for " ++ name ++ " method.") "")
  let req ←
    if c.HasParent then do
      let parentField ← NewField lib "parent" FieldType.string
      let parentField := parentField.SetComments (comment "The resource's parent." "")
      let parentField := parentField.SetOptions (fieldOptions [required])
      req.AddField lib parentField
    else pure req
  let pageSizeField ← NewField lib "page_size" FieldType.int32
  let pageSizeField := pageSizeField.SetComments
    (comment "The maximum number of resources to return." "")
  let pageSizeField := pageSizeField.SetOptions (fieldOptions [optional])
  let req ← req.AddField lib pageSizeField
  let pageTokenField ← NewField lib "page_token" FieldType.string
  let pageTokenField := pageTokenField.SetComments (comment
    "The page token to use for pagination. Provide this to retrieve subsequent page" "")
  let pageTokenField := pageTokenField.SetOptions (fieldOptions [optional])
  let req ← req.AddField lib pageTokenField
  let req ←
    if c.WithListFilter then do
      let filterField ← NewField lib "filter" FieldType.string
      let filterField := filterField.SetComments
        (comment "The filter to apply to list results." "")
      let filterField := filterField.SetOptions (fieldOptions [optional])
      req.AddField lib filterField
    else pure req
  let req ←
    if c.WithListOrderBy then do
      let orderByField ← NewField lib "order_by" FieldType.string
      let orderByField := orderByField.SetComments
        (comment "The order to list results by." "")
      let orderByField := orderByField.SetOptions (fieldOptions [optional])
      req.AddField lib orderByField
    else pure req
  pure req

/-- The response message `res` of `buildListMethod`; `resource` is the builder
`s.resource`. -/
def buildListMethod.res (lib : Library) (c : Config) (resource : MessageBuilder) :
    Outcome MessageBuilder := do
  let name := "List" ++ c.Resource
  let resType := "List" ++ c.Resource ++ "Response"
  let res ← NewMessage lib resType
  let res := res.SetComments (comment ("Response for " ++ name ++ " method.") "")
  let resourceField ←
    NewField lib (c.PluralResourceSnakeCase lib) (FieldTypeMessage resource)
  let resourceField := resourceField.SetRepeated
  let resourceField := resourceField.SetComments
    (comment ("The list of " ++ c.Resource ++ " resources.") "")
  let res ← res.AddField lib resourceField
  let nextTokenField ← NewField lib "next_page_token" FieldType.string
  let nextTokenField := nextTokenField.SetComments (comment
    "The token to retrieve the next page of results, or empty if there are no more results."
    "")
  res.AddField lib nextTokenField

/-- The method `m` of `buildListMethod`, for the request message `req` and the response
message `res`. -/
def buildListMethod.m (lib : Library) (c : Config) (req res : MessageBuilder) :
    Outcome MethodBuilder := do
  let name := "List" ++ c.Resource
  let reqRpc := RpcTypeMessage req false
  let resRpc := RpcTypeMessage res false
  let m ← NewMethod lib name reqRpc resRpc
  let m := m.SetComments (comment ("List the " ++ c.Resource ++ " resources") "")
  let m :=
    if c.WithHTTPOptions then
      let parentVar := ""
      let methodSig := ""
      let (parentVar, methodSig) :=
        if c.HasParent then ("\x7bparent=" ++ c.ParentNameUrlRef ++ "\x7d/", "parent")
        else (parentVar, methodSig)
      let rule : HttpRule :=
        { Pattern := HttpPattern.Get
            ("/v1/" ++ parentVar ++ c.ResourceCollectionIdentifier lib)
          Body := "" }
      m.SetOptions (methodOptions [httpRule rule, methodSignature [methodSig]])
    else m
  pure m

def buildListMethod (lib : Library) (s : schemaBuilder) : Outcome schemaBuilder :=
  if !stringsContains s.cfg.Methods "l" then pure s
  else do
    let c := s.cfg
    let req ← buildListMethod.req lib c
    let res ← buildListMethod.res lib c (← s.getResource)
    let m ← buildListMethod.m lib c req res
    let s ← s.fileAddMessage lib req
    let s ← s.fileAddMessage lib res
    s.serviceAddMethod lib m

/-- The request message `req` of `buildCreateMethod`; `resource` is the builder
`s.resource`. -/
def buildCreateMethod.req (lib : Library) (c : Config) (resource : MessageBuilder) :
    Outcome MessageBuilder := do
  let name := "Create" ++ c.Resource
  let reqType := "Create" ++ c.Resource ++ "Request"
  let req ← NewMessage lib reqType
  let req := req.SetComments (comment ("Request for " ++ name ++ " method.") "")
  let req ←
    if c.HasParent then do
      let parentField ← NewField lib "parent" FieldType.string
      let parentField := parentField.SetComments (comment "The resource's parent." "")
      let parentField := parentField.SetOptions (fieldOptions [required])
      req.AddField lib parentField
    else pure req
  let idField ← NewField lib (c.ResourceSnakeCase lib ++ "_id") FieldType.string
  let idField := idField.SetComments (comment
    "The ID to use for the resource. It will become the final component of the name." "")
  let idField :=
    if c.IDRequired then idField.SetOptions (fieldOptions [required]) else idField
  let req ← req.AddField lib idField
  let resourceField ← NewField lib (c.ResourceSnakeCase lib) (FieldTypeMessage resource)
  let resourceField := resourceField.SetComments
    (comment ("The " ++ c.Resource ++ " resource to create.") "")
  let resourceField := resourceField.SetOptions (fieldOptions [required])
  req.AddField lib resourceField

/-- The method `m` of `buildCreateMethod`, for the request message `req`; `resource` is
the builder `s.resource`. -/
def buildCreateMethod.m (lib : Library) (c : Config) (resource req : MessageBuilder) :
    Outcome MethodBuilder := do
  let name := "Create" ++ c.Resource
  let reqRpc := RpcTypeMessage req false
  let resRpc := RpcTypeMessage resource false
  let m ← NewMethod lib name reqRpc resRpc
  let m := m.SetComments (comment ("Create a new " ++ c.Resource ++ " resource") "")
  let m :=
    if c.WithHTTPOptions then
      let parentVar := ""
      let methodSig := c.ResourceSnakeCase lib
      let methodSig :=
        if c.IDRequired then methodSig ++ ("," ++ c.ResourceSnakeCase lib ++ "_id")
        else methodSig
      let (parentVar, methodSig) :=
        if c.HasParent then
          ("\x7bparent=" ++ c.ParentNameUrlRef ++ "\x7d/", "parent," ++ methodSig)
        else (parentVar, methodSig)
      let rule : HttpRule :=
        { Pattern := HttpPattern.Post
            ("/v1/" ++ parentVar ++ c.ResourceCollectionIdentifier lib)
          Body := c.ResourceSnakeCase lib }
      m.SetOptions (methodOptions [httpRule rule, methodSignature [methodSig]])
    else m
  pure m

def buildCreateMethod (lib : Library) (s : schemaBuilder) : Outcome schemaBuilder :=
  if !stringsContains s.cfg.Methods "c" then pure s
  else do
    let c := s.cfg
    let req ← buildCreateMethod.req lib c (← s.getResource)
    let m ← buildCreateMethod.m lib c (← s.getResource) req
    let s ← s.fileAddMessage lib req
    s.serviceAddMethod lib m

/-- The request message `req` of `buildUpdateMethod`; `resource` is the builder
`s.resource`. -/
def buildUpdateMethod.req (lib : Library) (c : Config) (resource : MessageBuilder) :
    Outcome MessageBuilder := do
  let name := "Update" ++ c.Resource
  let reqType := "Update" ++ c.Resource ++ "Request"
  let req ← NewMessage lib reqType
  let req := req.SetComments (comment ("Request for " ++ name ++ " method.") "")
  let resourceField ← NewField lib (c.ResourceSnakeCase lib) (FieldTypeMessage resource)
  let resourceField := resourceField.SetComments
    (comment ("The " ++ c.Resource ++ " resource to update. The resource must have") "")
  let resourceField := resourceField.SetOptions (fieldOptions [required])
  let req ← req.AddField lib resourceField
  let req ←
    if c.WithUpdateFieldMask then do
      let fieldMaskDesc ← orPanic (lib.LoadMessageDescriptorForMessage WellKnown.FieldMask)
      let fm := FieldTypeImportedMessage fieldMaskDesc
      let updateMaskField ← NewField lib "update_mask" fm
      let updateMaskField := updateMaskField.SetComments
        (comment "The list of fields to update." "")
      let updateMaskField := updateMaskField.SetOptions (fieldOptions [optional])
      req.AddField lib updateMaskField
    else pure req
  let req ←
    if c.WithUpdateAllowMissing then do
      let allowMissingField ← NewField lib "allow_missing" FieldType.bool
      let allowMissingField := allowMissingField.SetComments (comment
        "If set to true, and the resource is not found, a new resource will be created." "")
      let allowMissingField := allowMissingField.SetOptions (fieldOptions [optional])
      req.AddField lib allowMissingField
    else pure req
  pure req

/-- The method `m` of `buildUpdateMethod`, for the request message `req`; `resource` is
the builder `s.resource`. -/
def buildUpdateMethod.m (lib : Library) (c : Config) (resource req : MessageBuilder) :
    Outcome MethodBuilder := do
  let name := "Update" ++ c.Resource
  let reqRpc := RpcTypeMessage req false
  let resRpc := RpcTypeMessage resource false
  let m ← NewMethod lib name reqRpc resRpc
  let m := m.SetComments (comment ("Update the " ++ c.Resource ++ " resource") "")
  let m :=
    if c.WithHTTPOptions then
      let nameVar :=
        "\x7b" ++ c.ResourceSnakeCase lib ++ ".name=" ++ c.ResourceNameUrlRef lib ++ "\x7d"
      let methodSig := c.ResourceSnakeCase lib
      let methodSig :=
        if c.WithUpdateFieldMask then methodSig ++ ",update_mask" else methodSig
      let rule : HttpRule :=
        { Pattern := HttpPattern.Patch ("/v1/" ++ nameVar)
          Body := c.ResourceSnakeCase lib }
      m.SetOptions (methodOptions [httpRule rule, methodSignature [methodSig]])
    else m
  pure m

def buildUpdateMethod (lib : Library) (s : schemaBuilder) : Outcome schemaBuilder :=
  if !stringsContains s.cfg.Methods "u" then pure s
  else do
    let c := s.cfg
    let req ← buildUpdateMethod.req lib c (← s.getResource)
    let m ← buildUpdateMethod.m lib c (← s.getResource) req
    let s ← s.fileAddMessage lib req
    s.serviceAddMethod lib m

/-- The request message `req` of `buildDeleteMethod`. -/
def buildDeleteMethod.req (lib : Library) (c : Config) : Outcome MessageBuilder := do
  let name := "Delete" ++ c.Resource
  let reqType := "Delete" ++ c.Resource ++ "Request"
  let req ← NewMessage lib reqType
  let req := req.SetComments (comment ("Request for " ++ name ++ " method.") "")
  let nameField ← NewField lib "name" FieldType.string
  let nameField := nameField.SetComments (comment "The name of the resource to delete." "")
  let nameField := nameField.SetOptions (fieldOptions [required])
  let req ← req.AddField lib nameField
  let req ←
    if c.WithUpdateAllowMissing then do
      let allowMissingField ← NewField lib "allow_missing" FieldType.bool
      let allowMissingField := allowMissingField.SetComments (comment
        "If set to true, and the resource is not found, no errors will be returned." "")
      let allowMissingField := allowMissingField.SetOptions (fieldOptions [optional])
      req.AddField lib allowMissingField
    else pure req
  pure req

/-- The method `m` of `buildDeleteMethod`, for the request message `req`. -/
def buildDeleteMethod.m (lib : Library) (c : Config) (req : MessageBuilder) :
    Outcome MethodBuilder := do
  let name := "Delete" ++ c.Resource
  let reqRpc := RpcTypeMessage req false
  let emptyDesc ← orPanic (lib.LoadMessageDescriptorForMessage WellKnown.Empty)
  let resRpc := RpcTypeImportedMessage emptyDesc false
  let m ← NewMethod lib name reqRpc resRpc
  let m := m.SetComments (comment ("Delete the " ++ c.Resource ++ " resource") "")
  let m :=
    if c.WithHTTPOptions then
      let nameVar := "\x7bname=" ++ c.ResourceNameUrlRef lib ++ "\x7d"
      let rule : HttpRule :=
        { Pattern := HttpPattern.Delete ("/v1/" ++ nameVar)
          Body := "" }
      m.SetOptions (methodOptions [httpRule rule, methodSignature ["name"]])
    else m
  pure m

def buildDeleteMethod (lib : Library) (s : schemaBuilder) : Outcome schemaBuilder :=
  if !stringsContains s.cfg.Methods "d" then pure s
  else do
    let c := s.cfg
    let req ← buildDeleteMethod.req lib c
    let m ← buildDeleteMethod.m lib c req
    let s ← s.fileAddMessage lib req
    s.serviceAddMethod lib m

/-- The service builder `b` of `buildServiceDescriptor`, as it is when added to the
file. -/
def buildServiceDescriptor.b (lib : Library) (c : Config) : Outcome ServiceBuilder := do
  let b ← NewService lib c.Resource
  let b ← b.SetName lib (c.Resource ++ "Service")
  let b := b.SetComments
    (comment ("Service for managing the " ++ c.Resource ++ " resource.") "")
  pure (b.SetOptions (serviceOptions [defaultHost c.Service]))

def buildServiceDescriptor (lib : Library) (s : schemaBuilder) : Outcome schemaBuilder := do
  let c := s.cfg
  let b ← buildServiceDescriptor.b lib c
  let file ← s.file.AddService lib b
  let s := { s with file := file }
  let s := { s with service := some b }
  let s ← buildGetMethod lib s
  let s ← buildListMethod lib s
  let s ← buildCreateMethod lib s
  let s ← buildUpdateMethod lib s
  buildDeleteMethod lib s

/-- The statements of `buildDescriptor` before `b.Build()`: the state in which the file
builder is handed to `Build`. -/
def assemble (lib : Library) (c : Config) : Outcome schemaBuilder := do
  let b := NewFile (c.Resource ++ ".proto")
  let b := b.SetProto3 (c.Syntax == "proto3")
  let b := b.SetPackageName c.Package
  let s : schemaBuilder := { cfg := c, file := b, resource := none, service := none }
  let s ← buildResourceMessage lib s
  buildServiceDescriptor lib s

def buildDescriptor (lib : Library) (c : Config) : Outcome FileDescriptor := do
  let s ← assemble lib c
  match lib.Build s.file with
  | Except.ok d => pure d
  | Except.error err => throw (Failure.error err)

/-- The method `schemaBuilder.Build`, called on `&schemaBuilder{cfg: &cfg}`. -/
def Build (lib : Library) (c : Config) : Outcome FileDescriptor :=
  buildDescriptor lib c

/-! ## The five verbs -/

/-- The five method builders, in the order in which `buildServiceDescriptor` calls them. -/
inductive Verb where
  | get
  | list
  | create
  | update
  | delete
  deriving DecidableEq, Repr

/-- The letter that the guard of the verb's builder looks for in `Config.Methods`. -/
def Verb.letter : Verb → String
  | Verb.get => "r"
  | Verb.list => "l"
  | Verb.create => "c"
  | Verb.update => "u"
  | Verb.delete => "d"

/-- The word with which the verb's builder starts the method and message names. -/
def Verb.word : Verb → String
  | Verb.get => "Get"
  | Verb.list => "List"
  | Verb.create => "Create"
  | Verb.update => "Update"
  | Verb.delete => "Delete"

/-- The calling order of `buildServiceDescriptor`. -/
def Verb.all : List Verb :=
  [Verb.get, Verb.list, Verb.create, Verb.update, Verb.delete]

/-- The guard of the verb's builder: `strings.Contains(s.cfg.Methods, letter)`. -/
def Config.enabled (c : Config) (v : Verb) : Bool :=
  stringsContains c.Methods v.letter

/-- The state `s` with `Config.Methods` replaced: the state of a run whose configuration
differs in the method letters only. -/
def schemaBuilder.withMethods (s : schemaBuilder) (methods : String) : schemaBuilder :=
  { s with cfg := { s.cfg with Methods := methods } }

/-! ## Patterns with placeholders -/

/-- A piece of a name pattern as the specification describes one: literal text, or a
placeholder written as the name between braces. -/
inductive PatternPart where
  | text (t : List Char)
  | placeholder (name : List Char)
  deriving DecidableEq, Repr

/-- The characters of a piece in the pattern string. -/
def PatternPart.render : PatternPart → List Char
  | PatternPart.text t => t
  | PatternPart.placeholder name => '{' :: (name ++ ['}'])

/-- The piece with a placeholder turned into the wildcard `*`. -/
def PatternPart.wildcard : PatternPart → List Char
  | PatternPart.text t => t
  | PatternPart.placeholder _ => ['*']

def PatternPart.isPlaceholder : PatternPart → Bool
  | PatternPart.text _ => false
  | PatternPart.placeholder _ => true

/-- Literal text holds no brace and no `*`; a placeholder name is not empty and holds no
closing brace. -/
def PatternPart.wellFormed : PatternPart → Bool
  | PatternPart.text t => !t.contains '{' && !t.contains '}' && !t.contains '*'
  | PatternPart.placeholder name => !name.isEmpty && !name.contains '}'

/-! ## Top-level names -/

/-- The declarations that the builders register with the file: the resource message
(`buildResourceMessage`), the service (`buildServiceDescriptor`), the request message of a
verb, and the response message of `buildListMethod`. -/
inductive TopLevel where
  | resource
  | service
  | request (v : Verb)
  | listResponse
  deriving DecidableEq, Repr

/-- The name under which the builder creates the declaration. -/
def TopLevel.name (c : Config) : TopLevel → String
  | TopLevel.resource => c.Resource
  | TopLevel.service => c.Resource ++ "Service"
  | TopLevel.request v => v.word ++ c.Resource ++ "Request"
  | TopLevel.listResponse => "List" ++ c.Resource ++ "Response"

/-! ## Defaults of the command (`main.go`) -/

/-- The default of `RunE`: an empty `PluralResource` becomes `Resource` followed by `s`. -/
def defaultPluralResource (cfg : Config) : Config :=
  if cfg.PluralResource == "" then { cfg with PluralResource := cfg.Resource ++ "s" } else cfg

/-! ## What a method refers to -/

/-- The URL template of an HTTP pattern. -/
def HttpPattern.path : HttpPattern → String
  | HttpPattern.Get path => path
  | HttpPattern.Put path => path
  | HttpPattern.Post path => path
  | HttpPattern.Delete path => path
  | HttpPattern.Patch path => path

/-- The field names that the verb's builder joins with commas into `methodSig`, in
order. -/
def signatureFields (lib : Library) (c : Config) : Verb → List String
  | Verb.get => ["name"]
  | Verb.list => if c.HasParent then ["parent"] else []
  | Verb.create =>
    (if c.HasParent then ["parent"] else []) ++ [c.ResourceSnakeCase lib] ++
      (if c.IDRequired then [c.ResourceSnakeCase lib ++ "_id"] else [])
  | Verb.update =>
    [c.ResourceSnakeCase lib] ++ (if c.WithUpdateFieldMask then ["update_mask"] else [])
  | Verb.delete => ["name"]

/-- The variable that the verb's builder binds in the URL template, between the opening
brace and the `=` sign: `name` for Get and Delete, `parent` for List and Create when a
parent is configured (none otherwise), and snake(Resource) followed by `.name` for
Update. -/
def urlVariable (lib : Library) (c : Config) : Verb → Option String
  | Verb.get => some "name"
  | Verb.list => if c.HasParent then some "parent" else none
  | Verb.create => if c.HasParent then some "parent" else none
  | Verb.update => some (c.ResourceSnakeCase lib ++ ".name")
  | Verb.delete => some "name"

/-! ## Views of the file builder -/

/-- The method without its options. -/
def MethodBuilder.withoutOptions (m : MethodBuilder) : MethodBuilder :=
  { m with options := none }

/-- The file builder with the options of every method removed: what is left is the
messages with their fields, the service, and the names, types and comments of the
methods. -/
def FileBuilder.withoutMethodOptions (b : FileBuilder) : FileBuilder :=
  { b with services := b.services.map (fun sb =>
      { sb with methods := sb.methods.map MethodBuilder.withoutOptions }) }

/-! ## Concrete inputs -/

/-- An instance of the imported functions at which the theorems are instantiated: both
casing functions lower-case the ASCII letters (as `strcase` does on a capitalised single
word such as `Book`), the three well-known descriptors load, `Build` succeeds, and the
names accepted are the non-empty ones made of ASCII letters, digits and underscores that do
not start with a digit; the text of its errors stands for that of the package. -/
def exampleLibrary : Library :=
  { SnakeCase := fun s => String.mk (s.data.map Char.toLower)
    LowerCamelCase := fun s => String.mk (s.data.map Char.toLower)
    LoadMessageDescriptorForMessage := fun w =>
      match w with
      | WellKnown.Timestamp => Except.ok { fullName := "google.protobuf.Timestamp" }
      | WellKnown.FieldMask => Except.ok { fullName := "google.protobuf.FieldMask" }
      | WellKnown.Empty => Except.ok { fullName := "google.protobuf.Empty" }
    Build := fun b => Except.ok { file := b }
    checkName := fun name =>
      match name.data with
      | [] => Except.error "empty name"
      | ch :: rest =>
        if (ch.isAlpha || ch == '_') && rest.all (fun x => x.isAlphanum || x == '_') then
          Except.ok ()
        else Except.error ("invalid name " ++ name)
    conflictError := fun name => "duplicate name " ++ name }

/-- The example scenario: resource `Book` of service `Library` under the parent
`publishers/{publisher}`, all five methods, every toggle at its flag default. -/
def exampleConfig : Config :=
  { Syntax := "proto3"
    Resource := "Book"
    PluralResource := "Books"
    Package := "library.v1"
    Service := "Library"
    Methods := "crudl"
    IDRequired := false
    ParentPattern := "publishers/\x7bpublisher\x7d"
    WithDisplayName := true
    WithTimestamps := true
    WithAnnotations := true
    WithListOrderBy := true
    WithListFilter := true
    WithUpdateFieldMask := true
    WithUpdateAllowMissing := true
    WithDeleteAllowMissing := true
    WithHTTPOptions := true
    Compact := false }


/-- The state in which `buildDescriptor` calls `buildResourceMessage` for the example
scenario. -/
def exampleState : schemaBuilder :=
  { cfg := exampleConfig
    file := ((NewFile "Book.proto").SetProto3 true).SetPackageName "library.v1"
    resource := none
    service := none }

/-- An instance of the imported functions in which no well-known descriptor loads. -/
def failingLibrary : Library :=
  { exampleLibrary with
    LoadMessageDescriptorForMessage := fun _ => Except.error "descriptor not found" }

/-! ## Names that the builder package checks -/

/-- The names that the verb's builder passes to `NewMessage`, `NewField` and `NewMethod`,
whatever the toggles. -/
def Verb.names (lib : Library) (c : Config) : Verb → List String
  | Verb.get => ["Get" ++ c.Resource ++ "Request", "name", "Get" ++ c.Resource]
  | Verb.list =>
    ["List" ++ c.Resource ++ "Request", "parent", "page_size", "page_token", "filter",
     "order_by", "List" ++ c.Resource ++ "Response", c.PluralResourceSnakeCase lib,
     "next_page_token", "List" ++ c.Resource]
  | Verb.create =>
    ["Create" ++ c.Resource ++ "Request", "parent", c.ResourceSnakeCase lib ++ "_id",
     c.ResourceSnakeCase lib, "Create" ++ c.Resource]
  | Verb.update =>
    ["Update" ++ c.Resource ++ "Request", c.ResourceSnakeCase lib, "update_mask",
     "allow_missing", "Update" ++ c.Resource]
  | Verb.delete =>
    ["Delete" ++ c.Resource ++ "Request", "name", "allow_missing", "Delete" ++ c.Resource]

/-- The names that a run passes to the constructors of the `builder` package: those of
`buildResourceMessage` and `buildServiceDescriptor` whatever the toggles, and those of the
verbs whose letter occurs in `Config.Methods`. -/
def checkedNames (lib : Library) (c : Config) : List String :=
  [c.Resource, "name", "display_name", "create_time", "update_time", "annotations",
   c.Resource ++ "Service"]
    ++ ((Verb.all.filter c.enabled).map (Verb.names lib c)).flatten

/-- The configurations that pass the checks of the `builder` package: every name that the
run passes to a constructor is accepted by `checkName`, and a field name computed from
the configuration differs from the literal field names of its message (`next_page_token`
in the List response, `parent` in the Create request, `update_mask` and `allow_missing`
in the Update request). -/
def accepted (lib : Library) (c : Config) : Prop :=
  (∀ n ∈ checkedNames lib c, lib.checkName n = Except.ok ()) ∧
  (c.enabled Verb.list = true → c.PluralResourceSnakeCase lib ≠ "next_page_token") ∧
  (c.enabled Verb.create = true → c.HasParent = true →
    c.ResourceSnakeCase lib ++ "_id" ≠ "parent" ∧ c.ResourceSnakeCase lib ≠ "parent") ∧
  (c.enabled Verb.update = true → c.WithUpdateFieldMask = true →
    c.ResourceSnakeCase lib ≠ "update_mask") ∧
  (c.enabled Verb.update = true → c.WithUpdateAllowMissing = true →
    c.ResourceSnakeCase lib ≠ "allow_missing")

/-- Every result that the call returns has the property `P`; a call that panics or
returns an error has no result. -/
def holds {α : Type} (x : Outcome α) (P : α → Prop) : Prop :=
  ∀ a, x = Except.ok a → P a

/-- The names of the fields of a message, in order. -/
def MessageBuilder.fieldNames (b : MessageBuilder) : List String :=
  b.fields.map (fun f => f.name)

/-! ## The builders of a run -/

/-- The builders that a run creates: the resource message, the service as it is added to
the file, and for every verb its request message (for List also the response message) and
its method.  The entries of a verb whose letter does not occur in `Config.Methods` are not
used. -/
structure Parts where
  res : MessageBuilder
  svc : ServiceBuilder
  getReq : MessageBuilder
  getM : MethodBuilder
  listReq : MessageBuilder
  listRes : MessageBuilder
  listM : MethodBuilder
  createReq : MessageBuilder
  createM : MethodBuilder
  updateReq : MessageBuilder
  updateM : MethodBuilder
  deleteReq : MessageBuilder
  deleteM : MethodBuilder

/-- The messages that the verb's builder adds to the file, in order. -/
def Parts.messagesOf (p : Parts) : Verb → List MessageBuilder
  | Verb.get => [p.getReq]
  | Verb.list => [p.listReq, p.listRes]
  | Verb.create => [p.createReq]
  | Verb.update => [p.updateReq]
  | Verb.delete => [p.deleteReq]

/-- The request message of the verb. -/
def Parts.requestOf (p : Parts) : Verb → MessageBuilder
  | Verb.get => p.getReq
  | Verb.list => p.listReq
  | Verb.create => p.createReq
  | Verb.update => p.updateReq
  | Verb.delete => p.deleteReq

/-- The method that the verb's builder adds to the service. -/
def Parts.methodOf (p : Parts) : Verb → MethodBuilder
  | Verb.get => p.getM
  | Verb.list => p.listM
  | Verb.create => p.createM
  | Verb.update => p.updateM
  | Verb.delete => p.deleteM

/-- The parts are what the builders of the run return: the resource message and the
service, and the messages and the method of every verb whose letter occurs in
`Config.Methods`. -/
def Parts.built (lib : Library) (c : Config) (p : Parts) : Prop :=
  buildResourceMessage.b lib c = Except.ok p.res ∧
  buildServiceDescriptor.b lib c = Except.ok p.svc ∧
  (c.enabled Verb.get = true →
    buildGetMethod.req lib c = Except.ok p.getReq ∧
    buildGetMethod.m lib c p.res p.getReq = Except.ok p.getM) ∧
  (c.enabled Verb.list = true →
    buildListMethod.req lib c = Except.ok p.listReq ∧
    buildListMethod.res lib c p.res = Except.ok p.listRes ∧
    buildListMethod.m lib c p.listReq p.listRes = Except.ok p.listM) ∧
  (c.enabled Verb.create = true →
    buildCreateMethod.req lib c p.res = Except.ok p.createReq ∧
    buildCreateMethod.m lib c p.res p.createReq = Except.ok p.createM) ∧
  (c.enabled Verb.update = true →
    buildUpdateMethod.req lib c p.res = Except.ok p.updateReq ∧
    buildUpdateMethod.m lib c p.res p.updateReq = Except.ok p.updateM) ∧
  (c.enabled Verb.delete = true →
    buildDeleteMethod.req lib c = Except.ok p.deleteReq ∧
    buildDeleteMethod.m lib c p.deleteReq = Except.ok p.deleteM)

/-- The service with the methods of the enabled verbs, in the calling order of
`buildServiceDescriptor`. -/
def Parts.service (c : Config) (p : Parts) : ServiceBuilder :=
  { p.svc with methods := (Verb.all.filter c.enabled).map p.methodOf }

/-- The state made of the parts: the file holds the resource message followed by the
messages of the enabled verbs, and the service with the methods of the enabled verbs, in
the calling order of `buildServiceDescriptor`. -/
def Parts.state (c : Config) (p : Parts) : schemaBuilder :=
  { cfg := c
    file :=
      { name := c.Resource ++ ".proto"
        IsProto3 := c.Syntax == "proto3"
        Package := c.Package
        messages := p.res :: (Verb.all.filter c.enabled).flatMap p.messagesOf
        services := [p.service c] }
    resource := some p.res
    service := some (p.service c) }

/-- The names of the messages that the verb's builder adds to the file, in order. -/
def Verb.messageNames (c : Config) (v : Verb) : List String :=
  if v = Verb.list then
    ["List" ++ c.Resource ++ "Request", "List" ++ c.Resource ++ "Response"]
  else [v.word ++ c.Resource ++ "Request"]

/-! ## Auxiliary facts -/

theorem stringsContains_data (l : List Char) (ch : Char) :
    (l.tails.any fun t => [ch].isPrefixOf t) = decide (ch ∈ l) := by
  induction l with
  | nil => simp [List.isPrefixOf]
  | cons a l ih =>
    simp only [List.tails, List.any_cons, ih]
    by_cases h : ch = a
    · subst h; simp [List.isPrefixOf]
    · have h2 : ¬ a = ch := fun e => h e.symm
      simp [List.isPrefixOf, h, h2]

/-- For a one-character needle `strings.Contains` is membership of that character. -/
theorem stringsContains_char (s needle : String) (ch : Char) (h : needle.data = [ch]) :
    stringsContains s needle = decide (ch ∈ s.data) := by
  unfold stringsContains
  rw [h]
  exact stringsContains_data s.data ch

/-! ### Results of calls that may panic -/

theorem holds_ok {α : Type} (a : α) (P : α → Prop) :
    holds (Except.ok a : Outcome α) P ↔ P a := by
  constructor
  · intro h; exact h a rfl
  · intro h b e; cases e; exact h

theorem holds_pure {α : Type} (a : α) (P : α → Prop) :
    holds (pure a : Outcome α) P ↔ P a := holds_ok a P

theorem holds_error {α : Type} (f : Failure) (P : α → Prop) :
    holds (Except.error f : Outcome α) P ↔ True := by
  constructor
  · intro _; trivial
  · intro _ b e; cases e

theorem holds_throw {α : Type} (f : Failure) (P : α → Prop) :
    holds (throw f : Outcome α) P ↔ True := holds_error f P

theorem holds_bind {α β : Type} (x : Outcome α) (f : α → Outcome β) (P : β → Prop) :
    holds (x >>= f) P ↔ holds x (fun a => holds (f a) P) := by
  cases x with
  | error e =>
    constructor
    · intro _ b e; cases e
    · intro _ b e; cases e
  | ok a =>
    constructor
    · intro h b e; cases e; exact h
    · intro h; exact h a rfl

theorem holds_map {α β : Type} (x : Outcome α) (f : α → β) (P : β → Prop) :
    holds (f <$> x) P ↔ holds x (fun a => P (f a)) := by
  cases x with
  | error e =>
    constructor
    · intro _ b e; cases e
    · intro _ b e; cases e
  | ok a =>
    constructor
    · intro h b e; cases e; exact h (f a) rfl
    · intro h b e; cases e; exact h a rfl

theorem holds_ite {α : Type} (b : Bool) (x y : Outcome α) (P : α → Prop) :
    holds (if b = true then x else y) P ↔ (b = true → holds x P) ∧ (b = false → holds y P) := by
  cases b <;> simp

theorem holds_orPanic {α : Type} (r : Except String α) (P : α → Prop) :
    holds (orPanic r) P ↔ ∀ a, r = Except.ok a → P a := by
  cases r with
  | error e =>
    constructor
    · intro _ b e; cases e
    · intro _ b e; cases e
  | ok a =>
    constructor
    · intro h b e; cases e; exact h a rfl
    · intro h b e; cases e; exact h a rfl

theorem holds_mono {α : Type} (x : Outcome α) (P Q : α → Prop) (h : holds x P)
    (hPQ : ∀ a, P a → Q a) : holds x Q :=
  fun a e => hPQ a (h a e)

theorem holds_NewMessage (lib : Library) (name : String) (P : MessageBuilder → Prop) :
    holds (NewMessage lib name) P ↔
      (lib.checkName name = Except.ok () →
        P { name := name, comments := comment "" "", options := none, fields := [] }) := by
  simp only [NewMessage, holds_bind, holds_orPanic, holds_pure]
  constructor
  · intro h e; exact h () e
  · intro h _ e; exact h e

theorem holds_NewField (lib : Library) (name : String) (typ : FieldType)
    (P : FieldBuilder → Prop) :
    holds (NewField lib name typ) P ↔
      (lib.checkName name = Except.ok () →
        P { name := name, type := typ, repeated := false, comments := comment "" "",
            options := none }) := by
  simp only [NewField, holds_bind, holds_orPanic, holds_pure]
  constructor
  · intro h e; exact h () e
  · intro h _ e; exact h e

theorem holds_NewMapField (lib : Library) (name : String) (k v : FieldType)
    (P : FieldBuilder → Prop) :
    holds (NewMapField lib name k v) P ↔
      (lib.checkName name = Except.ok () →
        P { name := name, type := FieldType.map k v, repeated := true,
            comments := comment "" "", options := none }) := by
  simp only [NewMapField, holds_bind, holds_NewField, holds_pure]

theorem holds_NewMethod (lib : Library) (name : String) (req resp : RpcType)
    (P : MethodBuilder → Prop) :
    holds (NewMethod lib name req resp) P ↔
      (lib.checkName name = Except.ok () →
        P { name := name, req := req, resp := resp, comments := comment "" "",
            options := none }) := by
  simp only [NewMethod, holds_bind, holds_orPanic, holds_pure]
  constructor
  · intro h e; exact h () e
  · intro h _ e; exact h e

theorem holds_AddField (lib : Library) (b : MessageBuilder) (f : FieldBuilder)
    (P : MessageBuilder → Prop) :
    holds (b.AddField lib f) P ↔
      (f.name ∉ b.fieldNames → P { b with fields := b.fields ++ [f] }) := by
  unfold MessageBuilder.AddField MessageBuilder.TryAddField MessageBuilder.fieldNames
  by_cases h : f.name ∈ b.fields.map (fun x => x.name)
  · simp [h, holds_orPanic]
  · simp [h, holds_orPanic]


/-! ### The names that pass the checks -/

theorem accepted_core (lib : Library) (c : Config) (h : accepted lib c) :
    lib.checkName c.Resource = Except.ok () ∧
    lib.checkName "name" = Except.ok () ∧
    lib.checkName "display_name" = Except.ok () ∧
    lib.checkName "create_time" = Except.ok () ∧
    lib.checkName "update_time" = Except.ok () ∧
    lib.checkName "annotations" = Except.ok () ∧
    lib.checkName (c.Resource ++ "Service") = Except.ok () := by
  obtain ⟨hn, -⟩ := h
  refine ⟨hn _ ?_, hn _ ?_, hn _ ?_, hn _ ?_, hn _ ?_, hn _ ?_, hn _ ?_⟩ <;>
    simp [checkedNames]

theorem accepted_verb (lib : Library) (c : Config) (h : accepted lib c) (v : Verb)
    (he : c.enabled v = true) (n : String) (hn : n ∈ Verb.names lib c v) :
    lib.checkName n = Except.ok () := by
  apply h.1
  unfold checkedNames
  refine List.mem_append_right _ (List.mem_flatten.2 ⟨_, List.mem_map.2 ⟨v, ?_, rfl⟩, hn⟩)
  refine List.mem_filter.2 ⟨?_, he⟩
  cases v <;> simp [Verb.all]

theorem accepted_get (lib : Library) (c : Config) (h : accepted lib c)
    (he : c.enabled Verb.get = true) :
    lib.checkName ("Get" ++ c.Resource ++ "Request") = Except.ok () ∧
    lib.checkName "name" = Except.ok () ∧
    lib.checkName ("Get" ++ c.Resource) = Except.ok () := by
  have := accepted_verb lib c h Verb.get he
  simpa [Verb.names] using this

theorem accepted_list (lib : Library) (c : Config) (h : accepted lib c)
    (he : c.enabled Verb.list = true) :
    lib.checkName ("List" ++ c.Resource ++ "Request") = Except.ok () ∧
    lib.checkName "parent" = Except.ok () ∧
    lib.checkName "page_size" = Except.ok () ∧
    lib.checkName "page_token" = Except.ok () ∧
    lib.checkName "filter" = Except.ok () ∧
    lib.checkName "order_by" = Except.ok () ∧
    lib.checkName ("List" ++ c.Resource ++ "Response") = Except.ok () ∧
    lib.checkName (c.PluralResourceSnakeCase lib) = Except.ok () ∧
    lib.checkName "next_page_token" = Except.ok () ∧
    lib.checkName ("List" ++ c.Resource) = Except.ok () ∧
    c.PluralResourceSnakeCase lib ≠ "next_page_token" := by
  have := accepted_verb lib c h Verb.list he
  have h2 := h.2.1 he
  simp only [Verb.names, List.mem_cons, List.mem_singleton, forall_eq_or_imp, forall_eq,
    List.not_mem_nil, false_imp_iff, implies_true, and_true] at this
  obtain ⟨a1, a2, a3, a4, a5, a6, a7, a8, a9, a10⟩ := this
  exact ⟨a1, a2, a3, a4, a5, a6, a7, a8, a9, a10, h2⟩

theorem accepted_create (lib : Library) (c : Config) (h : accepted lib c)
    (he : c.enabled Verb.create = true) :
    lib.checkName ("Create" ++ c.Resource ++ "Request") = Except.ok () ∧
    lib.checkName "parent" = Except.ok () ∧
    lib.checkName (c.ResourceSnakeCase lib ++ "_id") = Except.ok () ∧
    lib.checkName (c.ResourceSnakeCase lib) = Except.ok () ∧
    lib.checkName ("Create" ++ c.Resource) = Except.ok () ∧
    (c.HasParent = true →
      c.ResourceSnakeCase lib ++ "_id" ≠ "parent" ∧ c.ResourceSnakeCase lib ≠ "parent") := by
  have := accepted_verb lib c h Verb.create he
  have h2 := h.2.2.1 he
  simp only [Verb.names, List.mem_cons, List.mem_singleton, forall_eq_or_imp, forall_eq,
    List.not_mem_nil, false_imp_iff, implies_true, and_true] at this
  obtain ⟨a1, a2, a3, a4, a5⟩ := this
  exact ⟨a1, a2, a3, a4, a5, h2⟩

theorem accepted_update (lib : Library) (c : Config) (h : accepted lib c)
    (he : c.enabled Verb.update = true) :
    lib.checkName ("Update" ++ c.Resource ++ "Request") = Except.ok () ∧
    lib.checkName (c.ResourceSnakeCase lib) = Except.ok () ∧
    lib.checkName "update_mask" = Except.ok () ∧
    lib.checkName "allow_missing" = Except.ok () ∧
    lib.checkName ("Update" ++ c.Resource) = Except.ok () ∧
    (c.WithUpdateFieldMask = true → c.ResourceSnakeCase lib ≠ "update_mask") ∧
    (c.WithUpdateAllowMissing = true → c.ResourceSnakeCase lib ≠ "allow_missing") := by
  have := accepted_verb lib c h Verb.update he
  have h2 := h.2.2.2.1 he
  have h3 := h.2.2.2.2 he
  simp only [Verb.names, List.mem_cons, List.mem_singleton, forall_eq_or_imp, forall_eq,
    List.not_mem_nil, false_imp_iff, implies_true, and_true] at this
  obtain ⟨a1, a2, a3, a4, a5⟩ := this
  exact ⟨a1, a2, a3, a4, a5, h2, h3⟩

theorem accepted_delete (lib : Library) (c : Config) (h : accepted lib c)
    (he : c.enabled Verb.delete = true) :
    lib.checkName ("Delete" ++ c.Resource ++ "Request") = Except.ok () ∧
    lib.checkName "name" = Except.ok () ∧
    lib.checkName "allow_missing" = Except.ok () ∧
    lib.checkName ("Delete" ++ c.Resource) = Except.ok () := by
  have := accepted_verb lib c h Verb.delete he
  simpa [Verb.names] using this

/-! ### The parts in closed form -/

/-- The resource message: what every result of its builder is, when the timestamp
descriptor is `ts`. -/
theorem buildResourceMessage_b_spec (lib : Library) (c : Config) (ts : MessageDescriptor)
    (hts : c.WithTimestamps = true →
      lib.LoadMessageDescriptorForMessage WellKnown.Timestamp = Except.ok ts) :
    holds (buildResourceMessage.b lib c) (fun b =>
      b.name = c.Resource ∧
      b.options = some { resource := some (ResourceDescriptor.mk c.ResourceTypeName
        (lib.LowerCamelCase c.Resource) (c.ResourceCollectionIdentifier lib)) } ∧
      b.fields =
          [{ name := "name", type := FieldType.string, repeated := false
             comments := comment "The resource's name." ""
             options := some { fieldBehavior := some [FieldBehavior.IDENTIFIER] } }]
          ++ (if c.WithDisplayName then
                [{ name := "display_name", type := FieldType.string, repeated := false
                   comments := comment "The resource's display name." ""
                   options := some { fieldBehavior := some [FieldBehavior.OPTIONAL] } }]
              else [])
          ++ (if c.WithTimestamps then
                [{ name := "create_time", type := FieldType.importedMessage ts
                   repeated := false
                   comments := comment "The time at which the resource was created." ""
                   options := some { fieldBehavior := some [FieldBehavior.OUTPUT_ONLY] } },
                 { name := "update_time", type := FieldType.importedMessage ts
                   repeated := false
                   comments := comment "The time at which the resource was last updated." ""
                   options := some { fieldBehavior := some [FieldBehavior.OUTPUT_ONLY] } }]
              else [])
          ++ (if c.WithAnnotations then
                [{ name := "annotations"
                   type := FieldType.map FieldType.string FieldType.string
                   repeated := true
                   comments := comment "Custom annotations defined by the caller." ""
                   options := some { fieldBehavior := some [FieldBehavior.OPTIONAL] } }]
              else [])) := by
  unfold buildResourceMessage.b
  cases hd : c.WithDisplayName <;> cases ht : c.WithTimestamps <;>
  cases ha : c.WithAnnotations <;>
  simp [ht] at hts <;>
  simp [hts, holds_bind, holds_pure, holds_NewMessage, holds_NewField, holds_NewMapField,
    holds_AddField, holds_orPanic,
    MessageBuilder.SetComments, MessageBuilder.SetOptions,
    FieldBuilder.SetComments, FieldBuilder.SetOptions,
    FieldTypeImportedMessage, fieldOptions, messageOptions, resource, identifier, optional,
    outputOnly, fieldBehavior]

/-- The resource message is built when its names pass the check and the timestamp
descriptor loads. -/
theorem buildResourceMessage_b_ok_of_names (lib : Library) (c : Config)
    (ts : MessageDescriptor)
    (hnames : ∀ n ∈ [c.Resource, "name", "display_name", "create_time", "update_time",
      "annotations"], lib.checkName n = Except.ok ())
    (hts : c.WithTimestamps = true →
      lib.LoadMessageDescriptorForMessage WellKnown.Timestamp = Except.ok ts) :
    ∃ b : MessageBuilder, buildResourceMessage.b lib c = Except.ok b := by
  simp only [List.mem_cons, List.mem_singleton, forall_eq_or_imp, forall_eq,
    List.not_mem_nil, false_imp_iff, implies_true, and_true] at hnames
  obtain ⟨n1, n2, n3, n4, n5, n6⟩ := hnames
  cases hd : c.WithDisplayName <;> cases ht : c.WithTimestamps <;>
  cases ha : c.WithAnnotations <;>
  simp [ht] at hts <;>
  simp [buildResourceMessage.b, hd, ht, ha, hts, n1, n2, n3, n4, n5, n6,
    bind, Except.bind, pure, Except.pure, orPanic, throw, throwThe, MonadExceptOf.throw,
    NewMessage, MessageBuilder.SetComments, MessageBuilder.SetOptions, MessageBuilder.AddField,
    MessageBuilder.TryAddField,
    NewField, NewMapField, FieldBuilder.SetComments, FieldBuilder.SetOptions,
    FieldTypeImportedMessage]

theorem buildResourceMessage_b_ok (lib : Library) (c : Config) (ts : MessageDescriptor)
    (hacc : accepted lib c)
    (hts : c.WithTimestamps = true →
      lib.LoadMessageDescriptorForMessage WellKnown.Timestamp = Except.ok ts) :
    ∃ b : MessageBuilder, buildResourceMessage.b lib c = Except.ok b := by
  obtain ⟨n1, n2, n3, n4, n5, n6, -⟩ := accepted_core lib c hacc
  refine buildResourceMessage_b_ok_of_names lib c ts ?_ hts
  simp [n1, n2, n3, n4, n5, n6]

/-- The service: what every result of its builder is. -/
theorem buildServiceDescriptor_b_spec (lib : Library) (c : Config) :
    holds (buildServiceDescriptor.b lib c) (fun b =>
      b = { name := c.Resource ++ "Service"
            comments := comment ("Service for managing the " ++ c.Resource ++ " resource.") ""
            options := some { defaultHost := some c.Service }
            methods := [] }) := by
  unfold buildServiceDescriptor.b NewService ServiceBuilder.SetName
  simp [holds_bind, holds_pure, holds_map, holds_orPanic, ServiceBuilder.SetComments,
    ServiceBuilder.SetOptions, serviceOptions, defaultHost]

theorem buildServiceDescriptor_b_ok (lib : Library) (c : Config) (hacc : accepted lib c) :
    ∃ b : ServiceBuilder, buildServiceDescriptor.b lib c = Except.ok b := by
  obtain ⟨n1, -, -, -, -, -, n7⟩ := accepted_core lib c hacc
  simp [buildServiceDescriptor.b, NewService, ServiceBuilder.SetName, n1, n7, orPanic,
    bind, Except.bind, pure, Except.pure]

/-- The Get request message: what every result of its builder is. -/
theorem buildGetMethod_req_spec (lib : Library) (c : Config) :
    holds (buildGetMethod.req lib c) (fun req =>
      req.name = "Get" ++ c.Resource ++ "Request" ∧
      req.fields =
        [{ name := "name", type := FieldType.string, repeated := false
           comments := comment "The name of the resource to retrieve." ""
           options := some { fieldBehavior := some [FieldBehavior.REQUIRED] } }]) := by
  unfold buildGetMethod.req
  simp [holds_bind, holds_pure, holds_map, holds_NewMessage, holds_NewField, holds_AddField,
    MessageBuilder.SetComments, FieldBuilder.SetComments, FieldBuilder.SetOptions,
    fieldOptions, required, fieldBehavior]

theorem buildGetMethod_req_ok (lib : Library) (c : Config) (hacc : accepted lib c)
    (he : c.enabled Verb.get = true) :
    ∃ req : MessageBuilder, buildGetMethod.req lib c = Except.ok req := by
  obtain ⟨n1, n2, -⟩ := accepted_get lib c hacc he
  simp [buildGetMethod.req, n1, n2, bind, Except.bind, pure, Except.pure, orPanic,
    NewMessage, NewField, MessageBuilder.AddField, MessageBuilder.TryAddField,
    MessageBuilder.SetComments, FieldBuilder.SetComments, FieldBuilder.SetOptions]

/-- The Get method: what every result of its builder is. -/
theorem buildGetMethod_m_spec (lib : Library) (c : Config) (res req : MessageBuilder) :
    holds (buildGetMethod.m lib c res req) (fun m =>
      m = { name := "Get" ++ c.Resource
            req := RpcType.message req.name false
            resp := RpcType.message res.name false
            comments := comment ("Get the " ++ c.Resource ++ " resource") ""
            options :=
              if c.WithHTTPOptions then
                some
                  { http := some
                      { Pattern := HttpPattern.Get
                          ("/v1/\x7bname=" ++ c.ResourceNameUrlRef lib ++ "\x7d")
                        Body := "" }
                    methodSignature := some ["name"] }
              else none }) := by
  unfold buildGetMethod.m
  cases h : c.WithHTTPOptions <;>
    simp [holds_bind, holds_pure, holds_map, holds_NewMethod, MethodBuilder.SetComments,
      MethodBuilder.SetOptions, RpcTypeMessage, methodOptions, httpRule, methodSignature]

theorem buildGetMethod_m_ok (lib : Library) (c : Config) (res req : MessageBuilder)
    (hacc : accepted lib c) (he : c.enabled Verb.get = true) :
    ∃ m : MethodBuilder, buildGetMethod.m lib c res req = Except.ok m := by
  obtain ⟨-, -, n3⟩ := accepted_get lib c hacc he
  simp [buildGetMethod.m, n3, bind, Except.bind, pure, Except.pure, orPanic, NewMethod]

/-- The List request message: what every result of its builder is. -/
theorem buildListMethod_req_spec (lib : Library) (c : Config) :
    holds (buildListMethod.req lib c) (fun req =>
      req.name = "List" ++ c.Resource ++ "Request" ∧
      req.fields =
        (if c.HasParent then
          [{ name := "parent", type := FieldType.string, repeated := false
             comments := comment "The resource's parent." ""
             options := some { fieldBehavior := some [FieldBehavior.REQUIRED] } }]
         else [])
        ++ [{ name := "page_size", type := FieldType.int32, repeated := false
              comments := comment "The maximum number of resources to return." ""
              options := some { fieldBehavior := some [FieldBehavior.OPTIONAL] } },
            { name := "page_token", type := FieldType.string, repeated := false
              comments := comment
                "The page token to use for pagination. Provide this to retrieve subsequent page"
                ""
              options := some { fieldBehavior := some [FieldBehavior.OPTIONAL] } }]
        ++ (if c.WithListFilter then
              [{ name := "filter", type := FieldType.string, repeated := false
                 comments := comment "The filter to apply to list results." ""
                 options := some { fieldBehavior := some [FieldBehavior.OPTIONAL] } }]
            else [])
        ++ (if c.WithListOrderBy then
              [{ name := "order_by", type := FieldType.string, repeated := false
                 comments := comment "The order to list results by." ""
                 options := some { fieldBehavior := some [FieldBehavior.OPTIONAL] } }]
            else [])) := by
  unfold buildListMethod.req
  cases hp : c.HasParent <;> cases hf : c.WithListFilter <;> cases ho : c.WithListOrderBy <;>
    simp [holds_bind, holds_pure, holds_map, holds_NewMessage, holds_NewField, holds_AddField,
      MessageBuilder.SetComments, FieldBuilder.SetComments, FieldBuilder.SetOptions,
      fieldOptions, required, optional, fieldBehavior]

theorem buildListMethod_req_ok (lib : Library) (c : Config) (hacc : accepted lib c)
    (he : c.enabled Verb.list = true) :
    ∃ req : MessageBuilder, buildListMethod.req lib c = Except.ok req := by
  obtain ⟨n1, n2, n3, n4, n5, n6, -⟩ := accepted_list lib c hacc he
  cases hp : c.HasParent <;> cases hf : c.WithListFilter <;> cases ho : c.WithListOrderBy <;>
    simp [buildListMethod.req, hp, hf, ho, n1, n2, n3, n4, n5, n6, bind, Except.bind, pure,
      Except.pure, orPanic, NewMessage, NewField, MessageBuilder.AddField,
      MessageBuilder.TryAddField, MessageBuilder.SetComments, FieldBuilder.SetComments,
      FieldBuilder.SetOptions]

/-- The List response message: what every result of its builder is. -/
theorem buildListMethod_res_spec (lib : Library) (c : Config) (res : MessageBuilder) :
    holds (buildListMethod.res lib c res) (fun msg =>
      msg.name = "List" ++ c.Resource ++ "Response" ∧
      msg.fields =
        [{ name := c.PluralResourceSnakeCase lib, type := FieldTypeMessage res
           repeated := true
           comments := comment ("The list of " ++ c.Resource ++ " resources.") ""
           options := none },
         { name := "next_page_token", type := FieldType.string, repeated := false
           comments := comment
             "The token to retrieve the next page of results, or empty if there are no more results."
             ""
           options := none }]) := by
  unfold buildListMethod.res
  simp [holds_bind, holds_pure, holds_map, holds_NewMessage, holds_NewField, holds_AddField,
    MessageBuilder.SetComments, FieldBuilder.SetComments, FieldBuilder.SetRepeated]

theorem buildListMethod_res_ok (lib : Library) (c : Config) (res : MessageBuilder)
    (hacc : accepted lib c) (he : c.enabled Verb.list = true) :
    ∃ msg : MessageBuilder, buildListMethod.res lib c res = Except.ok msg := by
  obtain ⟨-, -, -, -, -, -, n7, n8, n9, -, hne⟩ := accepted_list lib c hacc he
  have hne2 : ¬ "next_page_token" = c.PluralResourceSnakeCase lib := fun e => hne e.symm
  simp [buildListMethod.res, n7, n8, n9, hne, hne2, bind, Except.bind, pure, Except.pure,
    orPanic, NewMessage, NewField, MessageBuilder.AddField, MessageBuilder.TryAddField,
    MessageBuilder.SetComments, FieldBuilder.SetComments, FieldBuilder.SetRepeated]

/-- The List method: what every result of its builder is. -/
theorem buildListMethod_m_spec (lib : Library) (c : Config) (req res : MessageBuilder) :
    holds (buildListMethod.m lib c req res) (fun m =>
      m = { name := "List" ++ c.Resource
            req := RpcType.message req.name false
            resp := RpcType.message res.name false
            comments := comment ("List the " ++ c.Resource ++ " resources") ""
            options :=
              if c.WithHTTPOptions then
                some
                  { http := some
                      { Pattern := HttpPattern.Get ("/v1/" ++
                          (if c.HasParent then
                            "\x7bparent=" ++ c.ParentNameUrlRef ++ "\x7d/" else "") ++
                          c.ResourceCollectionIdentifier lib)
                        Body := "" }
                    methodSignature := some [if c.HasParent then "parent" else ""] }
              else none }) := by
  unfold buildListMethod.m
  cases h : c.WithHTTPOptions <;> cases hp : c.HasParent <;>
    simp [holds_bind, holds_pure, holds_map, holds_NewMethod, MethodBuilder.SetComments,
      MethodBuilder.SetOptions, RpcTypeMessage, methodOptions, httpRule, methodSignature]

theorem buildListMethod_m_ok (lib : Library) (c : Config) (req res : MessageBuilder)
    (hacc : accepted lib c) (he : c.enabled Verb.list = true) :
    ∃ m : MethodBuilder, buildListMethod.m lib c req res = Except.ok m := by
  obtain ⟨-, -, -, -, -, -, -, -, -, n10, -⟩ := accepted_list lib c hacc he
  simp [buildListMethod.m, n10, bind, Except.bind, pure, Except.pure, orPanic, NewMethod]

/-- The Create request message: what every result of its builder is. -/
theorem buildCreateMethod_req_spec (lib : Library) (c : Config) (res : MessageBuilder) :
    holds (buildCreateMethod.req lib c res) (fun req =>
      req.name = "Create" ++ c.Resource ++ "Request" ∧
      req.fields =
        (if c.HasParent then
          [{ name := "parent", type := FieldType.string, repeated := false
             comments := comment "The resource's parent." ""
             options := some { fieldBehavior := some [FieldBehavior.REQUIRED] } }]
         else [])
        ++ [{ name := c.ResourceSnakeCase lib ++ "_id", type := FieldType.string
              repeated := false
              comments := comment
                "The ID to use for the resource. It will become the final component of the name."
                ""
              options :=
                if c.IDRequired then some { fieldBehavior := some [FieldBehavior.REQUIRED] }
                else none },
            { name := c.ResourceSnakeCase lib, type := FieldTypeMessage res, repeated := false
              comments := comment ("The " ++ c.Resource ++ " resource to create.") ""
              options := some { fieldBehavior := some [FieldBehavior.REQUIRED] } }]) := by
  unfold buildCreateMethod.req
  cases hp : c.HasParent <;> cases hi : c.IDRequired <;>
    simp [holds_bind, holds_pure, holds_map, holds_NewMessage, holds_NewField, holds_AddField,
      MessageBuilder.SetComments, FieldBuilder.SetComments, FieldBuilder.SetOptions,
      fieldOptions, required, fieldBehavior]

theorem append_id_ne_self (x : String) : x ++ "_id" ≠ x := by
  intro h
  have hl := congrArg String.length h
  simp only [String.length_append] at hl
  have : ("_id" : String).length = 3 := by decide
  omega

theorem buildCreateMethod_req_ok (lib : Library) (c : Config) (res : MessageBuilder)
    (hacc : accepted lib c) (he : c.enabled Verb.create = true) :
    ∃ req : MessageBuilder, buildCreateMethod.req lib c res = Except.ok req := by
  obtain ⟨n1, n2, n3, n4, -, hne⟩ := accepted_create lib c hacc he
  have hid := append_id_ne_self (c.ResourceSnakeCase lib)
  have hid2 : ¬ c.ResourceSnakeCase lib = c.ResourceSnakeCase lib ++ "_id" :=
    fun e => hid e.symm
  cases hp : c.HasParent <;> cases hi : c.IDRequired <;>
    simp [hp] at hne <;>
    simp [buildCreateMethod.req, hp, hi, n1, n2, n3, n4, hne, hid, hid2, bind, Except.bind,
      pure, Except.pure, orPanic, NewMessage, NewField, MessageBuilder.AddField,
      MessageBuilder.TryAddField, MessageBuilder.SetComments, FieldBuilder.SetComments,
      FieldBuilder.SetOptions]

/-- The Create method: what every result of its builder is. -/
theorem buildCreateMethod_m_spec (lib : Library) (c : Config) (res req : MessageBuilder) :
    holds (buildCreateMethod.m lib c res req) (fun m =>
      m = { name := "Create" ++ c.Resource
            req := RpcType.message req.name false
            resp := RpcType.message res.name false
            comments := comment ("Create a new " ++ c.Resource ++ " resource") ""
            options :=
              if c.WithHTTPOptions then
                some
                  { http := some
                      { Pattern := HttpPattern.Post ("/v1/" ++
                          (if c.HasParent then
                            "\x7bparent=" ++ c.ParentNameUrlRef ++ "\x7d/" else "") ++
                          c.ResourceCollectionIdentifier lib)
                        Body := c.ResourceSnakeCase lib }
                    methodSignature := some
                      [(if c.HasParent then "parent," else "") ++
                        (c.ResourceSnakeCase lib ++
                          (if c.IDRequired then "," ++ c.ResourceSnakeCase lib ++ "_id"
                           else ""))] }
              else none }) := by
  unfold buildCreateMethod.m
  cases h : c.WithHTTPOptions <;> cases hp : c.HasParent <;> cases hi : c.IDRequired <;>
    simp [holds_bind, holds_pure, holds_map, holds_NewMethod, MethodBuilder.SetComments,
      MethodBuilder.SetOptions, RpcTypeMessage, methodOptions, httpRule, methodSignature]

theorem buildCreateMethod_m_ok (lib : Library) (c : Config) (res req : MessageBuilder)
    (hacc : accepted lib c) (he : c.enabled Verb.create = true) :
    ∃ m : MethodBuilder, buildCreateMethod.m lib c res req = Except.ok m := by
  obtain ⟨-, -, -, -, n5, -⟩ := accepted_create lib c hacc he
  simp [buildCreateMethod.m, n5, bind, Except.bind, pure, Except.pure, orPanic, NewMethod]

/-- The Update request message: what every result of its builder is, when the field-mask
descriptor is `fm`. -/
theorem buildUpdateMethod_req_spec (lib : Library) (c : Config) (res : MessageBuilder)
    (fm : MessageDescriptor)
    (hfm : c.WithUpdateFieldMask = true →
      lib.LoadMessageDescriptorForMessage WellKnown.FieldMask = Except.ok fm) :
    holds (buildUpdateMethod.req lib c res) (fun req =>
      req.name = "Update" ++ c.Resource ++ "Request" ∧
      req.fields =
          [{ name := c.ResourceSnakeCase lib, type := FieldType.message res.name
             repeated := false
             comments := comment
               ("The " ++ c.Resource ++ " resource to update. The resource must have") ""
             options := some { fieldBehavior := some [FieldBehavior.REQUIRED] } }]
          ++ (if c.WithUpdateFieldMask then
                [{ name := "update_mask", type := FieldType.importedMessage fm
                   repeated := false
                   comments := comment "The list of fields to update." ""
                   options := some { fieldBehavior := some [FieldBehavior.OPTIONAL] } }]
              else [])
          ++ (if c.WithUpdateAllowMissing then
                [{ name := "allow_missing", type := FieldType.bool, repeated := false
                   comments := comment
                     "If set to true, and the resource is not found, a new resource will be created."
                     ""
                   options := some { fieldBehavior := some [FieldBehavior.OPTIONAL] } }]
              else [])) := by
  unfold buildUpdateMethod.req
  cases hm : c.WithUpdateFieldMask <;> cases ha : c.WithUpdateAllowMissing <;>
  simp [hm] at hfm <;>
  simp [hfm, holds_bind, holds_pure, holds_map, holds_NewMessage, holds_NewField, holds_AddField,
    holds_orPanic, MessageBuilder.SetComments, FieldBuilder.SetComments,
    FieldBuilder.SetOptions, FieldTypeMessage, FieldTypeImportedMessage, fieldOptions,
    required, optional, fieldBehavior]

theorem buildUpdateMethod_req_ok (lib : Library) (c : Config) (res : MessageBuilder)
    (fm : MessageDescriptor) (hacc : accepted lib c) (he : c.enabled Verb.update = true)
    (hfm : c.WithUpdateFieldMask = true →
      lib.LoadMessageDescriptorForMessage WellKnown.FieldMask = Except.ok fm) :
    ∃ req : MessageBuilder, buildUpdateMethod.req lib c res = Except.ok req := by
  obtain ⟨n1, n2, n3, n4, -, h1, h2⟩ := accepted_update lib c hacc he
  have h1b : c.WithUpdateFieldMask = true → ¬ "update_mask" = c.ResourceSnakeCase lib :=
    fun t e => h1 t e.symm
  have h2b : c.WithUpdateAllowMissing = true → ¬ "allow_missing" = c.ResourceSnakeCase lib :=
    fun t e => h2 t e.symm
  cases hm : c.WithUpdateFieldMask <;> cases ha : c.WithUpdateAllowMissing <;>
  simp [hm, ha] at hfm h1 h2 h1b h2b <;>
  simp [buildUpdateMethod.req, hm, ha, hfm, h1, h2, h1b, h2b, n1, n2, n3, n4, bind,
    Except.bind, pure, Except.pure, orPanic, NewMessage, NewField, MessageBuilder.AddField,
    MessageBuilder.TryAddField, MessageBuilder.SetComments, FieldBuilder.SetComments,
    FieldBuilder.SetOptions]

/-- The Update method: what every result of its builder is. -/
theorem buildUpdateMethod_m_spec (lib : Library) (c : Config) (res req : MessageBuilder) :
    holds (buildUpdateMethod.m lib c res req) (fun m =>
      m = { name := "Update" ++ c.Resource
            req := RpcType.message req.name false
            resp := RpcType.message res.name false
            comments := comment ("Update the " ++ c.Resource ++ " resource") ""
            options :=
              if c.WithHTTPOptions then
                some
                  { http := some
                      { Pattern := HttpPattern.Patch ("/v1/" ++
                          ("\x7b" ++ c.ResourceSnakeCase lib ++ ".name=" ++
                            c.ResourceNameUrlRef lib ++ "\x7d"))
                        Body := c.ResourceSnakeCase lib }
                    methodSignature := some
                      [c.ResourceSnakeCase lib ++
                        (if c.WithUpdateFieldMask then ",update_mask" else "")] }
              else none }) := by
  unfold buildUpdateMethod.m
  cases h : c.WithHTTPOptions <;> cases hm : c.WithUpdateFieldMask <;>
    simp [holds_bind, holds_pure, holds_map, holds_NewMethod, MethodBuilder.SetComments,
      MethodBuilder.SetOptions, RpcTypeMessage, methodOptions, httpRule, methodSignature]

theorem buildUpdateMethod_m_ok (lib : Library) (c : Config) (res req : MessageBuilder)
    (hacc : accepted lib c) (he : c.enabled Verb.update = true) :
    ∃ m : MethodBuilder, buildUpdateMethod.m lib c res req = Except.ok m := by
  obtain ⟨-, -, -, -, n5, -⟩ := accepted_update lib c hacc he
  simp [buildUpdateMethod.m, n5, bind, Except.bind, pure, Except.pure, orPanic, NewMethod]

/-- The Delete request message: what every result of its builder is. -/
theorem buildDeleteMethod_req_spec (lib : Library) (c : Config) :
    holds (buildDeleteMethod.req lib c) (fun req =>
      req.name = "Delete" ++ c.Resource ++ "Request" ∧
      req.fields =
        [{ name := "name", type := FieldType.string, repeated := false
           comments := comment "The name of the resource to delete." ""
           options := some { fieldBehavior := some [FieldBehavior.REQUIRED] } }]
        ++ (if c.WithUpdateAllowMissing then
              [{ name := "allow_missing", type := FieldType.bool, repeated := false
                 comments := comment
                   "If set to true, and the resource is not found, no errors will be returned."
                   ""
                 options := some { fieldBehavior := some [FieldBehavior.OPTIONAL] } }]
            else [])) := by
  unfold buildDeleteMethod.req
  cases h : c.WithUpdateAllowMissing <;>
    simp [holds_bind, holds_pure, holds_map, holds_NewMessage, holds_NewField, holds_AddField,
      MessageBuilder.SetComments, FieldBuilder.SetComments, FieldBuilder.SetOptions,
      fieldOptions, required, optional, fieldBehavior]

theorem buildDeleteMethod_req_ok (lib : Library) (c : Config) (hacc : accepted lib c)
    (he : c.enabled Verb.delete = true) :
    ∃ req : MessageBuilder, buildDeleteMethod.req lib c = Except.ok req := by
  obtain ⟨n1, n2, n3, -⟩ := accepted_delete lib c hacc he
  cases h : c.WithUpdateAllowMissing <;>
    simp [buildDeleteMethod.req, h, n1, n2, n3, bind, Except.bind, pure, Except.pure, orPanic,
      NewMessage, NewField, MessageBuilder.AddField, MessageBuilder.TryAddField,
      MessageBuilder.SetComments, FieldBuilder.SetComments, FieldBuilder.SetOptions]

/-- The Delete method: what every result of its builder is, when the empty descriptor is
`em`. -/
theorem buildDeleteMethod_m_spec (lib : Library) (c : Config) (req : MessageBuilder)
    (em : MessageDescriptor)
    (hem : lib.LoadMessageDescriptorForMessage WellKnown.Empty = Except.ok em) :
    holds (buildDeleteMethod.m lib c req) (fun m =>
      m = { name := "Delete" ++ c.Resource
            req := RpcType.message req.name false
            resp := RpcType.importedMessage em false
            comments := comment ("Delete the " ++ c.Resource ++ " resource") ""
            options :=
              if c.WithHTTPOptions then
                some
                  { http := some
                      { Pattern := HttpPattern.Delete
                          ("/v1/" ++ ("\x7bname=" ++ c.ResourceNameUrlRef lib ++ "\x7d"))
                        Body := "" }
                    methodSignature := some ["name"] }
              else none }) := by
  unfold buildDeleteMethod.m
  cases h : c.WithHTTPOptions <;>
    simp [hem, holds_bind, holds_pure, holds_map, holds_NewMethod, holds_orPanic,
      MethodBuilder.SetComments, MethodBuilder.SetOptions, RpcTypeMessage,
      RpcTypeImportedMessage, methodOptions, httpRule, methodSignature]

theorem buildDeleteMethod_m_ok (lib : Library) (c : Config) (req : MessageBuilder)
    (em : MessageDescriptor) (hacc : accepted lib c) (he : c.enabled Verb.delete = true)
    (hem : lib.LoadMessageDescriptorForMessage WellKnown.Empty = Except.ok em) :
    ∃ m : MethodBuilder, buildDeleteMethod.m lib c req = Except.ok m := by
  obtain ⟨-, -, -, n4⟩ := accepted_delete lib c hacc he
  simp [buildDeleteMethod.m, n4, hem, bind, Except.bind, pure, Except.pure, orPanic,
    NewMethod]

/-! ### Names of the top-level declarations -/

theorem affix_ne_of_length (P1 S1 P2 S2 R : String)
    (h : P1.length + S1.length ≠ P2.length + S2.length) :
    P1 ++ R ++ S1 ≠ P2 ++ R ++ S2 := by
  intro e
  have hl := congrArg String.length e
  simp only [String.length_append] at hl
  omega

theorem affix_ne_of_head (P1 S1 P2 S2 R : String) (a b : Char) (l1 l2 : List Char)
    (h1 : P1.data = a :: l1) (h2 : P2.data = b :: l2) (hab : a ≠ b) :
    P1 ++ R ++ S1 ≠ P2 ++ R ++ S2 := by
  intro e
  have hd := congrArg String.data e
  simp only [String.data_append, h1, h2, List.cons_append, List.cons.injEq] at hd
  exact hab hd.1

theorem self_ne_affix (P S R : String) (h : 0 < P.length + S.length) :
    R ≠ P ++ R ++ S := by
  intro e
  have hl := congrArg String.length e
  simp only [String.length_append] at hl
  omega

theorem request_name_inj (R S : String) (v w : Verb) :
    v.word ++ R ++ S = w.word ++ R ++ S ↔ v = w := by
  constructor
  · intro h
    cases v <;> cases w <;>
    first
    | rfl
    | (exfalso; revert h; simp only [Verb.word]
       first
       | exact affix_ne_of_length _ _ _ _ _ (by decide)
       | exact affix_ne_of_head _ _ _ _ _ _ _ _ _ rfl rfl (by decide))
  · rintro rfl; rfl

theorem request_ne_response (R : String) (v w : Verb) :
    v.word ++ R ++ "Request" ≠ w.word ++ R ++ "Response" := by
  cases v <;> cases w <;> simp only [Verb.word] <;>
    first
    | exact affix_ne_of_length _ _ _ _ _ (by decide)
    | exact affix_ne_of_head _ _ _ _ _ _ _ _ _ rfl rfl (by decide)

theorem method_name_inj (R : String) (v w : Verb) :
    v.word ++ R = w.word ++ R ↔ v = w := by
  have := request_name_inj R "" v w
  simpa using this

theorem suffix_ne_affix (P S S2 R : String) (h : S2.length ≠ P.length + S.length) :
    R ++ S2 ≠ P ++ R ++ S := by
  intro e
  have hl := congrArg String.length e
  simp only [String.length_append] at hl
  omega

theorem self_ne_suffix (S R : String) (h : 0 < S.length) : R ≠ R ++ S := by
  intro e
  have hl := congrArg String.length e
  simp only [String.length_append] at hl
  omega

theorem TopLevel.name_injective (c : Config) : Function.Injective (TopLevel.name c) := by
  intro a b h
  cases a with
  | resource =>
    cases b with
    | resource => rfl
    | service => exact absurd h (self_ne_suffix _ _ (by decide))
    | request w => exact absurd h (self_ne_affix _ _ _ (by cases w <;> decide))
    | listResponse => exact absurd h (self_ne_affix _ _ _ (by decide))
  | service =>
    cases b with
    | resource => exact absurd h.symm (self_ne_suffix _ _ (by decide))
    | service => rfl
    | request w => exact absurd h (suffix_ne_affix _ _ _ _ (by cases w <;> decide))
    | listResponse => exact absurd h (suffix_ne_affix _ _ _ _ (by decide))
  | request v =>
    cases b with
    | resource => exact absurd h.symm (self_ne_affix _ _ _ (by cases v <;> decide))
    | service => exact absurd h.symm (suffix_ne_affix _ _ _ _ (by cases v <;> decide))
    | request w => rw [(request_name_inj c.Resource "Request" v w).1 h]
    | listResponse => exact absurd h (request_ne_response c.Resource v Verb.list)
  | listResponse =>
    cases b with
    | resource => exact absurd h.symm (self_ne_affix _ _ _ (by decide))
    | service => exact absurd h.symm (suffix_ne_affix _ _ _ _ (by decide))
    | request w => exact absurd h.symm (request_ne_response c.Resource w Verb.list)
    | listResponse => rfl

theorem TopLevel.name_eq_iff (c : Config) (a b : TopLevel) :
    TopLevel.name c a = TopLevel.name c b ↔ a = b :=
  (TopLevel.name_injective c).eq_iff

/-! ### The assembled state in closed form -/

theorem buildResourceMessage_b_name (lib : Library) (c : Config) :
    holds (buildResourceMessage.b lib c) (fun b => b.name = c.Resource) := by
  unfold buildResourceMessage.b
  cases hd : c.WithDisplayName <;> cases ht : c.WithTimestamps <;>
  cases ha : c.WithAnnotations <;>
  simp [holds_bind, holds_pure, holds_map, holds_NewMessage, holds_NewField,
    holds_NewMapField, holds_AddField, holds_orPanic,
    MessageBuilder.SetComments, MessageBuilder.SetOptions]

theorem buildUpdateMethod_req_name (lib : Library) (c : Config) (res : MessageBuilder) :
    holds (buildUpdateMethod.req lib c res)
      (fun req => req.name = "Update" ++ c.Resource ++ "Request") := by
  unfold buildUpdateMethod.req
  cases hm : c.WithUpdateFieldMask <;> cases ha : c.WithUpdateAllowMissing <;>
  simp [holds_bind, holds_pure, holds_map, holds_NewMessage, holds_NewField, holds_AddField,
    holds_orPanic, MessageBuilder.SetComments]

theorem buildDeleteMethod_m_name (lib : Library) (c : Config) (req : MessageBuilder) :
    holds (buildDeleteMethod.m lib c req) (fun m => m.name = "Delete" ++ c.Resource) := by
  unfold buildDeleteMethod.m
  cases h : c.WithHTTPOptions <;>
    simp [holds_bind, holds_pure, holds_map, holds_NewMethod, holds_orPanic,
      MethodBuilder.SetComments, MethodBuilder.SetOptions]

/-- The names of the parts of a run. -/
theorem Parts.built_names (lib : Library) (c : Config) (p : Parts) (h : p.built lib c) :
    p.res.name = TopLevel.name c TopLevel.resource ∧
    p.svc.name = TopLevel.name c TopLevel.service ∧
    p.svc.methods = [] ∧
    (c.enabled Verb.get = true →
      p.getReq.name = TopLevel.name c (TopLevel.request Verb.get) ∧
      p.getM.name = Verb.get.word ++ c.Resource) ∧
    (c.enabled Verb.list = true →
      p.listReq.name = TopLevel.name c (TopLevel.request Verb.list) ∧
      p.listRes.name = TopLevel.name c TopLevel.listResponse ∧
      p.listM.name = Verb.list.word ++ c.Resource) ∧
    (c.enabled Verb.create = true →
      p.createReq.name = TopLevel.name c (TopLevel.request Verb.create) ∧
      p.createM.name = Verb.create.word ++ c.Resource) ∧
    (c.enabled Verb.update = true →
      p.updateReq.name = TopLevel.name c (TopLevel.request Verb.update) ∧
      p.updateM.name = Verb.update.word ++ c.Resource) ∧
    (c.enabled Verb.delete = true →
      p.deleteReq.name = TopLevel.name c (TopLevel.request Verb.delete) ∧
      p.deleteM.name = Verb.delete.word ++ c.Resource) := by
  obtain ⟨hres, hsvc, hget, hlist, hcreate, hupdate, hdelete⟩ := h
  have e := buildServiceDescriptor_b_spec lib c _ hsvc
  refine ⟨buildResourceMessage_b_name lib c _ hres, by rw [e]; rfl, by rw [e], ?_, ?_, ?_,
    ?_, ?_⟩
  · intro he
    obtain ⟨h1, h2⟩ := hget he
    exact ⟨(buildGetMethod_req_spec lib c _ h1).1,
      by rw [buildGetMethod_m_spec lib c _ _ _ h2]; rfl⟩
  · intro he
    obtain ⟨h1, h2, h3⟩ := hlist he
    exact ⟨(buildListMethod_req_spec lib c _ h1).1, (buildListMethod_res_spec lib c _ _ h2).1,
      by rw [buildListMethod_m_spec lib c _ _ _ h3]; rfl⟩
  · intro he
    obtain ⟨h1, h2⟩ := hcreate he
    exact ⟨(buildCreateMethod_req_spec lib c _ _ h1).1,
      by rw [buildCreateMethod_m_spec lib c _ _ _ h2]; rfl⟩
  · intro he
    obtain ⟨h1, h2⟩ := hupdate he
    exact ⟨buildUpdateMethod_req_name lib c _ _ h1,
      by rw [buildUpdateMethod_m_spec lib c _ _ _ h2]; rfl⟩
  · intro he
    obtain ⟨h1, h2⟩ := hdelete he
    exact ⟨(buildDeleteMethod_req_spec lib c _ h1).1, buildDeleteMethod_m_name lib c _ _ h2⟩

/-- The assembled state in closed form: when every builder of the run returns, assembly
ends in the state made of their results. -/
theorem assemble_eq (lib : Library) (c : Config) (p : Parts) (h : p.built lib c) :
    assemble lib c = Except.ok (p.state c) := by
  obtain ⟨nres, nsvc, msvc, nget, nlist, ncreate, nupdate, ndelete⟩ :=
    Parts.built_names lib c p h
  obtain ⟨hres, hsvc, hget, hlist, hcreate, hupdate, hdelete⟩ := h
  have hsvceta : p.svc =
      { name := TopLevel.name c TopLevel.service, comments := p.svc.comments
        options := p.svc.options, methods := [] } := by
    rw [← nsvc, ← msvc]
  simp only [Config.enabled, Verb.letter] at hget hlist hcreate hupdate hdelete
  simp only [Config.enabled, Verb.letter] at nget nlist ncreate nupdate ndelete
  cases hr : stringsContains c.Methods "r" <;>
  cases hl : stringsContains c.Methods "l" <;>
  cases hc : stringsContains c.Methods "c" <;>
  cases hu : stringsContains c.Methods "u" <;>
  cases hd : stringsContains c.Methods "d" <;>
  simp [hr, hl, hc, hu, hd] at hget hlist hcreate hupdate hdelete <;>
  simp [hr, hl, hc, hu, hd] at nget nlist ncreate nupdate ndelete <;>
  simp [assemble, buildResourceMessage, buildServiceDescriptor, buildGetMethod,
    buildListMethod, buildCreateMethod, buildUpdateMethod, buildDeleteMethod,
    hres, hsvc, hget, hlist, hcreate, hupdate, hdelete,
    nres, nsvc, msvc, nget, nlist, ncreate, nupdate, ndelete,
    hr, hl, hc, hu, hd, bind, Except.bind, pure, Except.pure, orPanic,
    schemaBuilder.fileAddMessage, schemaBuilder.serviceAddMethod, schemaBuilder.getResource,
    FileBuilder.AddMessage, FileBuilder.TryAddMessage, FileBuilder.AddService,
    FileBuilder.TryAddService, FileBuilder.symbols, ServiceBuilder.AddMethod,
    ServiceBuilder.TryAddMethod,
    NewFile, FileBuilder.SetProto3, FileBuilder.SetPackageName,
    Parts.state, Parts.service, Parts.messagesOf, Parts.methodOf, Verb.all, Config.enabled,
    Verb.letter, TopLevel.name_eq_iff, method_name_inj]
  exact hsvceta

/-- Every builder of the run returns when the names pass the checks and the descriptors
that the run looks up load. -/
theorem parts_exist (lib : Library) (c : Config) (ts fm em : MessageDescriptor)
    (hacc : accepted lib c)
    (hts : c.WithTimestamps = true →
      lib.LoadMessageDescriptorForMessage WellKnown.Timestamp = Except.ok ts)
    (hfm : c.enabled Verb.update = true → c.WithUpdateFieldMask = true →
      lib.LoadMessageDescriptorForMessage WellKnown.FieldMask = Except.ok fm)
    (hem : c.enabled Verb.delete = true →
      lib.LoadMessageDescriptorForMessage WellKnown.Empty = Except.ok em) :
    ∃ p : Parts, p.built lib c := by
  obtain ⟨res, hres⟩ := buildResourceMessage_b_ok lib c ts hacc hts
  obtain ⟨svc, hsvc⟩ := buildServiceDescriptor_b_ok lib c hacc
  have dm : MethodBuilder :=
    { name := "", req := RpcType.message "" false, resp := RpcType.message "" false
      comments := comment "" "", options := none }
  have hG : ∃ (r : MessageBuilder) (m : MethodBuilder), c.enabled Verb.get = true →
      buildGetMethod.req lib c = Except.ok r ∧ buildGetMethod.m lib c res r = Except.ok m := by
    by_cases he : c.enabled Verb.get = true
    · obtain ⟨r, hr⟩ := buildGetMethod_req_ok lib c hacc he
      obtain ⟨m, hm⟩ := buildGetMethod_m_ok lib c res r hacc he
      exact ⟨r, m, fun _ => ⟨hr, hm⟩⟩
    · exact ⟨res, dm, fun h => absurd h he⟩
  have hL : ∃ (r r2 : MessageBuilder) (m : MethodBuilder), c.enabled Verb.list = true →
      buildListMethod.req lib c = Except.ok r ∧
      buildListMethod.res lib c res = Except.ok r2 ∧
      buildListMethod.m lib c r r2 = Except.ok m := by
    by_cases he : c.enabled Verb.list = true
    · obtain ⟨r, hr⟩ := buildListMethod_req_ok lib c hacc he
      obtain ⟨r2, hr2⟩ := buildListMethod_res_ok lib c res hacc he
      obtain ⟨m, hm⟩ := buildListMethod_m_ok lib c r r2 hacc he
      exact ⟨r, r2, m, fun _ => ⟨hr, hr2, hm⟩⟩
    · exact ⟨res, res, dm, fun h => absurd h he⟩
  have hC : ∃ (r : MessageBuilder) (m : MethodBuilder), c.enabled Verb.create = true →
      buildCreateMethod.req lib c res = Except.ok r ∧
      buildCreateMethod.m lib c res r = Except.ok m := by
    by_cases he : c.enabled Verb.create = true
    · obtain ⟨r, hr⟩ := buildCreateMethod_req_ok lib c res hacc he
      obtain ⟨m, hm⟩ := buildCreateMethod_m_ok lib c res r hacc he
      exact ⟨r, m, fun _ => ⟨hr, hm⟩⟩
    · exact ⟨res, dm, fun h => absurd h he⟩
  have hU : ∃ (r : MessageBuilder) (m : MethodBuilder), c.enabled Verb.update = true →
      buildUpdateMethod.req lib c res = Except.ok r ∧
      buildUpdateMethod.m lib c res r = Except.ok m := by
    by_cases he : c.enabled Verb.update = true
    · obtain ⟨r, hr⟩ := buildUpdateMethod_req_ok lib c res fm hacc he (hfm he)
      obtain ⟨m, hm⟩ := buildUpdateMethod_m_ok lib c res r hacc he
      exact ⟨r, m, fun _ => ⟨hr, hm⟩⟩
    · exact ⟨res, dm, fun h => absurd h he⟩
  have hD : ∃ (r : MessageBuilder) (m : MethodBuilder), c.enabled Verb.delete = true →
      buildDeleteMethod.req lib c = Except.ok r ∧
      buildDeleteMethod.m lib c r = Except.ok m := by
    by_cases he : c.enabled Verb.delete = true
    · obtain ⟨r, hr⟩ := buildDeleteMethod_req_ok lib c hacc he
      obtain ⟨m, hm⟩ := buildDeleteMethod_m_ok lib c r em hacc he (hem he)
      exact ⟨r, m, fun _ => ⟨hr, hm⟩⟩
    · exact ⟨res, dm, fun h => absurd h he⟩
  obtain ⟨gr, gm, hg⟩ := hG
  obtain ⟨lr, ls, lm, hl⟩ := hL
  obtain ⟨cr, cm, hc⟩ := hC
  obtain ⟨ur, um, hu⟩ := hU
  obtain ⟨dr, dm2, hd⟩ := hD
  exact ⟨{ res := res, svc := svc, getReq := gr, getM := gm, listReq := lr, listRes := ls,
           listM := lm, createReq := cr, createM := cm, updateReq := ur, updateM := um,
           deleteReq := dr, deleteM := dm2 }, hres, hsvc, hg, hl, hc, hu, hd⟩

/-- When the names pass the checks and the three well-known descriptors load, every
builder of the run returns and assembly ends in the state made of their results. -/
theorem assemble_ok (lib : Library) (c : Config) (ts fm em : MessageDescriptor)
    (hacc : accepted lib c)
    (hts : lib.LoadMessageDescriptorForMessage WellKnown.Timestamp = Except.ok ts)
    (hfm : lib.LoadMessageDescriptorForMessage WellKnown.FieldMask = Except.ok fm)
    (hem : lib.LoadMessageDescriptorForMessage WellKnown.Empty = Except.ok em) :
    ∃ p : Parts, p.built lib c ∧ assemble lib c = Except.ok (p.state c) := by
  obtain ⟨p, hp⟩ := parts_exist lib c ts fm em hacc (fun _ => hts) (fun _ _ => hfm)
    (fun _ => hem)
  exact ⟨p, hp, assemble_eq lib c p hp⟩

theorem Verb.mem_all (v : Verb) : v ∈ Verb.all := by
  cases v <;> simp [Verb.all]

theorem Parts.mem_state_messages (c : Config) (p : Parts) (msg : MessageBuilder) :
    msg ∈ (p.state c).file.messages ↔
      msg = p.res ∨ ∃ v : Verb, c.enabled v = true ∧ msg ∈ p.messagesOf v := by
  simp only [Parts.state, List.mem_cons, List.mem_flatMap, List.mem_filter]
  constructor
  · rintro (h | ⟨v, ⟨-, hv⟩, hm⟩)
    · exact Or.inl h
    · exact Or.inr ⟨v, hv, hm⟩
  · rintro (h | ⟨v, hv, hm⟩)
    · exact Or.inl h
    · exact Or.inr ⟨v, ⟨v.mem_all, hv⟩, hm⟩

theorem Parts.mem_service_methods (c : Config) (p : Parts) (m : MethodBuilder) :
    m ∈ (p.service c).methods ↔ ∃ v : Verb, c.enabled v = true ∧ m = p.methodOf v := by
  simp only [Parts.service, List.mem_map, List.mem_filter]
  constructor
  · rintro ⟨v, ⟨-, hv⟩, hm⟩
    exact ⟨v, hv, hm.symm⟩
  · rintro ⟨v, hv, hm⟩
    exact ⟨v, ⟨v.mem_all, hv⟩, hm.symm⟩

/-- The names of the messages of an enabled verb. -/
theorem Parts.built_messageNames (lib : Library) (c : Config) (p : Parts)
    (h : p.built lib c) (v : Verb) (hv : c.enabled v = true) :
    (p.messagesOf v).map (fun m => m.name) = v.messageNames c := by
  obtain ⟨-, -, -, nget, nlist, ncreate, nupdate, ndelete⟩ := Parts.built_names lib c p h
  cases v
  · simp [Parts.messagesOf, Verb.messageNames, (nget hv).1, TopLevel.name, Verb.word]
  · simp [Parts.messagesOf, Verb.messageNames, (nlist hv).1, (nlist hv).2.1, TopLevel.name,
      Verb.word]
  · simp [Parts.messagesOf, Verb.messageNames, (ncreate hv).1, TopLevel.name, Verb.word]
  · simp [Parts.messagesOf, Verb.messageNames, (nupdate hv).1, TopLevel.name, Verb.word]
  · simp [Parts.messagesOf, Verb.messageNames, (ndelete hv).1, TopLevel.name, Verb.word]

/-- The name and the types of the method of an enabled verb. -/
theorem Parts.built_method (lib : Library) (c : Config) (p : Parts) (em : MessageDescriptor)
    (hem : lib.LoadMessageDescriptorForMessage WellKnown.Empty = Except.ok em)
    (h : p.built lib c) (v : Verb) :
    c.enabled v = true →
    (p.methodOf v).name = v.word ++ c.Resource ∧
    (p.methodOf v).req = RpcType.message (v.word ++ c.Resource ++ "Request") false ∧
    (p.methodOf v).resp =
      (match v with
       | Verb.list => RpcType.message ("List" ++ c.Resource ++ "Response") false
       | Verb.delete => RpcType.importedMessage em false
       | _ => RpcType.message c.Resource false) := by
  intro hv
  obtain ⟨nres, -, -, nget, nlist, ncreate, nupdate, ndelete⟩ := Parts.built_names lib c p h
  obtain ⟨hres, hsvc, hget, hlist, hcreate, hupdate, hdelete⟩ := h
  cases v
  · have e := buildGetMethod_m_spec lib c _ _ _ (hget hv).2
    simp [Parts.methodOf, e, (nget hv).1, nres, TopLevel.name, Verb.word]
  · have e := buildListMethod_m_spec lib c _ _ _ (hlist hv).2.2
    simp [Parts.methodOf, e, (nlist hv).1, (nlist hv).2.1, TopLevel.name, Verb.word]
  · have e := buildCreateMethod_m_spec lib c _ _ _ (hcreate hv).2
    simp [Parts.methodOf, e, (ncreate hv).1, nres, TopLevel.name, Verb.word]
  · have e := buildUpdateMethod_m_spec lib c _ _ _ (hupdate hv).2
    simp [Parts.methodOf, e, (nupdate hv).1, nres, TopLevel.name, Verb.word]
  · have e := buildDeleteMethod_m_spec lib c _ em hem _ (hdelete hv).2
    simp [Parts.methodOf, e, (ndelete hv).1, TopLevel.name, Verb.word]

theorem flatMap_map_eq {α β γ : Type} (l : List α) (f : α → List β) (g : β → γ)
    (k : α → List γ) (h : ∀ a ∈ l, (f a).map g = k a) :
    (l.flatMap f).map g = l.flatMap k := by
  induction l with
  | nil => rfl
  | cons a l ih =>
    simp only [List.flatMap_cons, List.map_append]
    rw [h a (List.mem_cons_self _ _), ih (fun b hb => h b (List.mem_cons_of_mem _ hb))]

theorem map_map_eq {α β γ : Type} (l : List α) (f : α → β) (g : β → γ)
    (k : α → γ) (h : ∀ a ∈ l, g (f a) = k a) :
    (l.map f).map g = l.map k := by
  induction l with
  | nil => rfl
  | cons a l ih =>
    simp only [List.map_cons]
    rw [h a (List.mem_cons_self _ _), ih (fun b hb => h b (List.mem_cons_of_mem _ hb))]

/-- The names and the method shapes of the assembled schema, verb by verb, when the names
pass the checks and the three well-known descriptors load. -/
theorem assemble_shape (lib : Library) (c : Config) (ts fm em : MessageDescriptor)
    (hacc : accepted lib c)
    (hts : lib.LoadMessageDescriptorForMessage WellKnown.Timestamp = Except.ok ts)
    (hfm : lib.LoadMessageDescriptorForMessage WellKnown.FieldMask = Except.ok fm)
    (hem : lib.LoadMessageDescriptorForMessage WellKnown.Empty = Except.ok em) :
    ∃ (s : schemaBuilder) (res : MessageBuilder) (sb : ServiceBuilder),
      assemble lib c = Except.ok s ∧
      buildResourceMessage.b lib c = Except.ok res ∧
      s.resource = some res ∧
      s.file.messages.head? = some res ∧
      s.file.messages.map (fun m => m.name) =
        c.Resource :: (Verb.all.filter c.enabled).flatMap (fun v =>
          if v = Verb.list then
            ["List" ++ c.Resource ++ "Request", "List" ++ c.Resource ++ "Response"]
          else [v.word ++ c.Resource ++ "Request"]) ∧
      s.file.services = [sb] ∧
      s.service = some sb ∧
      sb.name = c.Resource ++ "Service" ∧
      sb.methods.map (fun m => (m.name, m.req, m.resp)) =
        (Verb.all.filter c.enabled).map (fun v =>
          (v.word ++ c.Resource, RpcType.message (v.word ++ c.Resource ++ "Request") false,
            match v with
            | Verb.list => RpcType.message ("List" ++ c.Resource ++ "Response") false
            | Verb.delete => RpcType.importedMessage em false
            | _ => RpcType.message c.Resource false)) := by
  obtain ⟨p, hp, hs⟩ := assemble_ok lib c ts fm em hacc hts hfm hem
  obtain ⟨nres, nsvc, -⟩ := Parts.built_names lib c p hp
  refine ⟨_, p.res, p.service c, hs, hp.1, rfl, rfl, ?_, rfl, rfl, nsvc, ?_⟩
  · show (p.res :: _).map _ = _
    rw [List.map_cons, nres]
    congr 1
    exact flatMap_map_eq _ _ _ _ (fun v hv =>
      Parts.built_messageNames lib c p hp v (List.mem_filter.1 hv).2)
  · show ((Verb.all.filter c.enabled).map p.methodOf).map _ = _
    refine map_map_eq _ _ _ _ (fun v hv => ?_)
    obtain ⟨h1, h2, h3⟩ := Parts.built_method lib c p em hem hp v (List.mem_filter.1 hv).2
    rw [h1, h2, h3]

/-! ## The example scenario passes the checks -/

theorem all_checkName_ok (f : String → Except String Unit) (names : List String)
    (h : names.all (fun n => (f n).toBool) = true) : ∀ n ∈ names, f n = Except.ok () := by
  intro n hn
  have h1 := List.all_eq_true.1 h n hn
  cases hf : f n with
  | ok u => rfl
  | error e => simp [hf, Except.toBool] at h1

theorem accepted_example : accepted exampleLibrary exampleConfig := by
  refine ⟨?_, ?_, ?_, ?_, ?_⟩
  · exact all_checkName_ok _ _ (by decide)
  · intro _; decide
  · intro _ _; exact ⟨by decide, by decide⟩
  · intro _ _; decide
  · intro _ _; decide

/-! ## The resource message -/

/-- Claim C1.  Whenever the names of the resource message and of its fields pass the check
of the builder package, the file does not yet hold the name `Resource`, and the timestamp
descriptor loads (it is only looked up when `WithTimestamps` is set), `buildResourceMessage`
returns: it adds one message to the file and records it as `s.resource`; that message is
named `Resource` and its fields are, in this order, `name` (string, IDENTIFIER), then
`display_name` (string, OPTIONAL) iff `WithDisplayName`, then `create_time` and
`update_time` (timestamp, OUTPUT_ONLY) together iff `WithTimestamps`, then `annotations`
(map from string to string, hence repeated, OPTIONAL) iff `WithAnnotations`, and nothing
else. -/
theorem buildResourceMessage_fields (lib : Library) (s : schemaBuilder)
    (ts : MessageDescriptor)
    (hnames : ∀ n ∈ [s.cfg.Resource, "name", "display_name", "create_time", "update_time",
      "annotations"], lib.checkName n = Except.ok ())
    (hfresh : s.cfg.Resource ∉ s.file.symbols)
    (hts : s.cfg.WithTimestamps = true →
      lib.LoadMessageDescriptorForMessage WellKnown.Timestamp = Except.ok ts) :
    ∃ b : MessageBuilder,
      buildResourceMessage lib s =
        Except.ok { s with
          file := { s.file with messages := s.file.messages ++ [b] }, resource := some b } ∧
      b.name = s.cfg.Resource ∧
      b.fields =
        [{ name := "name", type := FieldType.string, repeated := false
           comments := comment "The resource's name." ""
           options := some { fieldBehavior := some [FieldBehavior.IDENTIFIER] } }]
        ++ (if s.cfg.WithDisplayName then
              [{ name := "display_name", type := FieldType.string, repeated := false
                 comments := comment "The resource's display name." ""
                 options := some { fieldBehavior := some [FieldBehavior.OPTIONAL] } }]
            else [])
        ++ (if s.cfg.WithTimestamps then
              [{ name := "create_time", type := FieldType.importedMessage ts
                 repeated := false
                 comments := comment "The time at which the resource was created." ""
                 options := some { fieldBehavior := some [FieldBehavior.OUTPUT_ONLY] } },
               { name := "update_time", type := FieldType.importedMessage ts
                 repeated := false
                 comments := comment "The time at which the resource was last updated." ""
                 options := some { fieldBehavior := some [FieldBehavior.OUTPUT_ONLY] } }]
            else [])
        ++ (if s.cfg.WithAnnotations then
              [{ name := "annotations"
                 type := FieldType.map FieldType.string FieldType.string
                 repeated := true
                 comments := comment "Custom annotations defined by the caller." ""
                 options := some { fieldBehavior := some [FieldBehavior.OPTIONAL] } }]
            else []) := by
  obtain ⟨b, hb⟩ := buildResourceMessage_b_ok_of_names lib s.cfg ts hnames hts
  obtain ⟨hname, -, hfields⟩ := buildResourceMessage_b_spec lib s.cfg ts hts b hb
  refine ⟨b, ?_, hname, hfields⟩
  simp [buildResourceMessage, hb, hname, hfresh, bind, Except.bind, pure, Except.pure,
    schemaBuilder.fileAddMessage, FileBuilder.AddMessage, FileBuilder.TryAddMessage, orPanic]

/-- Claim C1 at the example scenario: the names pass the check, the file is empty, the
timestamp descriptor loads, and the resource message `Book` has the fields `name`,
`display_name`, `create_time`, `update_time`, `annotations`. -/
theorem buildResourceMessage_fields_example :
    (∀ n ∈ [exampleState.cfg.Resource, "name", "display_name", "create_time", "update_time",
      "annotations"], exampleLibrary.checkName n = Except.ok ()) ∧
    exampleState.cfg.Resource ∉ exampleState.file.symbols ∧
    (exampleState.cfg.WithTimestamps = true →
      exampleLibrary.LoadMessageDescriptorForMessage WellKnown.Timestamp =
        Except.ok { fullName := "google.protobuf.Timestamp" }) ∧
    ∃ b : MessageBuilder,
      buildResourceMessage exampleLibrary exampleState =
        Except.ok { exampleState with
          file := { exampleState.file with messages := exampleState.file.messages ++ [b] }
          resource := some b } ∧
      b.name = "Book" ∧
      b.fields.map (fun f => (f.name, f.repeated)) =
        [("name", false), ("display_name", false), ("create_time", false),
         ("update_time", false), ("annotations", true)] := by
  refine ⟨all_checkName_ok _ _ (by decide), by decide, fun _ => rfl, ?_⟩
  obtain ⟨b, h1, h2, h3⟩ := buildResourceMessage_fields exampleLibrary exampleState
    { fullName := "google.protobuf.Timestamp" } (all_checkName_ok _ _ (by decide))
    (by decide) (fun _ => rfl)
  exact ⟨b, h1, h2, by rw [h3]; rfl⟩

/-! ## Which verbs are generated -/

/-- Claim C2. When the names pass the checks of the builder package and the three well-known
descriptors load, assembly returns a schema in which, for every verb whose letter (`r`, `l`,
`c`, `u`, `d` for Get, List, Create, Update, Delete) does not occur in `Config.Methods`, no
message is named verb+Resource+"Request", no message is named "List"+Resource+"Response" (for
List), and no service method is named verb+Resource; and for every verb whose letter is present
exactly one service method is named verb+Resource. -/
theorem absent_verb_has_no_shape (lib : Library) (c : Config) (ts fm em : MessageDescriptor)
    (hacc : accepted lib c)
    (hts : lib.LoadMessageDescriptorForMessage WellKnown.Timestamp = Except.ok ts)
    (hfm : lib.LoadMessageDescriptorForMessage WellKnown.FieldMask = Except.ok fm)
    (hem : lib.LoadMessageDescriptorForMessage WellKnown.Empty = Except.ok em) :
    ∃ s : schemaBuilder, assemble lib c = Except.ok s ∧
      ∀ (v : Verb) (ch : Char), v.letter.data = [ch] →
        (ch ∉ c.Methods.data →
          (∀ m ∈ s.file.messages, m.name ≠ v.word ++ c.Resource ++ "Request") ∧
          (v = Verb.list →
            ∀ m ∈ s.file.messages, m.name ≠ "List" ++ c.Resource ++ "Response") ∧
          (∀ sb ∈ s.file.services, ∀ m ∈ sb.methods, m.name ≠ v.word ++ c.Resource)) ∧
        (ch ∈ c.Methods.data →
          ((s.file.services.flatMap (fun sb => sb.methods)).map (fun m => m.name)).count
            (v.word ++ c.Resource) = 1) := by
  obtain ⟨s, res, sb, hs, -, -, -, hmsgs, hsvc, -, -, hmeth⟩ :=
    assemble_shape lib c ts fm em hacc hts hfm hem
  have hnames : sb.methods.map (fun m => m.name) =
      (Verb.all.filter c.enabled).map (fun v => v.word ++ c.Resource) := by
    have := congrArg (List.map Prod.fst) hmeth
    simpa [List.map_map, Function.comp_def] using this
  have hmem : ∀ m ∈ s.file.messages, m.name = c.Resource ∨
      ∃ w : Verb, c.enabled w = true ∧ (m.name = w.word ++ c.Resource ++ "Request" ∨
        (w = Verb.list ∧ m.name = "List" ++ c.Resource ++ "Response")) := by
    intro m hm
    have h1 : m.name ∈ s.file.messages.map (fun m => m.name) := List.mem_map_of_mem _ hm
    rw [hmsgs] at h1
    rcases List.mem_cons.1 h1 with h | h
    · exact Or.inl h
    · right
      obtain ⟨w, hw, hin⟩ := List.mem_flatMap.1 h
      refine ⟨w, (List.mem_filter.1 hw).2, ?_⟩
      by_cases hl : w = Verb.list
      · subst hl
        simp at hin
        rcases hin with h | h
        · exact Or.inl h
        · exact Or.inr ⟨rfl, h⟩
      · simp [hl] at hin
        exact Or.inl hin
  have hen : ∀ (v : Verb) (ch : Char), v.letter.data = [ch] →
      c.enabled v = decide (ch ∈ c.Methods.data) :=
    fun v ch hl => stringsContains_char c.Methods v.letter ch hl
  refine ⟨s, hs, fun v ch hl => ⟨fun hch => ?_, fun hch => ?_⟩⟩
  on_goal 1 =>
    have hv : c.enabled v = false := by rw [hen v ch hl]; exact decide_eq_false hch
    refine ⟨?_, ?_, ?_⟩
  on_goal 4 =>
    have hv : c.enabled v = true := by rw [hen v ch hl]; exact decide_eq_true hch
  · intro m hm e
    rcases hmem m hm with h | ⟨w, hw, h | ⟨-, h⟩⟩
    · exact self_ne_affix _ _ _ (by cases v <;> decide) (h.symm.trans e)
    · have := (request_name_inj c.Resource "Request" w v).1 (h.symm.trans e)
      subst this
      simp [hv] at hw
    · exact request_ne_response c.Resource v Verb.list (e.symm.trans h)
  · intro hl m hm e
    subst hl
    rcases hmem m hm with h | ⟨w, hw, h | ⟨hwl, -⟩⟩
    · exact self_ne_affix _ _ _ (by decide) (h.symm.trans e)
    · exact request_ne_response c.Resource w Verb.list (h.symm.trans e)
    · subst hwl
      simp [hv] at hw
  · intro sb1 hsb m hm e
    rw [hsvc, List.mem_singleton] at hsb
    subst hsb
    have h1 : m.name ∈ sb1.methods.map (fun m => m.name) := List.mem_map_of_mem _ hm
    rw [hnames] at h1
    obtain ⟨w, hw, hin⟩ := List.mem_map.1 h1
    have := (method_name_inj c.Resource w v).1 (hin.trans e)
    subst this
    have := (List.mem_filter.1 hw).2
    simp [hv] at this
  · rw [hsvc]
    simp only [List.flatMap_cons, List.flatMap_nil, List.append_nil, hnames]
    apply List.count_eq_one_of_mem
    · apply List.Nodup.map
      · intro a b hab
        exact (method_name_inj c.Resource a b).1 hab
      · exact List.Nodup.filter _ (by decide)
    · exact List.mem_map_of_mem _ (List.mem_filter.2 ⟨by cases v <;> decide, hv⟩)

/-- Claim C2 at the example scenario restricted to the letters `rl`, which passes the checks: no
`DeleteBookRequest` message and no `DeleteBook` method, and exactly one `GetBook` method. -/
theorem absent_verb_has_no_shape_example :
    accepted exampleLibrary { exampleConfig with Methods := "rl" } ∧
    (exampleLibrary.LoadMessageDescriptorForMessage WellKnown.Timestamp =
        Except.ok { fullName := "google.protobuf.Timestamp" } ∧
      exampleLibrary.LoadMessageDescriptorForMessage WellKnown.FieldMask =
        Except.ok { fullName := "google.protobuf.FieldMask" } ∧
      exampleLibrary.LoadMessageDescriptorForMessage WellKnown.Empty =
        Except.ok { fullName := "google.protobuf.Empty" }) ∧
    ∃ s : schemaBuilder,
      assemble exampleLibrary { exampleConfig with Methods := "rl" } = Except.ok s ∧
      (∀ m ∈ s.file.messages, m.name ≠ "DeleteBookRequest") ∧
      (∀ sb ∈ s.file.services, ∀ m ∈ sb.methods, m.name ≠ "DeleteBook") ∧
      ((s.file.services.flatMap (fun sb => sb.methods)).map (fun m => m.name)).count
        "GetBook" = 1 := by
  have hacc : accepted exampleLibrary { exampleConfig with Methods := "rl" } :=
    ⟨all_checkName_ok _ _ (by decide), fun _ => by decide,
      fun _ _ => ⟨by decide, by decide⟩, fun _ _ => by decide, fun _ _ => by decide⟩
  refine ⟨hacc, ⟨rfl, rfl, rfl⟩, ?_⟩
  obtain ⟨s, hs, h⟩ := absent_verb_has_no_shape exampleLibrary
    { exampleConfig with Methods := "rl" } _ _ _ hacc rfl rfl rfl
  exact ⟨s, hs, ((h Verb.delete 'd' rfl).1 (by decide)).1,
    ((h Verb.delete 'd' rfl).1 (by decide)).2.2, (h Verb.get 'r' rfl).2 (by decide)⟩

/-! ## Method names and types -/

/-- Claim C3.  When the names pass the checks of the builder package and the three
well-known descriptors load, assembly returns a schema with
the resource message `res` (named `Resource`, a message of the file) in which every enabled
verb has a method named verb+Resource; a method so named has as request type the message
named verb+Resource+"Request", which is a message of the file, and as response type the
resource message for Get, Create and Update, the message "List"+Resource+"Response" (a
message of the file) for List, and the imported empty type for Delete.  Every message of
the file is the resource message, the request message of an enabled verb or the List
response; in particular none is named verb+Resource+"Response" for a verb other than
List. -/
theorem method_types (lib : Library) (c : Config) (ts fm em : MessageDescriptor)
    (hacc : accepted lib c)
    (hts : lib.LoadMessageDescriptorForMessage WellKnown.Timestamp = Except.ok ts)
    (hfm : lib.LoadMessageDescriptorForMessage WellKnown.FieldMask = Except.ok fm)
    (hem : lib.LoadMessageDescriptorForMessage WellKnown.Empty = Except.ok em) :
    ∃ (s : schemaBuilder) (res : MessageBuilder),
      assemble lib c = Except.ok s ∧ s.resource = some res ∧ res.name = c.Resource ∧
      res ∈ s.file.messages ∧
      (∀ v : Verb, c.enabled v = true →
        ∃ sb ∈ s.file.services, ∃ m ∈ sb.methods, m.name = v.word ++ c.Resource) ∧
      (∀ v : Verb, ∀ sb ∈ s.file.services, ∀ m ∈ sb.methods,
        m.name = v.word ++ c.Resource →
          m.req = RpcType.message (v.word ++ c.Resource ++ "Request") false ∧
          (∃ msg ∈ s.file.messages, msg.name = v.word ++ c.Resource ++ "Request") ∧
          m.resp =
            (match v with
             | Verb.list => RpcType.message ("List" ++ c.Resource ++ "Response") false
             | Verb.delete => RpcTypeImportedMessage em false
             | _ => RpcTypeMessage res false) ∧
          (v = Verb.list →
            ∃ msg ∈ s.file.messages, msg.name = "List" ++ c.Resource ++ "Response")) ∧
      (∀ msg ∈ s.file.messages,
        msg.name = c.Resource ∨
        (∃ v : Verb, c.enabled v = true ∧ msg.name = v.word ++ c.Resource ++ "Request") ∨
        (c.enabled Verb.list = true ∧ msg.name = "List" ++ c.Resource ++ "Response")) ∧
      (∀ v : Verb, v ≠ Verb.list →
        ∀ msg ∈ s.file.messages, msg.name ≠ v.word ++ c.Resource ++ "Response") := by
  obtain ⟨s, res, sb, hs, hb, hres, hhead, hmsgs, hsvc, -, -, hmeth⟩ :=
    assemble_shape lib c ts fm em hacc hts hfm hem
  have hresname : res.name = c.Resource := buildResourceMessage_b_name lib c res hb
  have hnamemem : ∀ n : String, n ∈ s.file.messages.map (fun m => m.name) →
      ∃ msg ∈ s.file.messages, msg.name = n := by
    intro n hn
    obtain ⟨msg, hmsg, e⟩ := List.mem_map.1 hn
    exact ⟨msg, hmsg, e⟩
  have hmem : ∀ m ∈ s.file.messages, m.name = c.Resource ∨
      (∃ w : Verb, c.enabled w = true ∧ m.name = w.word ++ c.Resource ++ "Request") ∨
      (c.enabled Verb.list = true ∧ m.name = "List" ++ c.Resource ++ "Response") := by
    intro m hm
    have h1 : m.name ∈ s.file.messages.map (fun m => m.name) := List.mem_map_of_mem _ hm
    rw [hmsgs] at h1
    rcases List.mem_cons.1 h1 with h | h
    · exact Or.inl h
    · right
      obtain ⟨w, hw, hin⟩ := List.mem_flatMap.1 h
      have hwe := (List.mem_filter.1 hw).2
      by_cases hl : w = Verb.list
      · subst hl
        simp at hin
        rcases hin with h | h
        · exact Or.inl ⟨Verb.list, hwe, h⟩
        · exact Or.inr ⟨hwe, h⟩
      · simp [hl] at hin
        exact Or.inl ⟨w, hwe, hin⟩
  have hreq : ∀ v : Verb, c.enabled v = true →
      ∃ msg ∈ s.file.messages, msg.name = v.word ++ c.Resource ++ "Request" := by
    intro v hv
    apply hnamemem
    rw [hmsgs]
    refine List.mem_cons_of_mem _ (List.mem_flatMap.2 ⟨v, List.mem_filter.2
      ⟨by cases v <;> decide, hv⟩, ?_⟩)
    cases v <;> simp [Verb.word]
  have hlist : c.enabled Verb.list = true →
      ∃ msg ∈ s.file.messages, msg.name = "List" ++ c.Resource ++ "Response" := by
    intro hv
    apply hnamemem
    rw [hmsgs]
    refine List.mem_cons_of_mem _ (List.mem_flatMap.2 ⟨Verb.list, List.mem_filter.2
      ⟨by decide, hv⟩, ?_⟩)
    simp
  have hmethod : ∀ m ∈ sb.methods, ∃ w : Verb, c.enabled w = true ∧
      m.name = w.word ++ c.Resource ∧
      m.req = RpcType.message (w.word ++ c.Resource ++ "Request") false ∧
      m.resp =
        (match w with
         | Verb.list => RpcType.message ("List" ++ c.Resource ++ "Response") false
         | Verb.delete => RpcType.importedMessage em false
         | _ => RpcType.message c.Resource false) := by
    intro m hm
    have h1 : (m.name, m.req, m.resp) ∈ sb.methods.map (fun m => (m.name, m.req, m.resp)) :=
      List.mem_map_of_mem _ hm
    rw [hmeth] at h1
    obtain ⟨w, hw, e⟩ := List.mem_map.1 h1
    simp only [Prod.mk.injEq] at e
    exact ⟨w, (List.mem_filter.1 hw).2, e.1.symm, e.2.1.symm, e.2.2.symm⟩
  refine ⟨s, res, hs, hres, hresname, List.mem_of_mem_head? hhead, ?_, ?_, hmem, ?_⟩
  · intro v hv
    have h1 : (v.word ++ c.Resource) ∈
        (sb.methods.map (fun m => (m.name, m.req, m.resp))).map Prod.fst := by
      rw [hmeth]
      simp only [List.map_map, List.mem_map, Function.comp_def]
      exact ⟨v, List.mem_filter.2 ⟨by cases v <;> decide, hv⟩, rfl⟩
    simp only [List.map_map, List.mem_map, Function.comp_def] at h1
    obtain ⟨m, hm, e⟩ := h1
    exact ⟨sb, by rw [hsvc]; exact List.mem_singleton_self sb, m, hm, e⟩
  · intro v sb1 hsb m hm e
    rw [hsvc, List.mem_singleton] at hsb
    subst hsb
    obtain ⟨w, hw, hn, hq, hp⟩ := hmethod m hm
    have := (method_name_inj c.Resource w v).1 (hn.symm.trans e)
    subst this
    refine ⟨hq, hreq w hw, ?_, fun hl => hlist (hl ▸ hw)⟩
    rw [hp]
    cases w <;> simp [RpcTypeMessage, RpcTypeImportedMessage, hresname]
  · intro v hv msg hmsg e
    rcases hmem msg hmsg with h | ⟨w, -, h⟩ | ⟨-, h⟩
    · exact self_ne_affix _ _ _ (by cases v <;> decide) (h.symm.trans e)
    · exact request_ne_response c.Resource w v (h.symm.trans e)
    · exact hv ((request_name_inj c.Resource "Response" v Verb.list).1 (e.symm.trans h))

/-- Claim C3 at the example scenario: `GetBook` takes `GetBookRequest` and returns the
resource message `Book`, `ListBook` returns `ListBookResponse`, `DeleteBook` returns the
imported empty type. -/
theorem method_types_example :
    accepted exampleLibrary exampleConfig ∧
    (exampleLibrary.LoadMessageDescriptorForMessage WellKnown.Timestamp =
        Except.ok { fullName := "google.protobuf.Timestamp" } ∧
      exampleLibrary.LoadMessageDescriptorForMessage WellKnown.FieldMask =
        Except.ok { fullName := "google.protobuf.FieldMask" } ∧
      exampleLibrary.LoadMessageDescriptorForMessage WellKnown.Empty =
        Except.ok { fullName := "google.protobuf.Empty" }) ∧
    ∃ (s : schemaBuilder) (res : MessageBuilder),
      assemble exampleLibrary exampleConfig = Except.ok s ∧ s.resource = some res ∧
      res.name = "Book" ∧
      ∀ sb ∈ s.file.services, ∀ m ∈ sb.methods,
        (m.name = "GetBook" →
          m.req = RpcType.message "GetBookRequest" false ∧ m.resp = RpcTypeMessage res false) ∧
        (m.name = "ListBook" → m.resp = RpcType.message "ListBookResponse" false) ∧
        (m.name = "DeleteBook" →
          m.resp = RpcType.importedMessage { fullName := "google.protobuf.Empty" } false) := by
  refine ⟨accepted_example, ⟨rfl, rfl, rfl⟩, ?_⟩
  obtain ⟨s, res, hs, hres, hname, -, -, h, -, -⟩ := method_types exampleLibrary
    exampleConfig _ _ _ accepted_example rfl rfl rfl
  refine ⟨s, res, hs, hres, hname, fun sb hsb m hm => ⟨fun e => ?_, fun e => ?_, fun e => ?_⟩⟩
  · exact ⟨(h Verb.get sb hsb m hm e).1, (h Verb.get sb hsb m hm e).2.2.1⟩
  · exact (h Verb.list sb hsb m hm e).2.2.1
  · exact (h Verb.delete sb hsb m hm e).2.2.1

/-! ## Order of methods and messages -/

theorem bind_congr_map {α β : Type} (W : β → β) (x : Outcome α) (F G : α → Outcome β)
    (h : ∀ a, x = Except.ok a → F a = (G a).map W) : (x >>= F) = (x >>= G).map W := by
  cases x with
  | error e => rfl
  | ok a => exact h a rfl

/-- Binding a step after a run with replaced method letters. -/
theorem bind_withMethods (m : String) (x : Outcome schemaBuilder)
    (f g : schemaBuilder → Outcome schemaBuilder)
    (h : ∀ t, x = Except.ok t → f (t.withMethods m) = (g t).map (fun u => u.withMethods m)) :
    (x.map (fun t => t.withMethods m) >>= f) = (x >>= g).map (fun u => u.withMethods m) := by
  cases x with
  | error e => rfl
  | ok t => exact h t rfl

theorem fileAddMessage_withMethods (lib : Library) (s : schemaBuilder) (m : String)
    (mb : MessageBuilder) :
    (s.withMethods m).fileAddMessage lib mb =
      (s.fileAddMessage lib mb).map (fun t => t.withMethods m) := by
  obtain ⟨cfg, file, resource, service⟩ := s
  simp only [schemaBuilder.fileAddMessage, schemaBuilder.withMethods, FileBuilder.AddMessage,
    FileBuilder.TryAddMessage]
  by_cases h : mb.name ∈ file.symbols
  · simp only [h, if_true]; rfl
  · simp only [h, if_false]; rfl

theorem serviceAddMethod_withMethods (lib : Library) (s : schemaBuilder) (m : String)
    (mb : MethodBuilder) :
    (s.withMethods m).serviceAddMethod lib mb =
      (s.serviceAddMethod lib mb).map (fun t => t.withMethods m) := by
  obtain ⟨cfg, file, resource, service⟩ := s
  cases service with
  | none => rfl
  | some sb =>
    simp only [schemaBuilder.serviceAddMethod, schemaBuilder.withMethods,
      ServiceBuilder.AddMethod, ServiceBuilder.TryAddMethod]
    by_cases h : mb.name ∈ sb.methods.map (fun x => x.name)
    · simp only [h, if_true]; rfl
    · simp only [h, if_false]; rfl

theorem fileAddMessage_serviceAddMethod_withMethods (lib : Library) (s : schemaBuilder)
    (m : String) (mb : MessageBuilder) (me : MethodBuilder) :
    ((s.withMethods m).fileAddMessage lib mb >>= fun t => t.serviceAddMethod lib me) =
      (s.fileAddMessage lib mb >>= fun t => t.serviceAddMethod lib me).map
        (fun t => t.withMethods m) := by
  rw [fileAddMessage_withMethods]
  exact bind_withMethods m _ _ _ (fun t _ => serviceAddMethod_withMethods lib t m me)

theorem buildGetMethod_withMethods (lib : Library) (s : schemaBuilder) (m : String)
    (h : stringsContains m "r" = stringsContains s.cfg.Methods "r") :
    buildGetMethod lib (s.withMethods m) =
      (buildGetMethod lib s).map (fun t => t.withMethods m) := by
  unfold buildGetMethod
  have hc : (s.withMethods m).cfg.Methods = m := rfl
  rw [hc, h]
  cases stringsContains s.cfg.Methods "r"
  · rfl
  · simp only [Bool.not_true, Bool.false_eq_true, if_false]
    refine bind_congr_map _ _ _ _ (fun req _ => ?_)
    refine bind_congr_map _ _ _ _ (fun res _ => ?_)
    refine bind_congr_map _ _ _ _ (fun me _ => ?_)
    exact fileAddMessage_serviceAddMethod_withMethods lib s m req me

theorem buildListMethod_withMethods (lib : Library) (s : schemaBuilder) (m : String)
    (h : stringsContains m "l" = stringsContains s.cfg.Methods "l") :
    buildListMethod lib (s.withMethods m) =
      (buildListMethod lib s).map (fun t => t.withMethods m) := by
  unfold buildListMethod
  have hc : (s.withMethods m).cfg.Methods = m := rfl
  rw [hc, h]
  cases stringsContains s.cfg.Methods "l"
  · rfl
  · simp only [Bool.not_true, Bool.false_eq_true, if_false]
    refine bind_congr_map _ _ _ _ (fun req _ => ?_)
    refine bind_congr_map _ _ _ _ (fun res _ => ?_)
    refine bind_congr_map _ _ _ _ (fun msg _ => ?_)
    refine bind_congr_map _ _ _ _ (fun me _ => ?_)
    rw [fileAddMessage_withMethods]
    refine bind_withMethods m _ _ _ (fun t _ => ?_)
    exact fileAddMessage_serviceAddMethod_withMethods lib t m msg me

theorem buildCreateMethod_withMethods (lib : Library) (s : schemaBuilder) (m : String)
    (h : stringsContains m "c" = stringsContains s.cfg.Methods "c") :
    buildCreateMethod lib (s.withMethods m) =
      (buildCreateMethod lib s).map (fun t => t.withMethods m) := by
  unfold buildCreateMethod
  have hc : (s.withMethods m).cfg.Methods = m := rfl
  rw [hc, h]
  cases stringsContains s.cfg.Methods "c"
  · rfl
  · simp only [Bool.not_true, Bool.false_eq_true, if_false]
    refine bind_congr_map _ _ _ _ (fun res _ => ?_)
    refine bind_congr_map _ _ _ _ (fun req _ => ?_)
    refine bind_congr_map _ _ _ _ (fun res2 _ => ?_)
    refine bind_congr_map _ _ _ _ (fun me _ => ?_)
    exact fileAddMessage_serviceAddMethod_withMethods lib s m req me

theorem buildUpdateMethod_withMethods (lib : Library) (s : schemaBuilder) (m : String)
    (h : stringsContains m "u" = stringsContains s.cfg.Methods "u") :
    buildUpdateMethod lib (s.withMethods m) =
      (buildUpdateMethod lib s).map (fun t => t.withMethods m) := by
  unfold buildUpdateMethod
  have hc : (s.withMethods m).cfg.Methods = m := rfl
  rw [hc, h]
  cases stringsContains s.cfg.Methods "u"
  · rfl
  · simp only [Bool.not_true, Bool.false_eq_true, if_false]
    refine bind_congr_map _ _ _ _ (fun res _ => ?_)
    refine bind_congr_map _ _ _ _ (fun req _ => ?_)
    refine bind_congr_map _ _ _ _ (fun res2 _ => ?_)
    refine bind_congr_map _ _ _ _ (fun me _ => ?_)
    exact fileAddMessage_serviceAddMethod_withMethods lib s m req me

theorem buildDeleteMethod_withMethods (lib : Library) (s : schemaBuilder) (m : String)
    (h : stringsContains m "d" = stringsContains s.cfg.Methods "d") :
    buildDeleteMethod lib (s.withMethods m) =
      (buildDeleteMethod lib s).map (fun t => t.withMethods m) := by
  unfold buildDeleteMethod
  have hc : (s.withMethods m).cfg.Methods = m := rfl
  rw [hc, h]
  cases stringsContains s.cfg.Methods "d"
  · rfl
  · simp only [Bool.not_true, Bool.false_eq_true, if_false]
    refine bind_congr_map _ _ _ _ (fun req _ => ?_)
    refine bind_congr_map _ _ _ _ (fun me _ => ?_)
    exact fileAddMessage_serviceAddMethod_withMethods lib s m req me

theorem buildResourceMessage_withMethods (lib : Library) (s : schemaBuilder) (m : String) :
    buildResourceMessage lib (s.withMethods m) =
      (buildResourceMessage lib s).map (fun t => t.withMethods m) := by
  unfold buildResourceMessage
  refine bind_congr_map _ _ _ _ (fun b _ => ?_)
  rw [fileAddMessage_withMethods]
  exact bind_withMethods m _ _ _ (fun t _ => rfl)

theorem bind_eq_ok {α β : Type} (x : Outcome α) (f : α → Outcome β) (b : β)
    (h : (x >>= f) = Except.ok b) : ∃ a, x = Except.ok a ∧ f a = Except.ok b := by
  cases x with
  | error e => cases h
  | ok a => exact ⟨a, rfl, h⟩

/-- Adding a message to the file leaves the configuration and the resource as they are. -/
theorem fileAddMessage_frame (lib : Library) (s t : schemaBuilder) (mb : MessageBuilder)
    (h : s.fileAddMessage lib mb = Except.ok t) :
    t.cfg = s.cfg ∧ t.resource = s.resource ∧ t.service = s.service ∧
    t.file.messages = s.file.messages ++ [mb] := by
  simp only [schemaBuilder.fileAddMessage, FileBuilder.AddMessage,
    FileBuilder.TryAddMessage] at h
  by_cases hm : mb.name ∈ s.file.symbols
  · simp only [hm, if_true] at h; cases h
  · simp only [hm, if_false] at h
    cases h
    exact ⟨rfl, rfl, rfl, rfl⟩

/-- Adding a method to the service leaves the configuration, the resource and the messages
as they are. -/
theorem serviceAddMethod_frame (lib : Library) (s t : schemaBuilder) (me : MethodBuilder)
    (h : s.serviceAddMethod lib me = Except.ok t) :
    t.cfg = s.cfg ∧ t.resource = s.resource ∧ t.file.messages = s.file.messages := by
  unfold schemaBuilder.serviceAddMethod at h
  cases hs : s.service with
  | none => rw [hs] at h; cases h
  | some sb =>
    rw [hs] at h
    simp only [ServiceBuilder.AddMethod, ServiceBuilder.TryAddMethod] at h
    by_cases hm : me.name ∈ sb.methods.map (fun x => x.name)
    · simp only [hm, if_true] at h; cases h
    · simp only [hm, if_false] at h
      cases h
      exact ⟨rfl, rfl, rfl⟩

/-- What a method builder does to the state: the configuration and the resource stay,
and the messages of the file are extended by results of the message builders `P`. -/
theorem add_frame (lib : Library) (s t : schemaBuilder) (mb : MessageBuilder)
    (me : MethodBuilder)
    (h : (s.fileAddMessage lib mb >>= fun u => u.serviceAddMethod lib me) = Except.ok t) :
    t.cfg = s.cfg ∧ t.resource = s.resource ∧ t.file.messages = s.file.messages ++ [mb] := by
  obtain ⟨u, hu, ht⟩ := bind_eq_ok _ _ _ h
  obtain ⟨a1, a2, -, a4⟩ := fileAddMessage_frame lib s u mb hu
  obtain ⟨b1, b2, b3⟩ := serviceAddMethod_frame lib u t me ht
  exact ⟨b1.trans a1, b2.trans a2, b3.trans a4⟩

theorem getResource_eq (s : schemaBuilder) (res : MessageBuilder)
    (h : s.getResource = Except.ok res) : s.resource = some res := by
  unfold schemaBuilder.getResource at h
  cases hr : s.resource with
  | none => rw [hr] at h; cases h
  | some b => rw [hr] at h; cases h; rfl

theorem buildGetMethod_frame (lib : Library) (s t : schemaBuilder)
    (h : buildGetMethod lib s = Except.ok t) :
    t.cfg = s.cfg ∧ t.resource = s.resource ∧
    ∀ msg ∈ t.file.messages, msg ∈ s.file.messages ∨
      buildGetMethod.req lib s.cfg = Except.ok msg := by
  unfold buildGetMethod at h
  cases hg : stringsContains s.cfg.Methods "r"
  · simp only [hg, Bool.not_false, if_true] at h
    cases h
    exact ⟨rfl, rfl, fun msg hm => Or.inl hm⟩
  · simp only [hg, Bool.not_true, Bool.false_eq_true, if_false] at h
    obtain ⟨req, hreq, h⟩ := bind_eq_ok _ _ _ h
    obtain ⟨res, hres, h⟩ := bind_eq_ok _ _ _ h
    obtain ⟨me, hme, h⟩ := bind_eq_ok _ _ _ h
    obtain ⟨a1, a2, a3⟩ := add_frame lib s t req me h
    refine ⟨a1, a2, fun msg hm => ?_⟩
    rw [a3] at hm
    rcases List.mem_append.1 hm with hm | hm
    · exact Or.inl hm
    · rw [List.mem_singleton.1 hm]; exact Or.inr hreq

theorem buildListMethod_frame (lib : Library) (s t : schemaBuilder)
    (h : buildListMethod lib s = Except.ok t) :
    t.cfg = s.cfg ∧ t.resource = s.resource ∧
    ∀ msg ∈ t.file.messages, msg ∈ s.file.messages ∨
      buildListMethod.req lib s.cfg = Except.ok msg ∨
      ∃ res, buildListMethod.res lib s.cfg res = Except.ok msg := by
  unfold buildListMethod at h
  cases hg : stringsContains s.cfg.Methods "l"
  · simp only [hg, Bool.not_false, if_true] at h
    cases h
    exact ⟨rfl, rfl, fun msg hm => Or.inl hm⟩
  · simp only [hg, Bool.not_true, Bool.false_eq_true, if_false] at h
    obtain ⟨req, hreq, h⟩ := bind_eq_ok _ _ _ h
    obtain ⟨res, hres, h⟩ := bind_eq_ok _ _ _ h
    obtain ⟨msg2, hmsg2, h⟩ := bind_eq_ok _ _ _ h
    obtain ⟨me, hme, h⟩ := bind_eq_ok _ _ _ h
    obtain ⟨u, hu, h⟩ := bind_eq_ok _ _ _ h
    obtain ⟨b1, b2, -, b4⟩ := fileAddMessage_frame lib s u req hu
    obtain ⟨a1, a2, a3⟩ := add_frame lib u t msg2 me h
    refine ⟨a1.trans b1, a2.trans b2, fun msg hm => ?_⟩
    rw [a3, b4] at hm
    rcases List.mem_append.1 hm with hm | hm
    · rcases List.mem_append.1 hm with hm | hm
      · exact Or.inl hm
      · rw [List.mem_singleton.1 hm]; exact Or.inr (Or.inl hreq)
    · rw [List.mem_singleton.1 hm]; exact Or.inr (Or.inr ⟨res, hmsg2⟩)

theorem buildCreateMethod_frame (lib : Library) (s t : schemaBuilder)
    (h : buildCreateMethod lib s = Except.ok t) :
    t.cfg = s.cfg ∧ t.resource = s.resource ∧
    ∀ msg ∈ t.file.messages, msg ∈ s.file.messages ∨
      ∃ res, buildCreateMethod.req lib s.cfg res = Except.ok msg := by
  unfold buildCreateMethod at h
  cases hg : stringsContains s.cfg.Methods "c"
  · simp only [hg, Bool.not_false, if_true] at h
    cases h
    exact ⟨rfl, rfl, fun msg hm => Or.inl hm⟩
  · simp only [hg, Bool.not_true, Bool.false_eq_true, if_false] at h
    obtain ⟨res, hres, h⟩ := bind_eq_ok _ _ _ h
    obtain ⟨req, hreq, h⟩ := bind_eq_ok _ _ _ h
    obtain ⟨res2, hres2, h⟩ := bind_eq_ok _ _ _ h
    obtain ⟨me, hme, h⟩ := bind_eq_ok _ _ _ h
    obtain ⟨a1, a2, a3⟩ := add_frame lib s t req me h
    refine ⟨a1, a2, fun msg hm => ?_⟩
    rw [a3] at hm
    rcases List.mem_append.1 hm with hm | hm
    · exact Or.inl hm
    · rw [List.mem_singleton.1 hm]; exact Or.inr ⟨res, hreq⟩

theorem buildUpdateMethod_frame (lib : Library) (s t : schemaBuilder)
    (h : buildUpdateMethod lib s = Except.ok t) :
    t.cfg = s.cfg ∧ t.resource = s.resource ∧
    ∀ msg ∈ t.file.messages, msg ∈ s.file.messages ∨
      ∃ res, buildUpdateMethod.req lib s.cfg res = Except.ok msg := by
  unfold buildUpdateMethod at h
  cases hg : stringsContains s.cfg.Methods "u"
  · simp only [hg, Bool.not_false, if_true] at h
    cases h
    exact ⟨rfl, rfl, fun msg hm => Or.inl hm⟩
  · simp only [hg, Bool.not_true, Bool.false_eq_true, if_false] at h
    obtain ⟨res, hres, h⟩ := bind_eq_ok _ _ _ h
    obtain ⟨req, hreq, h⟩ := bind_eq_ok _ _ _ h
    obtain ⟨res2, hres2, h⟩ := bind_eq_ok _ _ _ h
    obtain ⟨me, hme, h⟩ := bind_eq_ok _ _ _ h
    obtain ⟨a1, a2, a3⟩ := add_frame lib s t req me h
    refine ⟨a1, a2, fun msg hm => ?_⟩
    rw [a3] at hm
    rcases List.mem_append.1 hm with hm | hm
    · exact Or.inl hm
    · rw [List.mem_singleton.1 hm]; exact Or.inr ⟨res, hreq⟩

theorem buildDeleteMethod_frame (lib : Library) (s t : schemaBuilder)
    (h : buildDeleteMethod lib s = Except.ok t) :
    t.cfg = s.cfg ∧ t.resource = s.resource ∧
    ∀ msg ∈ t.file.messages, msg ∈ s.file.messages ∨
      buildDeleteMethod.req lib s.cfg = Except.ok msg := by
  unfold buildDeleteMethod at h
  cases hg : stringsContains s.cfg.Methods "d"
  · simp only [hg, Bool.not_false, if_true] at h
    cases h
    exact ⟨rfl, rfl, fun msg hm => Or.inl hm⟩
  · simp only [hg, Bool.not_true, Bool.false_eq_true, if_false] at h
    obtain ⟨req, hreq, h⟩ := bind_eq_ok _ _ _ h
    obtain ⟨me, hme, h⟩ := bind_eq_ok _ _ _ h
    obtain ⟨a1, a2, a3⟩ := add_frame lib s t req me h
    refine ⟨a1, a2, fun msg hm => ?_⟩
    rw [a3] at hm
    rcases List.mem_append.1 hm with hm | hm
    · exact Or.inl hm
    · rw [List.mem_singleton.1 hm]; exact Or.inr hreq

theorem methods_chain_withMethods (lib : Library) (s : schemaBuilder) (m : String)
    (h : ∀ v : Verb, stringsContains m v.letter = stringsContains s.cfg.Methods v.letter) :
    (buildGetMethod lib (s.withMethods m) >>= fun s1 =>
      buildListMethod lib s1 >>= fun s2 =>
      buildCreateMethod lib s2 >>= fun s3 =>
      buildUpdateMethod lib s3 >>= fun s4 =>
      buildDeleteMethod lib s4) =
    (buildGetMethod lib s >>= fun s1 =>
      buildListMethod lib s1 >>= fun s2 =>
      buildCreateMethod lib s2 >>= fun s3 =>
      buildUpdateMethod lib s3 >>= fun s4 =>
      buildDeleteMethod lib s4).map (fun t => t.withMethods m) := by
  rw [buildGetMethod_withMethods lib s m (h Verb.get)]
  refine bind_withMethods m _ _ _ (fun t1 h1 => ?_)
  have c1 := (buildGetMethod_frame lib s t1 h1).1
  rw [buildListMethod_withMethods lib t1 m (by rw [c1]; exact h Verb.list)]
  refine bind_withMethods m _ _ _ (fun t2 h2 => ?_)
  have c2 := ((buildListMethod_frame lib t1 t2 h2).1).trans c1
  rw [buildCreateMethod_withMethods lib t2 m (by rw [c2]; exact h Verb.create)]
  refine bind_withMethods m _ _ _ (fun t3 h3 => ?_)
  have c3 := ((buildCreateMethod_frame lib t2 t3 h3).1).trans c2
  rw [buildUpdateMethod_withMethods lib t3 m (by rw [c3]; exact h Verb.update)]
  refine bind_withMethods m _ _ _ (fun t4 h4 => ?_)
  have c4 := ((buildUpdateMethod_frame lib t3 t4 h4).1).trans c3
  exact buildDeleteMethod_withMethods lib t4 m (by rw [c4]; exact h Verb.delete)

theorem buildServiceDescriptor_withMethods (lib : Library) (s : schemaBuilder) (m : String)
    (h : ∀ v : Verb, stringsContains m v.letter = stringsContains s.cfg.Methods v.letter) :
    buildServiceDescriptor lib (s.withMethods m) =
      (buildServiceDescriptor lib s).map (fun t => t.withMethods m) := by
  unfold buildServiceDescriptor
  refine bind_congr_map _ _ _ _ (fun b _ => ?_)
  refine bind_congr_map _ _ _ _ (fun file _ => ?_)
  exact methods_chain_withMethods lib
    { s with file := file, service := some b } m h

/-- The run for a configuration whose method letters are replaced by a string with the
same guard values ends in the same state, up to the configuration it carries. -/
theorem assemble_withMethods (lib : Library) (c : Config) (m : String)
    (h : ∀ v : Verb, stringsContains m v.letter = stringsContains c.Methods v.letter) :
    assemble lib { c with Methods := m } =
      (assemble lib c).map (fun t => t.withMethods m) := by
  unfold assemble
  have e : buildResourceMessage lib
      { cfg := { c with Methods := m }
        file := ((NewFile (c.Resource ++ ".proto")).SetProto3 (c.Syntax == "proto3")).SetPackageName
          c.Package
        resource := none, service := none } =
      (buildResourceMessage lib
        { cfg := c
          file := ((NewFile (c.Resource ++ ".proto")).SetProto3
            (c.Syntax == "proto3")).SetPackageName c.Package
          resource := none, service := none }).map (fun t => t.withMethods m) :=
    buildResourceMessage_withMethods lib
      { cfg := c
        file := ((NewFile (c.Resource ++ ".proto")).SetProto3
          (c.Syntax == "proto3")).SetPackageName c.Package
        resource := none, service := none } m
  show (buildResourceMessage lib _ >>= fun s => buildServiceDescriptor lib s) = _
  rw [e]
  refine bind_withMethods m _ _ _ (fun t ht => ?_)
  have hc : t.cfg = c := by
    unfold buildResourceMessage at ht
    obtain ⟨b, -, ht⟩ := bind_eq_ok _ _ _ ht
    obtain ⟨u, hu, ht⟩ := bind_eq_ok _ _ _ ht
    cases ht
    exact (fileAddMessage_frame lib _ u b hu).1
  exact buildServiceDescriptor_withMethods lib t m (by rw [hc]; exact h)

theorem assemble_file_withMethods (lib : Library) (c : Config) (m : String)
    (h : ∀ v : Verb, stringsContains m v.letter = stringsContains c.Methods v.letter) :
    (assemble lib { c with Methods := m }).map (fun s => s.file) =
      (assemble lib c).map (fun s => s.file) := by
  rw [assemble_withMethods lib c m h]
  cases assemble lib c <;> rfl

theorem Build_withMethods (lib : Library) (c : Config) (m : String)
    (h : ∀ v : Verb, stringsContains m v.letter = stringsContains c.Methods v.letter) :
    Build lib { c with Methods := m } = Build lib c := by
  unfold Build buildDescriptor
  rw [assemble_withMethods lib c m h]
  cases assemble lib c <;> rfl

theorem enabled_eq_of_perm (c : Config) (methods : String)
    (h : methods.data.Perm c.Methods.data) (v : Verb) :
    stringsContains methods v.letter = stringsContains c.Methods v.letter := by
  cases v <;> simp only [Verb.letter]
  · rw [stringsContains_char methods "r" 'r' rfl, stringsContains_char c.Methods "r" 'r' rfl]
    exact decide_eq_decide.2 h.mem_iff
  · rw [stringsContains_char methods "l" 'l' rfl, stringsContains_char c.Methods "l" 'l' rfl]
    exact decide_eq_decide.2 h.mem_iff
  · rw [stringsContains_char methods "c" 'c' rfl, stringsContains_char c.Methods "c" 'c' rfl]
    exact decide_eq_decide.2 h.mem_iff
  · rw [stringsContains_char methods "u" 'u' rfl, stringsContains_char c.Methods "u" 'u' rfl]
    exact decide_eq_decide.2 h.mem_iff
  · rw [stringsContains_char methods "d" 'd' rfl, stringsContains_char c.Methods "d" 'd' rfl]
    exact decide_eq_decide.2 h.mem_iff

/-- Claim C4. When the names pass the checks of the builder package and the three well-known
descriptors load, assembly returns a schema whose single service lists the methods verb+Resource
for the enabled verbs in the order Get, List, Create, Update, Delete, and whose file lists the
resource message first, followed by the messages of the enabled verbs in that same order (the
request, and for List the response after it). A configuration that differs only by a permutation
of the characters of `Config.Methods` yields the same file builder and the same result of
`Build`, also when the run panics or a descriptor does not load. -/
theorem verb_order_and_permutation (lib : Library) (c : Config)
    (ts fm em : MessageDescriptor)
    (hacc : accepted lib c)
    (hts : lib.LoadMessageDescriptorForMessage WellKnown.Timestamp = Except.ok ts)
    (hfm : lib.LoadMessageDescriptorForMessage WellKnown.FieldMask = Except.ok fm)
    (hem : lib.LoadMessageDescriptorForMessage WellKnown.Empty = Except.ok em) :
    (∃ (s : schemaBuilder) (res : MessageBuilder) (sb : ServiceBuilder)
        (rest : List MessageBuilder),
      assemble lib c = Except.ok s ∧ s.resource = some res ∧
      s.file.services = [sb] ∧
      sb.methods.map (fun m => m.name) =
        (Verb.all.filter c.enabled).map (fun v => v.word ++ c.Resource) ∧
      s.file.messages = res :: rest ∧
      rest.map (fun m => m.name) =
        (Verb.all.filter c.enabled).flatMap (fun v =>
          if v = Verb.list then
            ["List" ++ c.Resource ++ "Request", "List" ++ c.Resource ++ "Response"]
          else [v.word ++ c.Resource ++ "Request"])) ∧
    (∀ methods : String, methods.data.Perm c.Methods.data →
      (assemble lib { c with Methods := methods }).map (fun s => s.file) =
        (assemble lib c).map (fun s => s.file) ∧
      Build lib { c with Methods := methods } = Build lib c) := by
  refine ⟨?_, fun methods hperm => ⟨?_, ?_⟩⟩
  · obtain ⟨s, res, sb, hs, -, hres, hhead, hmsgs, hsvc, -, -, hmeth⟩ :=
      assemble_shape lib c ts fm em hacc hts hfm hem
    have hnames : sb.methods.map (fun m => m.name) =
        (Verb.all.filter c.enabled).map (fun v => v.word ++ c.Resource) := by
      have := congrArg (List.map Prod.fst) hmeth
      simpa [List.map_map, Function.comp_def] using this
    cases hm : s.file.messages with
    | nil => rw [hm] at hhead; cases hhead
    | cons a rest =>
      rw [hm] at hhead hmsgs
      simp only [List.head?_cons, Option.some.injEq] at hhead
      subst hhead
      simp only [List.map_cons, List.cons.injEq] at hmsgs
      exact ⟨s, a, sb, rest, hs, hres, hsvc, hnames, hm, hmsgs.2⟩
  · exact assemble_file_withMethods lib c methods (enabled_eq_of_perm c methods hperm)
  · exact Build_withMethods lib c methods (enabled_eq_of_perm c methods hperm)

/-- Claim C4 at the example scenario: the methods are `GetBook`, `ListBook`, `CreateBook`,
`UpdateBook`, `DeleteBook` in this order, and the letters `ldurc` give the same file as
`crudl`. -/
theorem verb_order_and_permutation_example :
    accepted exampleLibrary exampleConfig ∧
    (exampleLibrary.LoadMessageDescriptorForMessage WellKnown.Timestamp =
        Except.ok { fullName := "google.protobuf.Timestamp" } ∧
      exampleLibrary.LoadMessageDescriptorForMessage WellKnown.FieldMask =
        Except.ok { fullName := "google.protobuf.FieldMask" } ∧
      exampleLibrary.LoadMessageDescriptorForMessage WellKnown.Empty =
        Except.ok { fullName := "google.protobuf.Empty" }) ∧
    (∃ (s : schemaBuilder) (sb : ServiceBuilder),
      assemble exampleLibrary exampleConfig = Except.ok s ∧ s.file.services = [sb] ∧
      sb.methods.map (fun m => m.name) =
        ["GetBook", "ListBook", "CreateBook", "UpdateBook", "DeleteBook"]) ∧
    (assemble exampleLibrary { exampleConfig with Methods := "ldurc" }).map (fun s => s.file) =
      (assemble exampleLibrary exampleConfig).map (fun s => s.file) := by
  have h := verb_order_and_permutation exampleLibrary exampleConfig _ _ _
    accepted_example rfl rfl rfl
  refine ⟨accepted_example, ⟨rfl, rfl, rfl⟩, ?_, ?_⟩
  · obtain ⟨s, res, sb, rest, hs, -, hsvc, hnames, -, -⟩ := h.1
    exact ⟨s, sb, hs, hsvc, hnames.trans (by decide)⟩
  · exact (h.2 "ldurc" (by decide)).1

/-! ## Case of the method letters -/

/-- Claim C5 fails at the example scenario: with the letters `CRUDL` in place of `crudl` the
file holds the resource message only and the service has no method, while `crudl` gives
all five methods and their messages. -/
theorem upper_case_letters_generate_nothing :
    (assemble exampleLibrary { exampleConfig with Methods := "CRUDL" }).map
        (fun s => (s.file.messages.map (fun m => m.name),
          s.file.services.map (fun sb => sb.methods.map (fun m => m.name)))) =
      Except.ok (["Book"], [[]]) ∧
    (assemble exampleLibrary exampleConfig).map
        (fun s => (s.file.messages.map (fun m => m.name),
          s.file.services.map (fun sb => sb.methods.map (fun m => m.name)))) =
      Except.ok
        (["Book", "GetBookRequest", "ListBookRequest", "ListBookResponse",
          "CreateBookRequest", "UpdateBookRequest", "DeleteBookRequest"],
         [["GetBook", "ListBook", "CreateBook", "UpdateBook", "DeleteBook"]]) := by
  constructor <;> rfl

/-- Claim C5 as amended.  The membership test is case-sensitive.  When the names pass the
checks of the builder package and the three well-known descriptors load, assembly returns
a schema in which, for each verb, a method named verb+Resource, a message named
verb+Resource+"Request" and (for List) a message named "List"+Resource+"Response" are
present exactly when the lower-case letter of the verb (`r`, `l`, `c`, `u`, `d` for Get,
List, Create, Update, Delete) occurs in `Config.Methods`.  A configuration that differs
only in `Config.Methods`, by a string in which the same ones of these five lower-case
letters occur, yields the same file builder and the same result of `Build`: every other
character, upper-case letters included, is ignored. -/
theorem lower_case_letters_decide (lib : Library) (c : Config)
    (ts fm em : MessageDescriptor) (methods : String)
    (hacc : accepted lib c)
    (hts : lib.LoadMessageDescriptorForMessage WellKnown.Timestamp = Except.ok ts)
    (hfm : lib.LoadMessageDescriptorForMessage WellKnown.FieldMask = Except.ok fm)
    (hem : lib.LoadMessageDescriptorForMessage WellKnown.Empty = Except.ok em)
    (h : ∀ ch ∈ ['r', 'l', 'c', 'u', 'd'], ch ∈ methods.data ↔ ch ∈ c.Methods.data) :
    (∃ (s : schemaBuilder) (sb : ServiceBuilder),
      assemble lib c = Except.ok s ∧ s.file.services = [sb] ∧
      ∀ (v : Verb) (ch : Char), v.letter.data = [ch] →
        ((∃ m ∈ sb.methods, m.name = v.word ++ c.Resource) ↔ ch ∈ c.Methods.data) ∧
        ((∃ msg ∈ s.file.messages, msg.name = v.word ++ c.Resource ++ "Request") ↔
          ch ∈ c.Methods.data) ∧
        (v = Verb.list →
          ((∃ msg ∈ s.file.messages, msg.name = "List" ++ c.Resource ++ "Response") ↔
            ch ∈ c.Methods.data))) ∧
    (assemble lib { c with Methods := methods }).map (fun s => s.file) =
      (assemble lib c).map (fun s => s.file) ∧
    Build lib { c with Methods := methods } = Build lib c := by
  have hv : ∀ v : Verb,
      stringsContains methods v.letter = stringsContains c.Methods v.letter := by
    intro v
    cases v <;> simp only [Verb.letter]
    · rw [stringsContains_char methods "r" 'r' rfl, stringsContains_char c.Methods "r" 'r' rfl]
      exact decide_eq_decide.2 (h 'r' (by simp))
    · rw [stringsContains_char methods "l" 'l' rfl, stringsContains_char c.Methods "l" 'l' rfl]
      exact decide_eq_decide.2 (h 'l' (by simp))
    · rw [stringsContains_char methods "c" 'c' rfl, stringsContains_char c.Methods "c" 'c' rfl]
      exact decide_eq_decide.2 (h 'c' (by simp))
    · rw [stringsContains_char methods "u" 'u' rfl, stringsContains_char c.Methods "u" 'u' rfl]
      exact decide_eq_decide.2 (h 'u' (by simp))
    · rw [stringsContains_char methods "d" 'd' rfl, stringsContains_char c.Methods "d" 'd' rfl]
      exact decide_eq_decide.2 (h 'd' (by simp))
  refine ⟨?_, assemble_file_withMethods lib c methods hv, Build_withMethods lib c methods hv⟩
  obtain ⟨p, hp, hs⟩ := assemble_ok lib c ts fm em hacc hts hfm hem
  obtain ⟨nres, -⟩ := Parts.built_names lib c p hp
  refine ⟨_, p.service c, hs, rfl, fun v ch hl => ?_⟩
  have hen : c.enabled v = true ↔ ch ∈ c.Methods.data := by
    rw [show c.enabled v = decide (ch ∈ c.Methods.data) from
      stringsContains_char c.Methods v.letter ch hl]
    exact decide_eq_true_iff
  have hmsgname : ∀ (w : Verb) (msg : MessageBuilder), c.enabled w = true →
      msg ∈ p.messagesOf w → msg.name ∈ w.messageNames c := by
    intro w msg hw hmsg
    rw [← Parts.built_messageNames lib c p hp w hw]
    exact List.mem_map_of_mem _ hmsg
  have hmsgof : ∀ (w : Verb) (n : String), c.enabled w = true →
      n ∈ w.messageNames c → ∃ msg ∈ p.messagesOf w, msg.name = n := by
    intro w n hw hn
    rw [← Parts.built_messageNames lib c p hp w hw] at hn
    obtain ⟨msg, hmsg, e⟩ := List.mem_map.1 hn
    exact ⟨msg, hmsg, e⟩
  have hkey : ∀ (w : Verb) (n : String), n ∈ w.messageNames c →
      n = TopLevel.name c (TopLevel.request w) ∨
      (w = Verb.list ∧ n = TopLevel.name c TopLevel.listResponse) := by
    intro w n hn
    unfold Verb.messageNames at hn
    by_cases hl : w = Verb.list
    · subst hl
      simp only [if_true, List.mem_cons, List.mem_singleton, List.not_mem_nil,
        or_false] at hn
      rcases hn with hn | hn
      · exact Or.inl hn
      · exact Or.inr ⟨rfl, hn⟩
    · simp only [hl, if_false, List.mem_singleton] at hn
      exact Or.inl hn
  refine ⟨⟨?_, ?_⟩, ⟨?_, ?_⟩, fun hlist => ⟨?_, ?_⟩⟩
  · rintro ⟨m, hm, e⟩
    obtain ⟨w, hw, rfl⟩ := (Parts.mem_service_methods c p m).1 hm
    rw [(Parts.built_method lib c p em hem hp w hw).1] at e
    have := (method_name_inj c.Resource w v).1 e
    subst this
    exact hen.1 hw
  · intro hch
    have hv := hen.2 hch
    exact ⟨p.methodOf v, (Parts.mem_service_methods c p _).2 ⟨v, hv, rfl⟩,
      (Parts.built_method lib c p em hem hp v hv).1⟩
  · rintro ⟨msg, hmsg, e⟩
    rcases (Parts.mem_state_messages c p msg).1 hmsg with h1 | ⟨w, hw, h1⟩
    · rw [h1, nres] at e
      exact absurd ((TopLevel.name_eq_iff c TopLevel.resource (TopLevel.request v)).1 e)
        (by simp)
    · rcases hkey w _ (hmsgname w msg hw h1) with h2 | ⟨-, h2⟩
      · have := (TopLevel.name_eq_iff c (TopLevel.request w) (TopLevel.request v)).1
          (h2.symm.trans e)
        simp only [TopLevel.request.injEq] at this
        subst this
        exact hen.1 hw
      · exact absurd ((TopLevel.name_eq_iff c TopLevel.listResponse (TopLevel.request v)).1
          (h2.symm.trans e)) (by simp)
  · intro hch
    have hv := hen.2 hch
    obtain ⟨msg, hmsg, e⟩ := hmsgof v (v.word ++ c.Resource ++ "Request") hv
      (by cases v <;> simp [Verb.messageNames, Verb.word])
    exact ⟨msg, (Parts.mem_state_messages c p msg).2 (Or.inr ⟨v, hv, hmsg⟩), e⟩
  · rintro ⟨msg, hmsg, e⟩
    subst hlist
    rcases (Parts.mem_state_messages c p msg).1 hmsg with h1 | ⟨w, hw, h1⟩
    · rw [h1, nres] at e
      exact absurd ((TopLevel.name_eq_iff c TopLevel.resource TopLevel.listResponse).1 e)
        (by simp)
    · rcases hkey w _ (hmsgname w msg hw h1) with h2 | ⟨h3, -⟩
      · exact absurd ((TopLevel.name_eq_iff c (TopLevel.request w) TopLevel.listResponse).1
          (h2.symm.trans e)) (by simp)
      · exact hen.1 (h3 ▸ hw)
  · intro hch
    subst hlist
    have hv := hen.2 hch
    obtain ⟨msg, hmsg, e⟩ := hmsgof Verb.list ("List" ++ c.Resource ++ "Response") hv
      (by simp [Verb.messageNames])
    exact ⟨msg, (Parts.mem_state_messages c p msg).2 (Or.inr ⟨Verb.list, hv, hmsg⟩), e⟩

/-- Claim C5 as amended, at the example scenario, which passes the checks: the method
`GetBook` is present for the letters `crudl`, and the letters `RUcrudl, CD` give the same
file as `crudl`. -/
theorem lower_case_letters_decide_example :
    accepted exampleLibrary exampleConfig ∧
    (exampleLibrary.LoadMessageDescriptorForMessage WellKnown.Timestamp =
        Except.ok { fullName := "google.protobuf.Timestamp" } ∧
      exampleLibrary.LoadMessageDescriptorForMessage WellKnown.FieldMask =
        Except.ok { fullName := "google.protobuf.FieldMask" } ∧
      exampleLibrary.LoadMessageDescriptorForMessage WellKnown.Empty =
        Except.ok { fullName := "google.protobuf.Empty" }) ∧
    (∀ ch ∈ ['r', 'l', 'c', 'u', 'd'],
      ch ∈ "RUcrudl, CD".data ↔ ch ∈ exampleConfig.Methods.data) ∧
    (∃ (s : schemaBuilder) (sb : ServiceBuilder),
      assemble exampleLibrary exampleConfig = Except.ok s ∧ s.file.services = [sb] ∧
      (∃ m ∈ sb.methods, m.name = "GetBook") ∧
      (∃ msg ∈ s.file.messages, msg.name = "ListBookResponse")) ∧
    (assemble exampleLibrary { exampleConfig with Methods := "RUcrudl, CD" }).map
        (fun s => s.file) =
      (assemble exampleLibrary exampleConfig).map (fun s => s.file) := by
  have h := lower_case_letters_decide exampleLibrary exampleConfig _ _ _ "RUcrudl, CD"
    accepted_example rfl rfl rfl (by decide)
  refine ⟨accepted_example, ⟨rfl, rfl, rfl⟩, by decide, ?_, h.2.1⟩
  obtain ⟨s, sb, hs, hsvc, hall⟩ := h.1
  exact ⟨s, sb, hs, hsvc, (hall Verb.get 'r' rfl).1.2 (by decide),
    ((hall Verb.list 'l' rfl).2.2 rfl).2 (by decide)⟩

/-! ## The Delete request -/

/-- Claim C6 fails on the code.  `buildDeleteMethod` tests `WithUpdateAllowMissing`: in the
example scenario with the update toggle off and the delete toggle on, `DeleteBookRequest`
has the field `name` only; with the update toggle on and the delete toggle off it has
`name` and `allow_missing`. -/
theorem delete_request_follows_update_toggle :
    (assemble exampleLibrary
        { exampleConfig with WithUpdateAllowMissing := false, WithDeleteAllowMissing := true }).map
        (fun s => (s.file.messages.filter (fun m => m.name == "DeleteBookRequest")).map
          (fun m => m.fields.map (fun f => f.name))) =
      Except.ok [["name"]] ∧
    (assemble exampleLibrary
        { exampleConfig with WithUpdateAllowMissing := true, WithDeleteAllowMissing := false }).map
        (fun s => (s.file.messages.filter (fun m => m.name == "DeleteBookRequest")).map
          (fun m => m.fields.map (fun f => f.name))) =
      Except.ok [["name", "allow_missing"]] := by
  constructor <;> rfl


/-! ## Name patterns -/

/-- The name pattern in closed form, without and with a parent, and at the example names. -/
theorem resourceNamePattern_pattern (lib : Library) (c : Config) :
    (c.ParentPattern = "" →
      c.ResourceNamePattern lib =
        c.ResourceCollectionIdentifier lib ++ "/\x7b" ++ c.ResourceSnakeCase lib ++ "\x7d") ∧
    (c.ParentPattern ≠ "" →
      c.ResourceNamePattern lib =
        c.ParentPattern ++ "/" ++ c.ResourceCollectionIdentifier lib ++ "/\x7b" ++
          c.ResourceSnakeCase lib ++ "\x7d") ∧
    (c.ParentPattern = "publishers/\x7bpublisher\x7d" → c.Resource = "Book" →
      c.PluralResource = "Books" → lib.SnakeCase "Book" = "book" →
      lib.LowerCamelCase "Books" = "books" →
      c.ResourceNamePattern lib = "publishers/\x7bpublisher\x7d/books/\x7bbook\x7d") := by
  refine ⟨fun h => ?_, fun h => ?_, fun hp hr hpl hs hc => ?_⟩
  · simp [Config.ResourceNamePattern, Config.HasParent, h, stringsJoin, String.intercalate,
      String.intercalate.go, String.ext_iff]
  · simp [Config.ResourceNamePattern, Config.HasParent, h, stringsJoin, String.intercalate,
      String.intercalate.go, String.ext_iff]
  · simp [Config.ResourceNamePattern, Config.HasParent, Config.ResourceCollectionIdentifier,
      Config.ResourceSnakeCase, hp, hr, hpl, hs, hc, stringsJoin, String.intercalate,
      String.intercalate.go]

/-- Claim C7.  `ResourceNamePattern` is collectionIdentifier, `/`, and snake(Resource) in
braces when `ParentPattern` is empty, with nothing in front of the collection identifier;
otherwise it is `ParentPattern`, `/`, and the same.  For the parent
`publishers/{publisher}`, resource `Book` and plural `Books`, with casing functions that
give `book` and `books`, it is `publishers/{publisher}/books/{book}`. -/
theorem resourceNamePattern_eq (lib : Library) (c : Config) :
    (c.ParentPattern = "" →
      c.ResourceNamePattern lib =
        c.ResourceCollectionIdentifier lib ++ "/\x7b" ++ c.ResourceSnakeCase lib ++ "\x7d") ∧
    (c.ParentPattern ≠ "" →
      c.ResourceNamePattern lib =
        c.ParentPattern ++ "/" ++ c.ResourceCollectionIdentifier lib ++ "/\x7b" ++
          c.ResourceSnakeCase lib ++ "\x7d") ∧
    (c.ParentPattern = "publishers/\x7bpublisher\x7d" → c.Resource = "Book" →
      c.PluralResource = "Books" → lib.SnakeCase "Book" = "book" →
      lib.LowerCamelCase "Books" = "books" →
      c.ResourceNamePattern lib = "publishers/\x7bpublisher\x7d/books/\x7bbook\x7d") := by
  exact resourceNamePattern_pattern lib c

/-- Claim C7 at the example scenario. -/
theorem resourceNamePattern_eq_example :
    exampleConfig.ResourceNamePattern exampleLibrary =
        "publishers/\x7bpublisher\x7d/books/\x7bbook\x7d" ∧
    ({ exampleConfig with ParentPattern := "" } : Config).ResourceNamePattern exampleLibrary =
        "books/\x7bbook\x7d" :=
  ⟨(resourceNamePattern_eq exampleLibrary exampleConfig).2.2 rfl rfl rfl rfl rfl,
    ((resourceNamePattern_eq exampleLibrary { exampleConfig with ParentPattern := "" }).1
      rfl).trans (by decide)⟩


/-! ## URL references -/

theorem takeWhile_ne_append (name tail : List Char) (h : '}' ∉ name) :
    (name ++ '}' :: tail).takeWhile (fun x => x != '}') = name := by
  induction name with
  | nil => simp [List.takeWhile]
  | cons a l ih =>
    have ha : a ≠ '}' := fun e => h (e ▸ List.mem_cons_self _ _)
    have hl : '}' ∉ l := fun e => h (List.mem_cons_of_mem _ e)
    have hb : (a != '}') = true := by simp [ha]
    rw [List.cons_append, List.takeWhile_cons, hb, ih hl]
    rfl

theorem replaceCurlyMatchAt_placeholder (name tail : List Char) (hne : name ≠ [])
    (h : '}' ∉ name) :
    replaceCurlyMatchAt ('{' :: (name ++ '}' :: tail)) = some (name.length + 2) := by
  have hnil : name.isEmpty = false := by cases name <;> simp_all
  simp [replaceCurlyMatchAt, takeWhile_ne_append name tail h, hnil]

theorem replaceCurlyMatchAt_other (c : Char) (cs : List Char) (h : c ≠ '{') :
    replaceCurlyMatchAt (c :: cs) = none := by
  simp [replaceCurlyMatchAt, h]

theorem replaceCurlyScan_skip (repl xs tail : List Char) :
    replaceCurlyScan repl xs.length (xs ++ tail) = replaceCurlyScan repl 0 tail := by
  induction xs with
  | nil => rfl
  | cons a l ih => simpa [replaceCurlyScan] using ih

theorem replaceCurlyCount_skip (xs tail : List Char) :
    replaceCurlyCount xs.length (xs ++ tail) = replaceCurlyCount 0 tail := by
  induction xs with
  | nil => rfl
  | cons a l ih => simpa [replaceCurlyCount] using ih

theorem replaceCurlyScan_text (repl t tail : List Char) (h : '{' ∉ t) :
    replaceCurlyScan repl 0 (t ++ tail) = t ++ replaceCurlyScan repl 0 tail := by
  induction t with
  | nil => rfl
  | cons a l ih =>
    have ha : a ≠ '{' := fun e => h (e ▸ List.mem_cons_self _ _)
    have hl : '{' ∉ l := fun e => h (List.mem_cons_of_mem _ e)
    simp [replaceCurlyScan, replaceCurlyMatchAt_other a _ ha, ih hl]

theorem replaceCurlyCount_text (t tail : List Char) (h : '{' ∉ t) :
    replaceCurlyCount 0 (t ++ tail) = replaceCurlyCount 0 tail := by
  induction t with
  | nil => rfl
  | cons a l ih =>
    have ha : a ≠ '{' := fun e => h (e ▸ List.mem_cons_self _ _)
    have hl : '{' ∉ l := fun e => h (List.mem_cons_of_mem _ e)
    simp [replaceCurlyCount, replaceCurlyMatchAt_other a _ ha, ih hl]

theorem replaceCurlyScan_placeholder (repl name tail : List Char) (hne : name ≠ [])
    (h : '}' ∉ name) :
    replaceCurlyScan repl 0 ('{' :: (name ++ '}' :: tail)) =
      repl ++ replaceCurlyScan repl 0 tail := by
  have hs := replaceCurlyScan_skip repl (name ++ ['}']) tail
  simp only [List.length_append, List.length_singleton, List.append_assoc,
    List.singleton_append] at hs
  simp [replaceCurlyScan, replaceCurlyMatchAt_placeholder name tail hne h, hs]

theorem replaceCurlyCount_placeholder (name tail : List Char) (hne : name ≠ [])
    (h : '}' ∉ name) :
    replaceCurlyCount 0 ('{' :: (name ++ '}' :: tail)) = replaceCurlyCount 0 tail + 1 := by
  have hs := replaceCurlyCount_skip (name ++ ['}']) tail
  simp only [List.length_append, List.length_singleton, List.append_assoc,
    List.singleton_append] at hs
  simp [replaceCurlyCount, replaceCurlyMatchAt_placeholder name tail hne h, hs]

theorem replaceCurlyScan_parts (repl : List Char) (parts : List PatternPart)
    (h : ∀ p ∈ parts, p.wellFormed = true) :
    replaceCurlyScan repl 0 (parts.flatMap PatternPart.render) =
      parts.flatMap (fun p => if p.isPlaceholder then repl else p.render) ∧
    replaceCurlyCount 0 (parts.flatMap PatternPart.render) =
      (parts.filter PatternPart.isPlaceholder).length := by
  induction parts with
  | nil => exact ⟨rfl, rfl⟩
  | cons p ps ih =>
    have ih1 := ih (fun q hq => h q (List.mem_cons_of_mem _ hq))
    have hp := h p (List.mem_cons_self _ _)
    cases p with
    | text t =>
      simp [PatternPart.wellFormed] at hp
      simp [PatternPart.render, PatternPart.isPlaceholder, replaceCurlyScan_text _ _ _ hp.1.1,
        replaceCurlyCount_text _ _ hp.1.1, ih1]
    | placeholder name =>
      simp [PatternPart.wellFormed] at hp
      simp [PatternPart.render, PatternPart.isPlaceholder,
        replaceCurlyScan_placeholder _ _ _ hp.1 hp.2,
        replaceCurlyCount_placeholder _ _ hp.1 hp.2, ih1]


theorem wildcard_count (parts : List PatternPart) (h : ∀ p ∈ parts, p.wellFormed = true) :
    (parts.flatMap PatternPart.wildcard).count '*' =
      (parts.filter PatternPart.isPlaceholder).length := by
  induction parts with
  | nil => rfl
  | cons p ps ih =>
    have ih1 := ih (fun q hq => h q (List.mem_cons_of_mem _ hq))
    have hp := h p (List.mem_cons_self _ _)
    cases p with
    | text t =>
      simp [PatternPart.wellFormed] at hp
      simp [PatternPart.wildcard, PatternPart.isPlaceholder, List.count_append, ih1,
        List.count_eq_zero_of_not_mem hp.2]
    | placeholder name =>
      simp [PatternPart.wildcard, PatternPart.isPlaceholder, List.count_append, ih1]

theorem wildcard_no_brace (parts : List PatternPart) (h : ∀ p ∈ parts, p.wellFormed = true) :
    '{' ∉ parts.flatMap PatternPart.wildcard ∧ '}' ∉ parts.flatMap PatternPart.wildcard := by
  constructor <;>
  · intro hm
    obtain ⟨p, hp, hin⟩ := List.mem_flatMap.1 hm
    have hw := h p hp
    cases p with
    | text t =>
      simp [PatternPart.wellFormed] at hw
      simp [PatternPart.wildcard] at hin
      first
      | exact hw.1.1 hin
      | exact hw.1.2 hin
    | placeholder name =>
      simp [PatternPart.wildcard] at hin

/-- Claim C8 fails on patterns outside the placeholder syntax: in `publishers/{}` the
expression matches nothing (it needs a character between the braces), so both braces stay;
and in `*/{a}`, with one placeholder, the result `*/*` has two `*`. -/
theorem urlRef_keeps_what_is_no_placeholder :
    replaceCurlyCount 0 "publishers/\x7b\x7d".data = 0 ∧
    replaceCurlyReplaceAllString "publishers/\x7b\x7d" "*" = "publishers/\x7b\x7d" ∧
    replaceCurlyCount 0 "*/\x7ba\x7d".data = 1 ∧
    replaceCurlyReplaceAllString "*/\x7ba\x7d" "*" = "*/*" := by
  decide

/-- Claim C8 as amended.  For a pattern made of literal text without brace or `*` and of
placeholders whose name is non-empty and without closing brace, the URL-reference
conversion replaces each placeholder by `*`, left to right, and copies the text: with k
placeholders the expression matches k times and the result holds exactly k `*` and no
brace.  `ParentNameUrlRef` and `ResourceNameUrlRef` are this conversion of `ParentPattern`
and of `ResourceNamePattern`. -/
theorem urlRef_of_wellFormed (parts : List PatternPart)
    (h : ∀ p ∈ parts, p.wellFormed = true) :
    replaceCurlyReplaceAllString (String.mk (parts.flatMap PatternPart.render)) "*" =
      String.mk (parts.flatMap PatternPart.wildcard) ∧
    replaceCurlyCount 0 (parts.flatMap PatternPart.render) =
      (parts.filter PatternPart.isPlaceholder).length ∧
    (replaceCurlyReplaceAllString (String.mk (parts.flatMap PatternPart.render)) "*").data.count
      '*' = (parts.filter PatternPart.isPlaceholder).length ∧
    '{' ∉ (replaceCurlyReplaceAllString (String.mk (parts.flatMap PatternPart.render)) "*").data ∧
    '}' ∉ (replaceCurlyReplaceAllString (String.mk (parts.flatMap PatternPart.render)) "*").data ∧
    (∀ c : Config, c.ParentPattern = String.mk (parts.flatMap PatternPart.render) →
      c.ParentNameUrlRef = String.mk (parts.flatMap PatternPart.wildcard)) ∧
    (∀ (lib : Library) (c : Config),
      c.ResourceNamePattern lib = String.mk (parts.flatMap PatternPart.render) →
      c.ResourceNameUrlRef lib = String.mk (parts.flatMap PatternPart.wildcard)) := by
  have hw : (fun p : PatternPart => if p.isPlaceholder then ['*'] else p.render) =
      PatternPart.wildcard := by
    funext p
    cases p <;> rfl
  have h1 : replaceCurlyReplaceAllString (String.mk (parts.flatMap PatternPart.render)) "*" =
      String.mk (parts.flatMap PatternPart.wildcard) := by
    unfold replaceCurlyReplaceAllString
    have := (replaceCurlyScan_parts ['*'] parts h).1
    rw [hw] at this
    exact congrArg String.mk this
  refine ⟨h1, (replaceCurlyScan_parts ['*'] parts h).2, ?_, ?_, ?_, ?_, ?_⟩
  · rw [h1]; exact wildcard_count parts h
  · rw [h1]; exact (wildcard_no_brace parts h).1
  · rw [h1]; exact (wildcard_no_brace parts h).2
  · intro c hc
    unfold Config.ParentNameUrlRef
    rw [hc, h1]
  · intro lib c hc
    unfold Config.ResourceNameUrlRef
    rw [hc, h1]

/-- Claim C8 as amended, at the name pattern of the example scenario:
`publishers/{publisher}/books/{book}` becomes `publishers/*/books/*`. -/
theorem urlRef_of_wellFormed_example :
    (∀ p ∈ [PatternPart.text "publishers/".data, PatternPart.placeholder "publisher".data,
        PatternPart.text "/books/".data, PatternPart.placeholder "book".data],
      p.wellFormed = true) ∧
    replaceCurlyReplaceAllString "publishers/\x7bpublisher\x7d/books/\x7bbook\x7d" "*" =
      "publishers/*/books/*" ∧
    (replaceCurlyReplaceAllString "publishers/\x7bpublisher\x7d/books/\x7bbook\x7d" "*").data.count
      '*' = 2 :=
  ⟨by decide,
    (urlRef_of_wellFormed [PatternPart.text "publishers/".data,
      PatternPart.placeholder "publisher".data, PatternPart.text "/books/".data,
      PatternPart.placeholder "book".data] (by decide)).1,
    (urlRef_of_wellFormed [PatternPart.text "publishers/".data,
      PatternPart.placeholder "publisher".data, PatternPart.text "/books/".data,
      PatternPart.placeholder "book".data] (by decide)).2.2.1⟩



/-! ## HTTP bindings -/

/-- The methods of the assembled service, verb by verb, when the names pass the checks and
the three well-known descriptors load: the method that carries the name of a verb is the
method built for that verb. -/
theorem assemble_method_named (lib : Library) (c : Config) (ts fm em : MessageDescriptor)
    (hacc : accepted lib c)
    (hts : lib.LoadMessageDescriptorForMessage WellKnown.Timestamp = Except.ok ts)
    (hfm : lib.LoadMessageDescriptorForMessage WellKnown.FieldMask = Except.ok fm)
    (hem : lib.LoadMessageDescriptorForMessage WellKnown.Empty = Except.ok em) :
    ∃ (s : schemaBuilder) (p : Parts) (sb : ServiceBuilder),
      assemble lib c = Except.ok s ∧
      p.built lib c ∧
      s.resource = some p.res ∧
      s.file.services = [sb] ∧
      (∀ msg, msg ∈ s.file.messages ↔
        msg = p.res ∨ ∃ v : Verb, c.enabled v = true ∧ msg ∈ p.messagesOf v) ∧
      (∀ v : Verb, c.enabled v = true → ∃ m ∈ sb.methods, m.name = v.word ++ c.Resource) ∧
      (∀ v : Verb, ∀ m ∈ sb.methods, m.name = v.word ++ c.Resource →
        c.enabled v = true ∧ m = p.methodOf v) := by
  obtain ⟨p, hp, hs⟩ := assemble_ok lib c ts fm em hacc hts hfm hem
  refine ⟨_, p, p.service c, hs, hp, rfl, rfl, Parts.mem_state_messages c p,
    fun v hv => ?_, fun v m hm e => ?_⟩
  · exact ⟨p.methodOf v, (Parts.mem_service_methods c p _).2 ⟨v, hv, rfl⟩,
      (Parts.built_method lib c p em hem hp v hv).1⟩
  · obtain ⟨w, hw, rfl⟩ := (Parts.mem_service_methods c p m).1 hm
    rw [(Parts.built_method lib c p em hem hp w hw).1] at e
    have := (method_name_inj c.Resource w v).1 e
    subst this
    exact ⟨hw, rfl⟩

/-- Claim C9. With Get enabled, `WithHTTPOptions` set, names that pass the checks of the builder
package and the three well-known descriptors loading, assembly returns a schema whose service
has a method named "Get"+Resource, and the HTTP rule of a method so named is GET on `/v1/{name=`
urlRef(ResourceNamePattern) `}` with no body. For resource `Book`, plural `Books`, parent
`publishers/{publisher}`, with casing functions that give `book` and `books`, the rule is `GET
/v1/{name=publishers/*/books/*}`. -/
theorem get_http_binding (lib : Library) (c : Config) (ts fm em : MessageDescriptor)
    (hacc : accepted lib c)
    (hts : lib.LoadMessageDescriptorForMessage WellKnown.Timestamp = Except.ok ts)
    (hfm : lib.LoadMessageDescriptorForMessage WellKnown.FieldMask = Except.ok fm)
    (hem : lib.LoadMessageDescriptorForMessage WellKnown.Empty = Except.ok em)
    (hget : c.enabled Verb.get = true) (hhttp : c.WithHTTPOptions = true) :
    ∃ s : schemaBuilder, assemble lib c = Except.ok s ∧
      (∃ sb ∈ s.file.services, ∃ m ∈ sb.methods, m.name = "Get" ++ c.Resource) ∧
      (∀ sb ∈ s.file.services, ∀ m ∈ sb.methods, m.name = "Get" ++ c.Resource →
        ∃ o : MethodOptions, m.options = some o ∧
          o.http = some
            { Pattern := HttpPattern.Get ("/v1/\x7bname=" ++
                replaceCurlyReplaceAllString (c.ResourceNamePattern lib) "*" ++ "\x7d")
              Body := "" } ∧
          (c.Resource = "Book" → c.PluralResource = "Books" →
            c.ParentPattern = "publishers/\x7bpublisher\x7d" →
            lib.SnakeCase "Book" = "book" → lib.LowerCamelCase "Books" = "books" →
            o.http = some
              { Pattern := HttpPattern.Get "/v1/\x7bname=publishers/*/books/*\x7d"
                Body := "" })) := by
  obtain ⟨s, p, sb, hs, hp, -, hsvc, -, hex, hall⟩ :=
    assemble_method_named lib c ts fm em hacc hts hfm hem
  refine ⟨s, hs, ?_, ?_⟩
  · obtain ⟨m, hm, hn⟩ := hex Verb.get hget
    exact ⟨sb, by rw [hsvc]; exact List.mem_singleton_self sb, m, hm, hn⟩
  · intro sb1 hsb m hm hn
    rw [hsvc, List.mem_singleton] at hsb
    subst hsb
    have hm1 := ((hall Verb.get m hm hn).2).trans
      (buildGetMethod_m_spec lib c _ _ _ (hp.2.2.1 hget).2)
    have ho : m.options = some
        { http := some
            { Pattern := HttpPattern.Get ("/v1/\x7bname=" ++
                replaceCurlyReplaceAllString (c.ResourceNamePattern lib) "*" ++ "\x7d")
              Body := "" }
          methodSignature := some ["name"] } := by
      rw [hm1]
      simp [hhttp, Config.ResourceNameUrlRef]
    refine ⟨_, ho, rfl, fun hr hpl hp hsn hcm => ?_⟩
    have hpat := (resourceNamePattern_pattern lib c).2.2 hp hr hpl hsn hcm
    simp only [hpat]
    decide

/-- Claim C9 at the example scenario: `GetBook` is bound to
`GET /v1/{name=publishers/*/books/*}`. -/
theorem get_http_binding_example :
    accepted exampleLibrary exampleConfig ∧
    (exampleLibrary.LoadMessageDescriptorForMessage WellKnown.Timestamp =
        Except.ok { fullName := "google.protobuf.Timestamp" } ∧
      exampleLibrary.LoadMessageDescriptorForMessage WellKnown.FieldMask =
        Except.ok { fullName := "google.protobuf.FieldMask" } ∧
      exampleLibrary.LoadMessageDescriptorForMessage WellKnown.Empty =
        Except.ok { fullName := "google.protobuf.Empty" } ∧
      exampleConfig.enabled Verb.get = true ∧ exampleConfig.WithHTTPOptions = true) ∧
    ∃ s : schemaBuilder, assemble exampleLibrary exampleConfig = Except.ok s ∧
      (∃ sb ∈ s.file.services, ∃ m ∈ sb.methods, m.name = "GetBook") ∧
      ∀ sb ∈ s.file.services, ∀ m ∈ sb.methods, m.name = "GetBook" →
        ∃ o : MethodOptions, m.options = some o ∧
          o.http = some
            { Pattern := HttpPattern.Get "/v1/\x7bname=publishers/*/books/*\x7d"
              Body := "" } := by
  refine ⟨accepted_example, ⟨rfl, rfl, rfl, by decide, rfl⟩, ?_⟩
  obtain ⟨s, hs, hex, hall⟩ := get_http_binding exampleLibrary exampleConfig _ _ _
    accepted_example rfl rfl rfl (by decide) rfl
  refine ⟨s, hs, hex, fun sb hsb m hm hn => ?_⟩
  obtain ⟨o, ho, -, h⟩ := hall sb hsb m hm hn
  exact ⟨o, ho, h rfl rfl rfl rfl rfl⟩

/-- Claim C10. With List enabled, `WithHTTPOptions` set, names that pass the checks of the
builder package and the three well-known descriptors loading, assembly returns a schema whose
service has a method named "List"+Resource, and the HTTP rule of a method so named is GET, with
no body, on `/v1/{parent=` urlRef(ParentPattern) `}/` collectionIdentifier when a parent is
configured and on `/v1/` collectionIdentifier when it is not. For plural `Books` and parent
`publishers/{publisher}`, with a casing function that gives `books`, the rule is `GET
/v1/{parent=publishers/*}/books`. -/
theorem list_http_binding (lib : Library) (c : Config) (ts fm em : MessageDescriptor)
    (hacc : accepted lib c)
    (hts : lib.LoadMessageDescriptorForMessage WellKnown.Timestamp = Except.ok ts)
    (hfm : lib.LoadMessageDescriptorForMessage WellKnown.FieldMask = Except.ok fm)
    (hem : lib.LoadMessageDescriptorForMessage WellKnown.Empty = Except.ok em)
    (hlist : c.enabled Verb.list = true) (hhttp : c.WithHTTPOptions = true) :
    ∃ s : schemaBuilder, assemble lib c = Except.ok s ∧
      (∃ sb ∈ s.file.services, ∃ m ∈ sb.methods, m.name = "List" ++ c.Resource) ∧
      (∀ sb ∈ s.file.services, ∀ m ∈ sb.methods, m.name = "List" ++ c.Resource →
        ∃ o : MethodOptions, m.options = some o ∧
          (c.ParentPattern ≠ "" →
            o.http = some
              { Pattern := HttpPattern.Get ("/v1/\x7bparent=" ++
                  replaceCurlyReplaceAllString c.ParentPattern "*" ++ "\x7d/" ++
                  c.ResourceCollectionIdentifier lib)
                Body := "" }) ∧
          (c.ParentPattern = "" →
            o.http = some
              { Pattern := HttpPattern.Get ("/v1/" ++ c.ResourceCollectionIdentifier lib)
                Body := "" }) ∧
          (c.PluralResource = "Books" → c.ParentPattern = "publishers/\x7bpublisher\x7d" →
            lib.LowerCamelCase "Books" = "books" →
            o.http = some
              { Pattern := HttpPattern.Get "/v1/\x7bparent=publishers/*\x7d/books"
                Body := "" })) := by
  obtain ⟨s, p, sb, hs, hp, -, hsvc, -, hex, hall⟩ :=
    assemble_method_named lib c ts fm em hacc hts hfm hem
  refine ⟨s, hs, ?_, ?_⟩
  · obtain ⟨m, hm, hn⟩ := hex Verb.list hlist
    exact ⟨sb, by rw [hsvc]; exact List.mem_singleton_self sb, m, hm, hn⟩
  · intro sb1 hsb m hm hn
    rw [hsvc, List.mem_singleton] at hsb
    subst hsb
    have hm1 := ((hall Verb.list m hm hn).2).trans
      (buildListMethod_m_spec lib c _ _ _ (hp.2.2.2.1 hlist).2.2)
    have ho : m.options = some
        { http := some
            { Pattern := HttpPattern.Get ("/v1/" ++
                (if c.HasParent then
                  "\x7bparent=" ++ replaceCurlyReplaceAllString c.ParentPattern "*" ++ "\x7d/"
                 else "") ++ c.ResourceCollectionIdentifier lib)
              Body := "" }
          methodSignature := some [if c.HasParent then "parent" else ""] } := by
      rw [hm1]
      cases hp : c.HasParent <;>
        simp [hhttp, hp, Config.ParentNameUrlRef]
    refine ⟨_, ho, fun hp => ?_, fun hp => ?_, fun hpl hp hcm => ?_⟩
    · have h1 : c.HasParent = true := by simp [Config.HasParent, hp]
      simp [h1, String.ext_iff]
    · have h1 : c.HasParent = false := by simp [Config.HasParent, hp]
      simp [h1]
    · have h1 : c.HasParent = true := by rw [Config.HasParent, hp]; decide
      simp only [h1, if_true, Config.ResourceCollectionIdentifier, hpl, hcm, hp]
      decide

/-- Claim C10 at the example scenario, with and without the parent: `ListBook` is bound to
`GET /v1/{parent=publishers/*}/books`, and to `GET /v1/books` when no parent is
configured. -/
theorem list_http_binding_example :
    accepted exampleLibrary exampleConfig ∧
    accepted exampleLibrary { exampleConfig with ParentPattern := "" } ∧
    (exampleLibrary.LoadMessageDescriptorForMessage WellKnown.Timestamp =
        Except.ok { fullName := "google.protobuf.Timestamp" } ∧
      exampleLibrary.LoadMessageDescriptorForMessage WellKnown.FieldMask =
        Except.ok { fullName := "google.protobuf.FieldMask" } ∧
      exampleLibrary.LoadMessageDescriptorForMessage WellKnown.Empty =
        Except.ok { fullName := "google.protobuf.Empty" } ∧
      exampleConfig.enabled Verb.list = true ∧ exampleConfig.WithHTTPOptions = true) ∧
    (∃ s : schemaBuilder, assemble exampleLibrary exampleConfig = Except.ok s ∧
      (∃ sb ∈ s.file.services, ∃ m ∈ sb.methods, m.name = "ListBook") ∧
      ∀ sb ∈ s.file.services, ∀ m ∈ sb.methods, m.name = "ListBook" →
        ∃ o : MethodOptions, m.options = some o ∧
          o.http = some
            { Pattern := HttpPattern.Get "/v1/\x7bparent=publishers/*\x7d/books"
              Body := "" }) ∧
    (∃ s : schemaBuilder,
      assemble exampleLibrary { exampleConfig with ParentPattern := "" } = Except.ok s ∧
      ∀ sb ∈ s.file.services, ∀ m ∈ sb.methods, m.name = "ListBook" →
        ∃ o : MethodOptions, m.options = some o ∧
          o.http = some { Pattern := HttpPattern.Get "/v1/books", Body := "" }) := by
  have hacc2 : accepted exampleLibrary { exampleConfig with ParentPattern := "" } :=
    ⟨all_checkName_ok _ _ (by decide), fun _ => by decide,
      fun _ _ => ⟨by decide, by decide⟩, fun _ _ => by decide, fun _ _ => by decide⟩
  refine ⟨accepted_example, hacc2, ⟨rfl, rfl, rfl, by decide, rfl⟩, ?_, ?_⟩
  · obtain ⟨s, hs, hex, hall⟩ := list_http_binding exampleLibrary exampleConfig _ _ _
      accepted_example rfl rfl rfl (by decide) rfl
    refine ⟨s, hs, hex, fun sb hsb m hm hn => ?_⟩
    obtain ⟨o, ho, -, -, h⟩ := hall sb hsb m hm hn
    exact ⟨o, ho, h rfl rfl rfl⟩
  · obtain ⟨s, hs, -, hall⟩ := list_http_binding exampleLibrary
      { exampleConfig with ParentPattern := "" } _ _ _ hacc2 rfl rfl rfl (by decide) rfl
    refine ⟨s, hs, fun sb hsb m hm hn => ?_⟩
    obtain ⟨o, ho, -, h, -⟩ := hall sb hsb m hm hn
    exact ⟨o, ho, (h rfl).trans (by decide)⟩

/-! ## The HTTP options toggle -/

/-- The options of the method of an enabled verb: an HTTP rule and a method signature when
`WithHTTPOptions` is set, none otherwise. -/
theorem Parts.built_options (lib : Library) (c : Config) (p : Parts) (em : MessageDescriptor)
    (hem : lib.LoadMessageDescriptorForMessage WellKnown.Empty = Except.ok em)
    (h : p.built lib c) (v : Verb) (hv : c.enabled v = true) :
    (c.WithHTTPOptions = true →
      ∃ (o : MethodOptions) (rule : HttpRule) (sig : List String),
        (p.methodOf v).options = some o ∧ o.http = some rule ∧
          o.methodSignature = some sig) ∧
    (c.WithHTTPOptions = false → (p.methodOf v).options = none) := by
  obtain ⟨hres, hsvc, hget, hlist, hcreate, hupdate, hdelete⟩ := h
  cases v
  · have e : p.methodOf Verb.get = _ := buildGetMethod_m_spec lib c _ _ _ (hget hv).2
    rw [e]
    constructor <;> intro hh <;> simp [hh]
  · have e : p.methodOf Verb.list = _ := buildListMethod_m_spec lib c _ _ _ (hlist hv).2.2
    rw [e]
    constructor <;> intro hh <;> simp [hh]
  · have e : p.methodOf Verb.create = _ := buildCreateMethod_m_spec lib c _ _ _ (hcreate hv).2
    rw [e]
    constructor <;> intro hh <;> simp [hh]
  · have e : p.methodOf Verb.update = _ := buildUpdateMethod_m_spec lib c _ _ _ (hupdate hv).2
    rw [e]
    constructor <;> intro hh <;> simp [hh]
  · have e : p.methodOf Verb.delete = _ := buildDeleteMethod_m_spec lib c _ em hem _ (hdelete hv).2
    rw [e]
    constructor <;> intro hh <;> simp [hh]

/-- The parts of a run do not depend on `WithHTTPOptions`, the options of the methods
apart. -/
theorem Parts.built_toggle (lib : Library) (c : Config) (b : Bool) (p q : Parts)
    (em : MessageDescriptor)
    (hem : lib.LoadMessageDescriptorForMessage WellKnown.Empty = Except.ok em)
    (hp : p.built lib c) (hq : q.built lib { c with WithHTTPOptions := b }) :
    q.res = p.res ∧ q.svc = p.svc ∧
    ∀ v : Verb, c.enabled v = true →
      q.messagesOf v = p.messagesOf v ∧
      (q.methodOf v).withoutOptions = (p.methodOf v).withoutOptions := by
  obtain ⟨hres, hsvc, hget, hlist, hcreate, hupdate, hdelete⟩ := hp
  obtain ⟨qres, qsvc, qget, qlist, qcreate, qupdate, qdelete⟩ := hq
  have eres : q.res = p.res := Except.ok.inj (qres.symm.trans hres)
  have esvc : q.svc = p.svc := Except.ok.inj (qsvc.symm.trans hsvc)
  refine ⟨eres, esvc, fun v hv => ?_⟩
  cases v
  · have e1 : q.getReq = p.getReq := Except.ok.inj ((qget hv).1.symm.trans (hget hv).1)
    have m1 : p.getM = _ := buildGetMethod_m_spec lib c _ _ _ (hget hv).2
    have m2 : q.getM = _ := buildGetMethod_m_spec lib _ _ _ _ (qget hv).2
    refine ⟨by simp only [Parts.messagesOf, e1], ?_⟩
    simp only [Parts.methodOf]
    rw [m1, m2, e1, eres]
    rfl
  · have e1 : q.listReq = p.listReq := Except.ok.inj ((qlist hv).1.symm.trans (hlist hv).1)
    have e2 : q.listRes = p.listRes := by
      have := (qlist hv).2.1
      rw [eres] at this
      exact Except.ok.inj (this.symm.trans (hlist hv).2.1)
    have m1 : p.listM = _ := buildListMethod_m_spec lib c _ _ _ (hlist hv).2.2
    have m2 : q.listM = _ := buildListMethod_m_spec lib _ _ _ _ (qlist hv).2.2
    refine ⟨by simp only [Parts.messagesOf, e1, e2], ?_⟩
    simp only [Parts.methodOf]
    rw [m1, m2, e1, e2]
    rfl
  · have e1 : q.createReq = p.createReq := by
      have := (qcreate hv).1
      rw [eres] at this
      exact Except.ok.inj (this.symm.trans (hcreate hv).1)
    have m1 : p.createM = _ := buildCreateMethod_m_spec lib c _ _ _ (hcreate hv).2
    have m2 : q.createM = _ := buildCreateMethod_m_spec lib _ _ _ _ (qcreate hv).2
    refine ⟨by simp only [Parts.messagesOf, e1], ?_⟩
    simp only [Parts.methodOf]
    rw [m1, m2, e1, eres]
    rfl
  · have e1 : q.updateReq = p.updateReq := by
      have := (qupdate hv).1
      rw [eres] at this
      exact Except.ok.inj (this.symm.trans (hupdate hv).1)
    have m1 : p.updateM = _ := buildUpdateMethod_m_spec lib c _ _ _ (hupdate hv).2
    have m2 : q.updateM = _ := buildUpdateMethod_m_spec lib _ _ _ _ (qupdate hv).2
    refine ⟨by simp only [Parts.messagesOf, e1], ?_⟩
    simp only [Parts.methodOf]
    rw [m1, m2, e1, eres]
    rfl
  · have e1 : q.deleteReq = p.deleteReq :=
      Except.ok.inj ((qdelete hv).1.symm.trans (hdelete hv).1)
    have m1 : p.deleteM = _ := buildDeleteMethod_m_spec lib c _ em hem _ (hdelete hv).2
    have m2 : q.deleteM = _ := buildDeleteMethod_m_spec lib _ _ em hem _ (qdelete hv).2
    refine ⟨by simp only [Parts.messagesOf, e1], ?_⟩
    simp only [Parts.methodOf]
    rw [m1, m2, e1]
    rfl

theorem flatMap_congr_mem {α β : Type} (l : List α) (f g : α → List β)
    (h : ∀ a ∈ l, f a = g a) : l.flatMap f = l.flatMap g := by
  induction l with
  | nil => rfl
  | cons a l ih =>
    simp only [List.flatMap_cons]
    rw [h a (List.mem_cons_self _ _), ih (fun b hb => h b (List.mem_cons_of_mem _ hb))]

/-- The assembled file without the method options does not depend on `WithHTTPOptions`. -/
theorem assemble_withoutMethodOptions (lib : Library) (c : Config) (b : Bool)
    (ts fm em : MessageDescriptor)
    (hacc : accepted lib c)
    (hts : lib.LoadMessageDescriptorForMessage WellKnown.Timestamp = Except.ok ts)
    (hfm : lib.LoadMessageDescriptorForMessage WellKnown.FieldMask = Except.ok fm)
    (hem : lib.LoadMessageDescriptorForMessage WellKnown.Empty = Except.ok em) :
    (assemble lib { c with WithHTTPOptions := b }).map (fun s => s.file.withoutMethodOptions) =
      (assemble lib c).map (fun s => s.file.withoutMethodOptions) := by
  have hacc2 : accepted lib { c with WithHTTPOptions := b } := hacc
  obtain ⟨p, hp, hs⟩ := assemble_ok lib c ts fm em hacc hts hfm hem
  obtain ⟨q, hq, ht⟩ := assemble_ok lib { c with WithHTTPOptions := b } ts fm em hacc2 hts
    hfm hem
  obtain ⟨eres, esvc, hv⟩ := Parts.built_toggle lib c b p q em hem hp hq
  rw [hs, ht]
  simp only [Except.map, Parts.state, Parts.service, FileBuilder.withoutMethodOptions,
    List.map_cons, List.map_nil, List.map_map, eres, esvc]
  have hen : (Verb.all.filter (Config.enabled { c with WithHTTPOptions := b })) =
      Verb.all.filter c.enabled := rfl
  rw [hen]
  have h1 : (Verb.all.filter c.enabled).flatMap q.messagesOf =
      (Verb.all.filter c.enabled).flatMap p.messagesOf :=
    flatMap_congr_mem _ _ _ (fun v hv1 => (hv v (List.mem_filter.1 hv1).2).1)
  have h2 : (Verb.all.filter c.enabled).map (MethodBuilder.withoutOptions ∘ q.methodOf) =
      (Verb.all.filter c.enabled).map (MethodBuilder.withoutOptions ∘ p.methodOf) :=
    List.map_congr_left (fun v hv1 => (hv v (List.mem_filter.1 hv1).2).2)
  rw [h1, h2]

/-- Claim C11. When the names pass the checks of the builder package and the three well-known
descriptors load, assembly returns a schema in which, if `WithHTTPOptions` is set, every method
carries options with both an HTTP rule and a method signature, and, if it is not set, no method
carries options. Setting the toggle to either value leaves the file builder without the method
options unchanged: the messages and their fields, the service, and the names, types and comments
of the methods. -/
theorem http_options_toggle (lib : Library) (c : Config) (ts fm em : MessageDescriptor)
    (hacc : accepted lib c)
    (hts : lib.LoadMessageDescriptorForMessage WellKnown.Timestamp = Except.ok ts)
    (hfm : lib.LoadMessageDescriptorForMessage WellKnown.FieldMask = Except.ok fm)
    (hem : lib.LoadMessageDescriptorForMessage WellKnown.Empty = Except.ok em) :
    (∃ s : schemaBuilder, assemble lib c = Except.ok s ∧
      (c.WithHTTPOptions = true → ∀ sb ∈ s.file.services, ∀ m ∈ sb.methods,
        ∃ (o : MethodOptions) (rule : HttpRule) (sig : List String),
          m.options = some o ∧ o.http = some rule ∧ o.methodSignature = some sig) ∧
      (c.WithHTTPOptions = false → ∀ sb ∈ s.file.services, ∀ m ∈ sb.methods,
        m.options = none)) ∧
    (∀ b : Bool,
      (assemble lib { c with WithHTTPOptions := b }).map
          (fun s => s.file.withoutMethodOptions) =
        (assemble lib c).map (fun s => s.file.withoutMethodOptions)) := by
  refine ⟨?_, fun b => assemble_withoutMethodOptions lib c b ts fm em hacc hts hfm hem⟩
  obtain ⟨p, hp, hs⟩ := assemble_ok lib c ts fm em hacc hts hfm hem
  refine ⟨_, hs, fun hh sb1 hsb m hm => ?_, fun hh sb1 hsb m hm => ?_⟩
  · rw [show (p.state c).file.services = [p.service c] from rfl, List.mem_singleton] at hsb
    subst hsb
    obtain ⟨v, hv, rfl⟩ := (Parts.mem_service_methods c p m).1 hm
    exact (Parts.built_options lib c p em hem hp v hv).1 hh
  · rw [show (p.state c).file.services = [p.service c] from rfl, List.mem_singleton] at hsb
    subst hsb
    obtain ⟨v, hv, rfl⟩ := (Parts.mem_service_methods c p m).1 hm
    exact (Parts.built_options lib c p em hem hp v hv).2 hh

/-- Claim C11 at the example scenario: every method carries an HTTP rule and a method
signature, and with the toggle off the file differs in the method options only. -/
theorem http_options_toggle_example :
    accepted exampleLibrary exampleConfig ∧
    (exampleLibrary.LoadMessageDescriptorForMessage WellKnown.Timestamp =
        Except.ok { fullName := "google.protobuf.Timestamp" } ∧
      exampleLibrary.LoadMessageDescriptorForMessage WellKnown.FieldMask =
        Except.ok { fullName := "google.protobuf.FieldMask" } ∧
      exampleLibrary.LoadMessageDescriptorForMessage WellKnown.Empty =
        Except.ok { fullName := "google.protobuf.Empty" }) ∧
    (∃ s : schemaBuilder, assemble exampleLibrary exampleConfig = Except.ok s ∧
      ∀ sb ∈ s.file.services, ∀ m ∈ sb.methods,
        ∃ (o : MethodOptions) (rule : HttpRule) (sig : List String),
          m.options = some o ∧ o.http = some rule ∧ o.methodSignature = some sig) ∧
    (assemble exampleLibrary { exampleConfig with WithHTTPOptions := false }).map
        (fun s => s.file.withoutMethodOptions) =
      (assemble exampleLibrary exampleConfig).map (fun s => s.file.withoutMethodOptions) := by
  have h := http_options_toggle exampleLibrary exampleConfig _ _ _
    accepted_example rfl rfl rfl
  refine ⟨accepted_example, ⟨rfl, rfl, rfl⟩, ?_, h.2 false⟩
  obtain ⟨s, hs, h1, -⟩ := h.1
  exact ⟨s, hs, h1 rfl⟩

/-! ## Request and response messages -/

theorem Parts.requestOf_mem (p : Parts) (v : Verb) : p.requestOf v ∈ p.messagesOf v := by
  cases v <;> simp [Parts.requestOf, Parts.messagesOf]

theorem Parts.built_requestName (lib : Library) (c : Config) (p : Parts)
    (h : p.built lib c) (v : Verb) (hv : c.enabled v = true) :
    (p.requestOf v).name = TopLevel.name c (TopLevel.request v) := by
  obtain ⟨-, -, -, nget, nlist, ncreate, nupdate, ndelete⟩ := Parts.built_names lib c p h
  cases v
  · exact (nget hv).1
  · exact (nlist hv).1
  · exact (ncreate hv).1
  · exact (nupdate hv).1
  · exact (ndelete hv).1

/-- A message of an enabled verb is its request message or the List response. -/
theorem Parts.messagesOf_kind (p : Parts) (v : Verb) (msg : MessageBuilder)
    (h : msg ∈ p.messagesOf v) :
    msg = p.requestOf v ∨ (v = Verb.list ∧ msg = p.listRes) := by
  cases v <;> simp [Parts.messagesOf, Parts.requestOf] at h ⊢ <;> exact h

/-- The methods and messages of the assembled schema by name, when the names pass the
checks and the three well-known descriptors load: the method that carries the name of a
verb is the method built for that verb, and the message that carries the request or
response name of a verb is the message built for that verb. -/
theorem assemble_named (lib : Library) (c : Config) (ts fm em : MessageDescriptor)
    (hacc : accepted lib c)
    (hts : lib.LoadMessageDescriptorForMessage WellKnown.Timestamp = Except.ok ts)
    (hfm : lib.LoadMessageDescriptorForMessage WellKnown.FieldMask = Except.ok fm)
    (hem : lib.LoadMessageDescriptorForMessage WellKnown.Empty = Except.ok em) :
    ∃ (s : schemaBuilder) (p : Parts) (sb : ServiceBuilder),
      assemble lib c = Except.ok s ∧
      p.built lib c ∧
      s.resource = some p.res ∧
      s.file.services = [sb] ∧
      (∀ v : Verb, c.enabled v = true → ∃ m ∈ sb.methods, m.name = v.word ++ c.Resource) ∧
      (∀ v : Verb, ∀ m ∈ sb.methods, m.name = v.word ++ c.Resource →
        c.enabled v = true ∧ m = p.methodOf v) ∧
      (∀ v : Verb, c.enabled v = true →
        p.requestOf v ∈ s.file.messages ∧
        (p.requestOf v).name = v.word ++ c.Resource ++ "Request") ∧
      (c.enabled Verb.list = true →
        p.listRes ∈ s.file.messages ∧ p.listRes.name = "List" ++ c.Resource ++ "Response") ∧
      (∀ v : Verb, ∀ msg ∈ s.file.messages, msg.name = v.word ++ c.Resource ++ "Request" →
        c.enabled v = true ∧ msg = p.requestOf v) ∧
      (∀ msg ∈ s.file.messages, msg.name = "List" ++ c.Resource ++ "Response" →
        c.enabled Verb.list = true ∧ msg = p.listRes) := by
  obtain ⟨s, p, sb, hs, hp, hsres, hsvc, hmsgs, hex, hall⟩ :=
    assemble_method_named lib c ts fm em hacc hts hfm hem
  obtain ⟨nres, -, -, -, nlist, -⟩ := Parts.built_names lib c p hp
  refine ⟨s, p, sb, hs, hp, hsres, hsvc, hex, hall, fun v hv => ?_, fun hv => ?_,
    fun v msg hm e => ?_, fun msg hm e => ?_⟩
  · exact ⟨(hmsgs _).2 (Or.inr ⟨v, hv, p.requestOf_mem v⟩),
      Parts.built_requestName lib c p hp v hv⟩
  · exact ⟨(hmsgs _).2 (Or.inr ⟨Verb.list, hv, by simp [Parts.messagesOf]⟩), (nlist hv).2.1⟩
  · rcases (hmsgs msg).1 hm with h | ⟨w, hw, h⟩
    · rw [h, nres] at e
      exact absurd ((TopLevel.name_eq_iff c TopLevel.resource (TopLevel.request v)).1 e)
        (by simp)
    · rcases p.messagesOf_kind w msg h with h1 | ⟨h1, h2⟩
      · rw [h1, Parts.built_requestName lib c p hp w hw] at e
        have := (TopLevel.name_eq_iff c (TopLevel.request w) (TopLevel.request v)).1 e
        simp only [TopLevel.request.injEq] at this
        subst this
        exact ⟨hw, h1⟩
      · subst h1
        rw [h2, (nlist hw).2.1] at e
        exact absurd ((TopLevel.name_eq_iff c TopLevel.listResponse (TopLevel.request v)).1 e)
          (by simp)
  · rcases (hmsgs msg).1 hm with h | ⟨w, hw, h⟩
    · rw [h, nres] at e
      exact absurd ((TopLevel.name_eq_iff c TopLevel.resource TopLevel.listResponse).1 e)
        (by simp)
    · rcases p.messagesOf_kind w msg h with h1 | ⟨h1, h2⟩
      · rw [h1, Parts.built_requestName lib c p hp w hw] at e
        exact absurd ((TopLevel.name_eq_iff c (TopLevel.request w) TopLevel.listResponse).1 e)
          (by simp)
      · subst h1
        exact ⟨hw, h2⟩

theorem Parts.built_get (lib : Library) (c : Config) (p : Parts) (h : p.built lib c)
    (he : c.enabled Verb.get = true) :
    buildGetMethod.req lib c = Except.ok p.getReq ∧
    buildGetMethod.m lib c p.res p.getReq = Except.ok p.getM := h.2.2.1 he

theorem Parts.built_list (lib : Library) (c : Config) (p : Parts) (h : p.built lib c)
    (he : c.enabled Verb.list = true) :
    buildListMethod.req lib c = Except.ok p.listReq ∧
    buildListMethod.res lib c p.res = Except.ok p.listRes ∧
    buildListMethod.m lib c p.listReq p.listRes = Except.ok p.listM := h.2.2.2.1 he

theorem Parts.built_create (lib : Library) (c : Config) (p : Parts) (h : p.built lib c)
    (he : c.enabled Verb.create = true) :
    buildCreateMethod.req lib c p.res = Except.ok p.createReq ∧
    buildCreateMethod.m lib c p.res p.createReq = Except.ok p.createM := h.2.2.2.2.1 he

theorem Parts.built_update (lib : Library) (c : Config) (p : Parts) (h : p.built lib c)
    (he : c.enabled Verb.update = true) :
    buildUpdateMethod.req lib c p.res = Except.ok p.updateReq ∧
    buildUpdateMethod.m lib c p.res p.updateReq = Except.ok p.updateM := h.2.2.2.2.2.1 he

theorem Parts.built_delete (lib : Library) (c : Config) (p : Parts) (h : p.built lib c)
    (he : c.enabled Verb.delete = true) :
    buildDeleteMethod.req lib c = Except.ok p.deleteReq ∧
    buildDeleteMethod.m lib c p.deleteReq = Except.ok p.deleteM := h.2.2.2.2.2.2 he

/-- Claim C12. With Create enabled, names that pass the checks of the builder package and the
three well-known descriptors loading, assembly returns a schema with a message named
"Create"+Resource+"Request", and the fields of a message so named are, in order: `parent`
(string, REQUIRED) iff a parent is configured; snake(Resource)+"_id" (string, REQUIRED iff
`IDRequired`, otherwise without options); snake(Resource) (the resource message, REQUIRED); and
nothing else. For resource `Book` with a parent, and a casing function that gives `book`, the
field names are `parent`, `book_id`, `book`. -/
theorem create_request_fields (lib : Library) (c : Config) (ts fm em : MessageDescriptor)
    (hacc : accepted lib c)
    (hts : lib.LoadMessageDescriptorForMessage WellKnown.Timestamp = Except.ok ts)
    (hfm : lib.LoadMessageDescriptorForMessage WellKnown.FieldMask = Except.ok fm)
    (hem : lib.LoadMessageDescriptorForMessage WellKnown.Empty = Except.ok em)
    (hcreate : c.enabled Verb.create = true) :
    ∃ (s : schemaBuilder) (res : MessageBuilder),
      assemble lib c = Except.ok s ∧ s.resource = some res ∧
      (∃ msg ∈ s.file.messages, msg.name = "Create" ++ c.Resource ++ "Request") ∧
      (∀ msg ∈ s.file.messages, msg.name = "Create" ++ c.Resource ++ "Request" →
        msg.fields =
          (if c.HasParent then
            [{ name := "parent", type := FieldType.string, repeated := false
               comments := comment "The resource's parent." ""
               options := some { fieldBehavior := some [FieldBehavior.REQUIRED] } }]
           else [])
          ++ [{ name := c.ResourceSnakeCase lib ++ "_id", type := FieldType.string
                repeated := false
                comments := comment
                  "The ID to use for the resource. It will become the final component of the name."
                  ""
                options :=
                  if c.IDRequired then some { fieldBehavior := some [FieldBehavior.REQUIRED] }
                  else none },
              { name := c.ResourceSnakeCase lib, type := FieldTypeMessage res
                repeated := false
                comments := comment ("The " ++ c.Resource ++ " resource to create.") ""
                options := some { fieldBehavior := some [FieldBehavior.REQUIRED] } }] ∧
        (c.Resource = "Book" → lib.SnakeCase "Book" = "book" → c.HasParent = true →
          msg.fields.map (fun f => f.name) = ["parent", "book_id", "book"])) := by
  obtain ⟨s, p, sb, hs, hp, hsres, -, -, -, hin, -, hreq, -⟩ :=
    assemble_named lib c ts fm em hacc hts hfm hem
  refine ⟨s, p.res, hs, hsres,
    ⟨_, (hin Verb.create hcreate).1, (hin Verb.create hcreate).2⟩, fun msg hm hn => ?_⟩
  have e : msg = p.createReq := (hreq Verb.create msg hm hn).2
  have hf := (buildCreateMethod_req_spec lib c _ _ (p.built_create lib c hp hcreate).1).2
  rw [← e] at hf
  refine ⟨hf, fun hr hsn hp => ?_⟩
  rw [hf]
  simp [hp, Config.ResourceSnakeCase, hr, hsn]

/-- Claim C12 at the example scenario: `CreateBookRequest` has the fields `parent`,
`book_id`, `book`. -/
theorem create_request_fields_example :
    accepted exampleLibrary exampleConfig ∧
    (exampleLibrary.LoadMessageDescriptorForMessage WellKnown.Timestamp =
        Except.ok { fullName := "google.protobuf.Timestamp" } ∧
      exampleLibrary.LoadMessageDescriptorForMessage WellKnown.FieldMask =
        Except.ok { fullName := "google.protobuf.FieldMask" } ∧
      exampleLibrary.LoadMessageDescriptorForMessage WellKnown.Empty =
        Except.ok { fullName := "google.protobuf.Empty" } ∧
      exampleConfig.enabled Verb.create = true) ∧
    ∃ s : schemaBuilder, assemble exampleLibrary exampleConfig = Except.ok s ∧
      (∃ msg ∈ s.file.messages, msg.name = "CreateBookRequest") ∧
      ∀ msg ∈ s.file.messages, msg.name = "CreateBookRequest" →
        msg.fields.map (fun f => f.name) = ["parent", "book_id", "book"] := by
  refine ⟨accepted_example, ⟨rfl, rfl, rfl, by decide⟩, ?_⟩
  obtain ⟨s, res, hs, -, hex, hall⟩ := create_request_fields exampleLibrary exampleConfig
    _ _ _ accepted_example rfl rfl rfl (by decide)
  exact ⟨s, hs, hex, fun msg hm hn => (hall msg hm hn).2 rfl rfl (by decide)⟩

/-- Claim C13. With Create enabled, `WithHTTPOptions` set, names that pass the checks of the
builder package and the three well-known descriptors loading, the options of the method named
"Create"+Resource hold one method signature, the comma-separated list of `parent` (iff a parent
is configured), snake(Resource), and snake(Resource)+"_id" (iff `IDRequired`), in this order;
and the HTTP rule POST with body snake(Resource) on the collection URL, which is the URL of the
GET rule of the method named "List"+Resource. -/
theorem create_signature_and_binding (lib : Library) (c : Config)
    (ts fm em : MessageDescriptor)
    (hacc : accepted lib c)
    (hts : lib.LoadMessageDescriptorForMessage WellKnown.Timestamp = Except.ok ts)
    (hfm : lib.LoadMessageDescriptorForMessage WellKnown.FieldMask = Except.ok fm)
    (hem : lib.LoadMessageDescriptorForMessage WellKnown.Empty = Except.ok em)
    (hcreate : c.enabled Verb.create = true) (hhttp : c.WithHTTPOptions = true) :
    ∃ (s : schemaBuilder) (url : String), assemble lib c = Except.ok s ∧
      url = "/v1/" ++
        (if c.HasParent then
          "\x7bparent=" ++ replaceCurlyReplaceAllString c.ParentPattern "*" ++ "\x7d/"
         else "") ++ c.ResourceCollectionIdentifier lib ∧
      (∃ sb ∈ s.file.services, ∃ m ∈ sb.methods, m.name = "Create" ++ c.Resource) ∧
      (∀ sb ∈ s.file.services, ∀ m ∈ sb.methods, m.name = "Create" ++ c.Resource →
        ∃ o : MethodOptions, m.options = some o ∧
          o.methodSignature = some [stringsJoin
            ((if c.HasParent then ["parent"] else []) ++ [c.ResourceSnakeCase lib] ++
              (if c.IDRequired then [c.ResourceSnakeCase lib ++ "_id"] else [])) ","] ∧
          o.http = some { Pattern := HttpPattern.Post url, Body := c.ResourceSnakeCase lib }) ∧
      (∀ sb ∈ s.file.services, ∀ m ∈ sb.methods, m.name = "List" ++ c.Resource →
        ∃ o : MethodOptions, m.options = some o ∧
          o.http = some { Pattern := HttpPattern.Get url, Body := "" }) := by
  obtain ⟨s, p, sb, hs, hp, -, hsvc, -, hex, hall⟩ :=
    assemble_method_named lib c ts fm em hacc hts hfm hem
  refine ⟨s, _, hs, rfl, ?_, ?_, ?_⟩
  · obtain ⟨m, hm, hn⟩ := hex Verb.create hcreate
    exact ⟨sb, by rw [hsvc]; exact List.mem_singleton_self sb, m, hm, hn⟩
  · intro sb1 hsb m hm hn
    rw [hsvc, List.mem_singleton] at hsb
    subst hsb
    have hm1 : m = _ := ((hall Verb.create m hm hn).2).trans
      (buildCreateMethod_m_spec lib c _ _ _ (p.built_create lib c hp hcreate).2)
    have ho := congrArg MethodBuilder.options hm1
    simp only [hhttp, if_true] at ho
    refine ⟨_, ho, ?_, ?_⟩
    · cases c.HasParent <;> cases c.IDRequired <;>
        simp [stringsJoin, String.intercalate, String.intercalate.go, String.ext_iff]
    · cases c.HasParent <;> simp [Config.ParentNameUrlRef]
  · intro sb1 hsb m hm hn
    rw [hsvc, List.mem_singleton] at hsb
    subst hsb
    have hl := (hall Verb.list m hm hn).1
    have hm1 : m = _ := ((hall Verb.list m hm hn).2).trans
      (buildListMethod_m_spec lib c _ _ _ (p.built_list lib c hp hl).2.2)
    have ho := congrArg MethodBuilder.options hm1
    simp only [hhttp, if_true] at ho
    refine ⟨_, ho, ?_⟩
    cases c.HasParent <;> simp [Config.ParentNameUrlRef]

/-- Claim C13 at the example scenario with `IDRequired` set: the signature of `CreateBook`
is `parent,book,book_id`, bound to `POST /v1/{parent=publishers/*}/books` with body
`book`. -/
theorem create_signature_and_binding_example :
    accepted exampleLibrary { exampleConfig with IDRequired := true } ∧
    (exampleLibrary.LoadMessageDescriptorForMessage WellKnown.Timestamp =
        Except.ok { fullName := "google.protobuf.Timestamp" } ∧
      exampleLibrary.LoadMessageDescriptorForMessage WellKnown.FieldMask =
        Except.ok { fullName := "google.protobuf.FieldMask" } ∧
      exampleLibrary.LoadMessageDescriptorForMessage WellKnown.Empty =
        Except.ok { fullName := "google.protobuf.Empty" } ∧
      ({ exampleConfig with IDRequired := true } : Config).enabled Verb.create = true ∧
      ({ exampleConfig with IDRequired := true } : Config).WithHTTPOptions = true) ∧
    ∃ s : schemaBuilder,
      assemble exampleLibrary { exampleConfig with IDRequired := true } = Except.ok s ∧
      ∀ sb ∈ s.file.services, ∀ m ∈ sb.methods, m.name = "CreateBook" →
        ∃ o : MethodOptions, m.options = some o ∧
          o.methodSignature = some ["parent,book,book_id"] ∧
          o.http = some
            { Pattern := HttpPattern.Post "/v1/\x7bparent=publishers/*\x7d/books"
              Body := "book" } := by
  have hacc : accepted exampleLibrary { exampleConfig with IDRequired := true } :=
    accepted_example
  refine ⟨hacc, ⟨rfl, rfl, rfl, by decide, rfl⟩, ?_⟩
  obtain ⟨s, url, hs, hurl, -, hall, -⟩ := create_signature_and_binding exampleLibrary
    { exampleConfig with IDRequired := true } _ _ _ hacc rfl rfl rfl (by decide) rfl
  refine ⟨s, hs, fun sb hsb m hm hn => ?_⟩
  obtain ⟨o, ho, hsig, hrule⟩ := hall sb hsb m hm hn
  refine ⟨o, ho, hsig.trans (by decide), hrule.trans ?_⟩
  rw [hurl]
  decide

/-- Claim C14. With List enabled, names that pass the checks of the builder package and the
three well-known descriptors loading, assembly returns a schema with a message named
"List"+Resource+"Request", and the fields of a message so named are, in order: `parent` (string,
REQUIRED) iff a parent is configured; `page_size` (int32, OPTIONAL); `page_token` (string,
OPTIONAL); `filter` (string, OPTIONAL) iff `WithListFilter`; `order_by` (string, OPTIONAL) iff
`WithListOrderBy`; and nothing else. With a parent and both toggles set the field names are
`parent`, `page_size`, `page_token`, `filter`, `order_by`. -/
theorem list_request_fields (lib : Library) (c : Config) (ts fm em : MessageDescriptor)
    (hacc : accepted lib c)
    (hts : lib.LoadMessageDescriptorForMessage WellKnown.Timestamp = Except.ok ts)
    (hfm : lib.LoadMessageDescriptorForMessage WellKnown.FieldMask = Except.ok fm)
    (hem : lib.LoadMessageDescriptorForMessage WellKnown.Empty = Except.ok em)
    (hlist : c.enabled Verb.list = true) :
    ∃ s : schemaBuilder, assemble lib c = Except.ok s ∧
      (∃ msg ∈ s.file.messages, msg.name = "List" ++ c.Resource ++ "Request") ∧
      (∀ msg ∈ s.file.messages, msg.name = "List" ++ c.Resource ++ "Request" →
        msg.fields =
          (if c.HasParent then
            [{ name := "parent", type := FieldType.string, repeated := false
               comments := comment "The resource's parent." ""
               options := some { fieldBehavior := some [FieldBehavior.REQUIRED] } }]
           else [])
          ++ [{ name := "page_size", type := FieldType.int32, repeated := false
                comments := comment "The maximum number of resources to return." ""
                options := some { fieldBehavior := some [FieldBehavior.OPTIONAL] } },
              { name := "page_token", type := FieldType.string, repeated := false
                comments := comment
                  "The page token to use for pagination. Provide this to retrieve subsequent page"
                  ""
                options := some { fieldBehavior := some [FieldBehavior.OPTIONAL] } }]
          ++ (if c.WithListFilter then
                [{ name := "filter", type := FieldType.string, repeated := false
                   comments := comment "The filter to apply to list results." ""
                   options := some { fieldBehavior := some [FieldBehavior.OPTIONAL] } }]
              else [])
          ++ (if c.WithListOrderBy then
                [{ name := "order_by", type := FieldType.string, repeated := false
                   comments := comment "The order to list results by." ""
                   options := some { fieldBehavior := some [FieldBehavior.OPTIONAL] } }]
              else []) ∧
        (c.HasParent = true → c.WithListFilter = true → c.WithListOrderBy = true →
          msg.fields.map (fun f => f.name) =
            ["parent", "page_size", "page_token", "filter", "order_by"])) := by
  obtain ⟨s, p, sb, hs, hp, -, -, -, -, hin, -, hreq, -⟩ :=
    assemble_named lib c ts fm em hacc hts hfm hem
  refine ⟨s, hs, ⟨_, (hin Verb.list hlist).1, (hin Verb.list hlist).2⟩, fun msg hm hn => ?_⟩
  have e : msg = p.listReq := (hreq Verb.list msg hm hn).2
  have hf := (buildListMethod_req_spec lib c _ (p.built_list lib c hp hlist).1).2
  rw [← e] at hf
  refine ⟨hf, fun hp hfl hob => ?_⟩
  rw [hf]
  simp [hp, hfl, hob]

/-- Claim C14 at the example scenario: `ListBookRequest` has the fields `parent`,
`page_size`, `page_token`, `filter`, `order_by`. -/
theorem list_request_fields_example :
    accepted exampleLibrary exampleConfig ∧
    (exampleLibrary.LoadMessageDescriptorForMessage WellKnown.Timestamp =
        Except.ok { fullName := "google.protobuf.Timestamp" } ∧
      exampleLibrary.LoadMessageDescriptorForMessage WellKnown.FieldMask =
        Except.ok { fullName := "google.protobuf.FieldMask" } ∧
      exampleLibrary.LoadMessageDescriptorForMessage WellKnown.Empty =
        Except.ok { fullName := "google.protobuf.Empty" } ∧
      exampleConfig.enabled Verb.list = true) ∧
    ∃ s : schemaBuilder, assemble exampleLibrary exampleConfig = Except.ok s ∧
      (∃ msg ∈ s.file.messages, msg.name = "ListBookRequest") ∧
      ∀ msg ∈ s.file.messages, msg.name = "ListBookRequest" →
        msg.fields.map (fun f => f.name) =
          ["parent", "page_size", "page_token", "filter", "order_by"] := by
  refine ⟨accepted_example, ⟨rfl, rfl, rfl, by decide⟩, ?_⟩
  obtain ⟨s, hs, hex, hall⟩ := list_request_fields exampleLibrary exampleConfig
    _ _ _ accepted_example rfl rfl rfl (by decide)
  exact ⟨s, hs, hex, fun msg hm hn => (hall msg hm hn).2 (by decide) rfl rfl⟩

/-- Claim C15. With List enabled, names that pass the checks of the builder package and the
three well-known descriptors loading, whatever the other toggles, assembly returns a schema with
a message named "List"+Resource+"Response", and a message so named has exactly two fields, in
order: the repeated field snake(PluralResource) of the resource message type, and the string
field `next_page_token`. With plural `Books` and a casing function that gives `books` the field
names are `books`, `next_page_token`. -/
theorem list_response_fields (lib : Library) (c : Config) (ts fm em : MessageDescriptor)
    (hacc : accepted lib c)
    (hts : lib.LoadMessageDescriptorForMessage WellKnown.Timestamp = Except.ok ts)
    (hfm : lib.LoadMessageDescriptorForMessage WellKnown.FieldMask = Except.ok fm)
    (hem : lib.LoadMessageDescriptorForMessage WellKnown.Empty = Except.ok em)
    (hlist : c.enabled Verb.list = true) :
    ∃ (s : schemaBuilder) (res : MessageBuilder),
      assemble lib c = Except.ok s ∧ s.resource = some res ∧
      (∃ msg ∈ s.file.messages, msg.name = "List" ++ c.Resource ++ "Response") ∧
      (∀ msg ∈ s.file.messages, msg.name = "List" ++ c.Resource ++ "Response" →
        msg.fields =
          [{ name := lib.SnakeCase c.PluralResource, type := FieldTypeMessage res
             repeated := true
             comments := comment ("The list of " ++ c.Resource ++ " resources.") ""
             options := none },
           { name := "next_page_token", type := FieldType.string, repeated := false
             comments := comment
               "The token to retrieve the next page of results, or empty if there are no more results."
               ""
             options := none }] ∧
        (c.PluralResource = "Books" → lib.SnakeCase "Books" = "books" →
          msg.fields.map (fun f => f.name) = ["books", "next_page_token"])) := by
  obtain ⟨s, p, sb, hs, hp, hsres, -, -, -, -, hin, -, hresp⟩ :=
    assemble_named lib c ts fm em hacc hts hfm hem
  refine ⟨s, p.res, hs, hsres, ⟨_, (hin hlist).1, (hin hlist).2⟩, fun msg hm hn => ?_⟩
  have e : msg = p.listRes := (hresp msg hm hn).2
  have hf := (buildListMethod_res_spec lib c _ _ (p.built_list lib c hp hlist).2.1).2
  rw [← e] at hf
  refine ⟨hf, fun hpl hsn => ?_⟩
  rw [hf]
  simp [Config.PluralResourceSnakeCase, hpl, hsn]

/-- Claim C15 at resource `Book` with no plural given, after the default of the command,
and with every other toggle off: `ListBookResponse` has the fields `books`,
`next_page_token`. -/
theorem list_response_fields_example :
    accepted exampleLibrary (defaultPluralResource
        { exampleConfig with
          PluralResource := "", WithListFilter := false, WithListOrderBy := false,
          WithHTTPOptions := false, WithTimestamps := false }) ∧
    (exampleLibrary.LoadMessageDescriptorForMessage WellKnown.Timestamp =
        Except.ok { fullName := "google.protobuf.Timestamp" } ∧
      exampleLibrary.LoadMessageDescriptorForMessage WellKnown.FieldMask =
        Except.ok { fullName := "google.protobuf.FieldMask" } ∧
      exampleLibrary.LoadMessageDescriptorForMessage WellKnown.Empty =
        Except.ok { fullName := "google.protobuf.Empty" } ∧
      (defaultPluralResource
        { exampleConfig with
          PluralResource := "", WithListFilter := false, WithListOrderBy := false,
          WithHTTPOptions := false, WithTimestamps := false }).enabled Verb.list = true) ∧
    ∃ s : schemaBuilder,
      assemble exampleLibrary (defaultPluralResource
        { exampleConfig with
          PluralResource := "", WithListFilter := false, WithListOrderBy := false,
          WithHTTPOptions := false, WithTimestamps := false }) = Except.ok s ∧
      (∃ msg ∈ s.file.messages, msg.name = "ListBookResponse") ∧
      ∀ msg ∈ s.file.messages, msg.name = "ListBookResponse" →
        msg.fields.map (fun f => f.name) = ["books", "next_page_token"] := by
  have hacc : accepted exampleLibrary (defaultPluralResource
        { exampleConfig with
          PluralResource := "", WithListFilter := false, WithListOrderBy := false,
          WithHTTPOptions := false, WithTimestamps := false }) :=
    ⟨all_checkName_ok _ _ (by decide), fun _ => by decide,
      fun _ _ => ⟨by decide, by decide⟩, fun _ _ => by decide, fun _ _ => by decide⟩
  refine ⟨hacc, ⟨rfl, rfl, rfl, by decide⟩, ?_⟩
  obtain ⟨s, res, hs, -, hex, hall⟩ := list_response_fields exampleLibrary
    (defaultPluralResource
      { exampleConfig with
        PluralResource := "", WithListFilter := false, WithListOrderBy := false,
        WithHTTPOptions := false, WithTimestamps := false }) _ _ _ hacc rfl rfl rfl
    (by decide)
  exact ⟨s, hs, hex, fun msg hm hn => (hall msg hm hn).2 (by decide) (by decide)⟩

/-- Claim C16. With Update enabled, names that pass the checks of the builder package and the
three well-known descriptors loading, assembly returns a schema with a message named
"Update"+Resource+"Request" whose fields are, in order: snake(Resource) (the resource message,
REQUIRED); `update_mask` (field mask, OPTIONAL) iff `WithUpdateFieldMask`; `allow_missing`
(bool, OPTIONAL) iff `WithUpdateAllowMissing`; so the request holds the field-mask field
`update_mask` exactly when `WithUpdateFieldMask` is set. When `WithHTTPOptions` is set, the
method named "Update"+Resource has one method signature, snake(Resource) followed by
`update_mask` exactly when `WithUpdateFieldMask` is set, and the HTTP rule PATCH on `/v1/{`
snake(Resource) `.name=` urlRef(ResourceNamePattern) `}` with body snake(Resource). -/
theorem update_request_and_binding (lib : Library) (c : Config)
    (ts fm em : MessageDescriptor)
    (hacc : accepted lib c)
    (hts : lib.LoadMessageDescriptorForMessage WellKnown.Timestamp = Except.ok ts)
    (hfm : lib.LoadMessageDescriptorForMessage WellKnown.FieldMask = Except.ok fm)
    (hem : lib.LoadMessageDescriptorForMessage WellKnown.Empty = Except.ok em)
    (hupdate : c.enabled Verb.update = true) :
    ∃ (s : schemaBuilder) (res : MessageBuilder),
      assemble lib c = Except.ok s ∧ s.resource = some res ∧
      (∃ msg ∈ s.file.messages, msg.name = "Update" ++ c.Resource ++ "Request") ∧
      (∀ msg ∈ s.file.messages, msg.name = "Update" ++ c.Resource ++ "Request" →
        msg.fields =
          [{ name := c.ResourceSnakeCase lib, type := FieldTypeMessage res
             repeated := false
             comments := comment
               ("The " ++ c.Resource ++ " resource to update. The resource must have") ""
             options := some { fieldBehavior := some [FieldBehavior.REQUIRED] } }]
          ++ (if c.WithUpdateFieldMask then
                [{ name := "update_mask", type := FieldType.importedMessage fm
                   repeated := false
                   comments := comment "The list of fields to update." ""
                   options := some { fieldBehavior := some [FieldBehavior.OPTIONAL] } }]
              else [])
          ++ (if c.WithUpdateAllowMissing then
                [{ name := "allow_missing", type := FieldType.bool, repeated := false
                   comments := comment
                     "If set to true, and the resource is not found, a new resource will be created."
                     ""
                   options := some { fieldBehavior := some [FieldBehavior.OPTIONAL] } }]
              else []) ∧
        ((∃ f ∈ msg.fields, f.name = "update_mask" ∧ f.type = FieldType.importedMessage fm) ↔
          c.WithUpdateFieldMask = true)) ∧
      (c.WithHTTPOptions = true →
        (∃ sb ∈ s.file.services, ∃ m ∈ sb.methods, m.name = "Update" ++ c.Resource) ∧
        ∀ sb ∈ s.file.services, ∀ m ∈ sb.methods, m.name = "Update" ++ c.Resource →
          ∃ o : MethodOptions, m.options = some o ∧
            o.methodSignature = some [stringsJoin
              ([c.ResourceSnakeCase lib] ++
                (if c.WithUpdateFieldMask then ["update_mask"] else [])) ","] ∧
            o.http = some
              { Pattern := HttpPattern.Patch ("/v1/\x7b" ++ c.ResourceSnakeCase lib ++
                  ".name=" ++ replaceCurlyReplaceAllString (c.ResourceNamePattern lib) "*" ++
                  "\x7d")
                Body := c.ResourceSnakeCase lib }) := by
  obtain ⟨s, p, sb, hs, hp, hsres, hsvc, hex, hall, hin, -, hreq, -⟩ :=
    assemble_named lib c ts fm em hacc hts hfm hem
  have hupdfields :=
    (buildUpdateMethod_req_spec lib c _ fm (fun _ => hfm) _
      (p.built_update lib c hp hupdate).1).2
  refine ⟨s, p.res, hs, hsres, ⟨_, (hin Verb.update hupdate).1, (hin Verb.update hupdate).2⟩,
    fun msg hm hn => ?_, fun hhttp => ?_⟩
  · have e : msg = p.updateReq := (hreq Verb.update msg hm hn).2
    rw [e]
    refine ⟨hupdfields, ?_⟩
    rw [hupdfields]
    cases c.WithUpdateFieldMask <;> cases c.WithUpdateAllowMissing <;>
      simp [FieldTypeMessage]
  · refine ⟨?_, fun sb1 hsb m hm hn => ?_⟩
    · obtain ⟨m, hm, hn⟩ := hex Verb.update hupdate
      exact ⟨sb, by rw [hsvc]; exact List.mem_singleton_self sb, m, hm, hn⟩
    · rw [hsvc, List.mem_singleton] at hsb
      subst hsb
      have hm1 : m = _ := ((hall Verb.update m hm hn).2).trans
        (buildUpdateMethod_m_spec lib c _ _ _ (p.built_update lib c hp hupdate).2)
      have ho := congrArg MethodBuilder.options hm1
      simp only [hhttp, if_true] at ho
      refine ⟨_, ho, ?_, ?_⟩
      · cases c.WithUpdateFieldMask <;>
          simp [stringsJoin, String.intercalate, String.intercalate.go, String.ext_iff]
      · simp [Config.ResourceNameUrlRef, String.ext_iff]

/-- Claim C16 at the example scenario: `UpdateBookRequest` has the fields `book`,
`update_mask`, `allow_missing`, and `UpdateBook` has the signature `book,update_mask` and
is bound to `PATCH /v1/{book.name=publishers/*/books/*}` with body `book`. -/
theorem update_request_and_binding_example :
    accepted exampleLibrary exampleConfig ∧
    (exampleLibrary.LoadMessageDescriptorForMessage WellKnown.Timestamp =
        Except.ok { fullName := "google.protobuf.Timestamp" } ∧
      exampleLibrary.LoadMessageDescriptorForMessage WellKnown.FieldMask =
        Except.ok { fullName := "google.protobuf.FieldMask" } ∧
      exampleLibrary.LoadMessageDescriptorForMessage WellKnown.Empty =
        Except.ok { fullName := "google.protobuf.Empty" } ∧
      exampleConfig.enabled Verb.update = true) ∧
    ∃ s : schemaBuilder, assemble exampleLibrary exampleConfig = Except.ok s ∧
      (∀ msg ∈ s.file.messages, msg.name = "UpdateBookRequest" →
        msg.fields.map (fun f => f.name) = ["book", "update_mask", "allow_missing"]) ∧
      ∀ sb ∈ s.file.services, ∀ m ∈ sb.methods, m.name = "UpdateBook" →
        ∃ o : MethodOptions, m.options = some o ∧
          o.methodSignature = some ["book,update_mask"] ∧
          o.http = some
            { Pattern := HttpPattern.Patch "/v1/\x7bbook.name=publishers/*/books/*\x7d"
              Body := "book" } := by
  refine ⟨accepted_example, ⟨rfl, rfl, rfl, by decide⟩, ?_⟩
  obtain ⟨s, res, hs, -, -, hmsg, hmeth⟩ := update_request_and_binding exampleLibrary
    exampleConfig _ _ _ accepted_example rfl rfl rfl (by decide)
  refine ⟨s, hs, fun msg hm hn => ?_, fun sb hsb m hm hn => ?_⟩
  · rw [(hmsg msg hm hn).1]
    rfl
  · obtain ⟨o, ho, hsig, hrule⟩ := (hmeth rfl).2 sb hsb m hm hn
    exact ⟨o, ho, hsig.trans (by decide), hrule.trans (by decide)⟩

/-! ## The List method signature -/

/-- Claim C17 fails when no parent is configured: in the example scenario without a parent
the method-signature option of `ListBook` holds one entry, the empty string. -/
theorem list_signature_without_parent_has_an_entry :
    (assemble exampleLibrary { exampleConfig with ParentPattern := "" }).map
        (fun s => s.file.services.flatMap (fun sb =>
          (sb.methods.filter (fun m => m.name == "ListBook")).map
            (fun m => m.options.map (fun o => o.methodSignature)))) =
      Except.ok [some (some [""])] := by
  rfl

/-- Claim C17 as amended.  With List enabled, `WithHTTPOptions` set, names that pass the
checks of the builder package and the three well-known descriptors loading, the
method-signature option of the method named
"List"+Resource holds exactly one entry: `parent` when a parent is configured, and the
empty string, which names no field, when it is not. -/
theorem list_signature (lib : Library) (c : Config) (ts fm em : MessageDescriptor)
    (hacc : accepted lib c)
    (hts : lib.LoadMessageDescriptorForMessage WellKnown.Timestamp = Except.ok ts)
    (hfm : lib.LoadMessageDescriptorForMessage WellKnown.FieldMask = Except.ok fm)
    (hem : lib.LoadMessageDescriptorForMessage WellKnown.Empty = Except.ok em)
    (hlist : c.enabled Verb.list = true) (hhttp : c.WithHTTPOptions = true) :
    ∃ s : schemaBuilder, assemble lib c = Except.ok s ∧
      (∃ sb ∈ s.file.services, ∃ m ∈ sb.methods, m.name = "List" ++ c.Resource) ∧
      (∀ sb ∈ s.file.services, ∀ m ∈ sb.methods, m.name = "List" ++ c.Resource →
        ∃ o : MethodOptions, m.options = some o ∧
          (c.HasParent = true → o.methodSignature = some ["parent"]) ∧
          (c.HasParent = false → o.methodSignature = some [""])) := by
  obtain ⟨s, p, sb, hs, hp, -, hsvc, -, hex, hall⟩ :=
    assemble_method_named lib c ts fm em hacc hts hfm hem
  refine ⟨s, hs, ?_, ?_⟩
  · obtain ⟨m, hm, hn⟩ := hex Verb.list hlist
    exact ⟨sb, by rw [hsvc]; exact List.mem_singleton_self sb, m, hm, hn⟩
  · intro sb1 hsb m hm hn
    rw [hsvc, List.mem_singleton] at hsb
    subst hsb
    have hm1 : m = _ := ((hall Verb.list m hm hn).2).trans
      (buildListMethod_m_spec lib c _ _ _ (p.built_list lib c hp hlist).2.2)
    have ho := congrArg MethodBuilder.options hm1
    simp only [hhttp, if_true] at ho
    exact ⟨_, ho, fun hp => by simp [hp], fun hp => by simp [hp]⟩

/-- Claim C17 as amended, at the example scenario with and without the parent: the
signature of `ListBook` is the one entry `parent`, and the one empty entry without a
parent. -/
theorem list_signature_example :
    accepted exampleLibrary exampleConfig ∧
    accepted exampleLibrary { exampleConfig with ParentPattern := "" } ∧
    (exampleLibrary.LoadMessageDescriptorForMessage WellKnown.Timestamp =
        Except.ok { fullName := "google.protobuf.Timestamp" } ∧
      exampleLibrary.LoadMessageDescriptorForMessage WellKnown.FieldMask =
        Except.ok { fullName := "google.protobuf.FieldMask" } ∧
      exampleLibrary.LoadMessageDescriptorForMessage WellKnown.Empty =
        Except.ok { fullName := "google.protobuf.Empty" } ∧
      exampleConfig.enabled Verb.list = true ∧ exampleConfig.WithHTTPOptions = true) ∧
    (∃ s : schemaBuilder, assemble exampleLibrary exampleConfig = Except.ok s ∧
      ∀ sb ∈ s.file.services, ∀ m ∈ sb.methods, m.name = "ListBook" →
        ∃ o : MethodOptions, m.options = some o ∧ o.methodSignature = some ["parent"]) ∧
    (∃ s : schemaBuilder,
      assemble exampleLibrary { exampleConfig with ParentPattern := "" } = Except.ok s ∧
      ∀ sb ∈ s.file.services, ∀ m ∈ sb.methods, m.name = "ListBook" →
        ∃ o : MethodOptions, m.options = some o ∧ o.methodSignature = some [""]) := by
  have hacc2 : accepted exampleLibrary { exampleConfig with ParentPattern := "" } :=
    ⟨all_checkName_ok _ _ (by decide), fun _ => by decide,
      fun _ _ => ⟨by decide, by decide⟩, fun _ _ => by decide, fun _ _ => by decide⟩
  refine ⟨accepted_example, hacc2, ⟨rfl, rfl, rfl, by decide, rfl⟩, ?_, ?_⟩
  · obtain ⟨s, hs, -, hall⟩ := list_signature exampleLibrary exampleConfig _ _ _
      accepted_example rfl rfl rfl (by decide) rfl
    refine ⟨s, hs, fun sb hsb m hm hn => ?_⟩
    obtain ⟨o, ho, h, -⟩ := hall sb hsb m hm hn
    exact ⟨o, ho, h (by decide)⟩
  · obtain ⟨s, hs, -, hall⟩ := list_signature exampleLibrary
      { exampleConfig with ParentPattern := "" } _ _ _ hacc2 rfl rfl rfl (by decide) rfl
    refine ⟨s, hs, fun sb hsb m hm hn => ?_⟩
    obtain ⟨o, ho, -, h⟩ := hall sb hsb m hm hn
    exact ⟨o, ho, h (by decide)⟩

/-! ## Failures of assembly -/

theorem buildResourceMessage_b_panics (lib : Library) (c : Config) (e : String)
    (hacc : accepted lib c) (ht : c.WithTimestamps = true)
    (hts : lib.LoadMessageDescriptorForMessage WellKnown.Timestamp = Except.error e) :
    buildResourceMessage.b lib c = Except.error (Failure.panic e) := by
  obtain ⟨n1, n2, n3, n4, n5, n6, -⟩ := accepted_core lib c hacc
  cases hd : c.WithDisplayName <;>
    simp [buildResourceMessage.b, hd, ht, hts, n1, n2, n3, bind, Except.bind, pure,
      Except.pure, throw, throwThe, MonadExceptOf.throw, orPanic, NewMessage, NewField,
      MessageBuilder.AddField, MessageBuilder.TryAddField, MessageBuilder.SetComments,
      MessageBuilder.SetOptions, FieldBuilder.SetComments, FieldBuilder.SetOptions]

theorem buildUpdateMethod_req_panics (lib : Library) (c : Config) (res : MessageBuilder)
    (e : String) (hacc : accepted lib c) (he : c.enabled Verb.update = true)
    (hm : c.WithUpdateFieldMask = true)
    (hfm : lib.LoadMessageDescriptorForMessage WellKnown.FieldMask = Except.error e) :
    buildUpdateMethod.req lib c res = Except.error (Failure.panic e) := by
  obtain ⟨n1, n2, -⟩ := accepted_update lib c hacc he
  simp [buildUpdateMethod.req, hm, hfm, n1, n2, bind, Except.bind, pure, Except.pure, throw,
    throwThe, MonadExceptOf.throw, orPanic, NewMessage, NewField, MessageBuilder.AddField,
    MessageBuilder.TryAddField, MessageBuilder.SetComments, FieldBuilder.SetComments,
    FieldBuilder.SetOptions]

theorem buildDeleteMethod_m_panics (lib : Library) (c : Config) (req : MessageBuilder)
    (e : String)
    (hem : lib.LoadMessageDescriptorForMessage WellKnown.Empty = Except.error e) :
    buildDeleteMethod.m lib c req = Except.error (Failure.panic e) := by
  simp [buildDeleteMethod.m, hem, bind, Except.bind, throw, throwThe, MonadExceptOf.throw,
    orPanic]

theorem assemble_resource_fails (lib : Library) (c : Config) (f : Failure)
    (hres : buildResourceMessage.b lib c = Except.error f) :
    assemble lib c = Except.error f := by
  simp [assemble, buildResourceMessage, hres, bind, Except.bind]

/-- The parts of the run that are built before `buildUpdateMethod`. -/
theorem parts_exist_before_update (lib : Library) (c : Config) (ts : MessageDescriptor)
    (hacc : accepted lib c)
    (hts : c.WithTimestamps = true →
      lib.LoadMessageDescriptorForMessage WellKnown.Timestamp = Except.ok ts) :
    ∃ p : Parts,
      buildResourceMessage.b lib c = Except.ok p.res ∧
      buildServiceDescriptor.b lib c = Except.ok p.svc ∧
      (c.enabled Verb.get = true →
        buildGetMethod.req lib c = Except.ok p.getReq ∧
        buildGetMethod.m lib c p.res p.getReq = Except.ok p.getM) ∧
      (c.enabled Verb.list = true →
        buildListMethod.req lib c = Except.ok p.listReq ∧
        buildListMethod.res lib c p.res = Except.ok p.listRes ∧
        buildListMethod.m lib c p.listReq p.listRes = Except.ok p.listM) ∧
      (c.enabled Verb.create = true →
        buildCreateMethod.req lib c p.res = Except.ok p.createReq ∧
        buildCreateMethod.m lib c p.res p.createReq = Except.ok p.createM) := by
  obtain ⟨res, hres⟩ := buildResourceMessage_b_ok lib c ts hacc hts
  obtain ⟨svc, hsvc⟩ := buildServiceDescriptor_b_ok lib c hacc
  have dm : MethodBuilder :=
    { name := "", req := RpcType.message "" false, resp := RpcType.message "" false
      comments := comment "" "", options := none }
  have hG : ∃ (r : MessageBuilder) (m : MethodBuilder), c.enabled Verb.get = true →
      buildGetMethod.req lib c = Except.ok r ∧ buildGetMethod.m lib c res r = Except.ok m := by
    by_cases he : c.enabled Verb.get = true
    · obtain ⟨r, hr⟩ := buildGetMethod_req_ok lib c hacc he
      obtain ⟨m, hm⟩ := buildGetMethod_m_ok lib c res r hacc he
      exact ⟨r, m, fun _ => ⟨hr, hm⟩⟩
    · exact ⟨res, dm, fun h => absurd h he⟩
  have hL : ∃ (r r2 : MessageBuilder) (m : MethodBuilder), c.enabled Verb.list = true →
      buildListMethod.req lib c = Except.ok r ∧
      buildListMethod.res lib c res = Except.ok r2 ∧
      buildListMethod.m lib c r r2 = Except.ok m := by
    by_cases he : c.enabled Verb.list = true
    · obtain ⟨r, hr⟩ := buildListMethod_req_ok lib c hacc he
      obtain ⟨r2, hr2⟩ := buildListMethod_res_ok lib c res hacc he
      obtain ⟨m, hm⟩ := buildListMethod_m_ok lib c r r2 hacc he
      exact ⟨r, r2, m, fun _ => ⟨hr, hr2, hm⟩⟩
    · exact ⟨res, res, dm, fun h => absurd h he⟩
  have hC : ∃ (r : MessageBuilder) (m : MethodBuilder), c.enabled Verb.create = true →
      buildCreateMethod.req lib c res = Except.ok r ∧
      buildCreateMethod.m lib c res r = Except.ok m := by
    by_cases he : c.enabled Verb.create = true
    · obtain ⟨r, hr⟩ := buildCreateMethod_req_ok lib c res hacc he
      obtain ⟨m, hm⟩ := buildCreateMethod_m_ok lib c res r hacc he
      exact ⟨r, m, fun _ => ⟨hr, hm⟩⟩
    · exact ⟨res, dm, fun h => absurd h he⟩
  obtain ⟨gr, gm, hg⟩ := hG
  obtain ⟨lr, ls, lm, hl⟩ := hL
  obtain ⟨cr, cm, hc⟩ := hC
  exact ⟨{ res := res, svc := svc, getReq := gr, getM := gm, listReq := lr, listRes := ls,
           listM := lm, createReq := cr, createM := cm, updateReq := res, updateM := dm,
           deleteReq := res, deleteM := dm }, hres, hsvc, hg, hl, hc⟩

/-- The names of the parts that are built before `buildUpdateMethod`. -/
theorem names_before_update (lib : Library) (c : Config) (p : Parts)
    (hres : buildResourceMessage.b lib c = Except.ok p.res)
    (hsvc : buildServiceDescriptor.b lib c = Except.ok p.svc)
    (hget : c.enabled Verb.get = true →
      buildGetMethod.req lib c = Except.ok p.getReq ∧
      buildGetMethod.m lib c p.res p.getReq = Except.ok p.getM)
    (hlist : c.enabled Verb.list = true →
      buildListMethod.req lib c = Except.ok p.listReq ∧
      buildListMethod.res lib c p.res = Except.ok p.listRes ∧
      buildListMethod.m lib c p.listReq p.listRes = Except.ok p.listM)
    (hcreate : c.enabled Verb.create = true →
      buildCreateMethod.req lib c p.res = Except.ok p.createReq ∧
      buildCreateMethod.m lib c p.res p.createReq = Except.ok p.createM) :
    p.res.name = TopLevel.name c TopLevel.resource ∧
    p.svc.name = TopLevel.name c TopLevel.service ∧
    p.svc.methods = [] ∧
    (c.enabled Verb.get = true →
      p.getReq.name = TopLevel.name c (TopLevel.request Verb.get) ∧
      p.getM.name = Verb.get.word ++ c.Resource) ∧
    (c.enabled Verb.list = true →
      p.listReq.name = TopLevel.name c (TopLevel.request Verb.list) ∧
      p.listRes.name = TopLevel.name c TopLevel.listResponse ∧
      p.listM.name = Verb.list.word ++ c.Resource) ∧
    (c.enabled Verb.create = true →
      p.createReq.name = TopLevel.name c (TopLevel.request Verb.create) ∧
      p.createM.name = Verb.create.word ++ c.Resource) := by
  have e := buildServiceDescriptor_b_spec lib c _ hsvc
  refine ⟨buildResourceMessage_b_name lib c _ hres, by rw [e]; rfl, by rw [e], ?_, ?_, ?_⟩
  · intro he
    obtain ⟨h1, h2⟩ := hget he
    exact ⟨(buildGetMethod_req_spec lib c _ h1).1,
      by rw [buildGetMethod_m_spec lib c _ _ _ h2]; rfl⟩
  · intro he
    obtain ⟨h1, h2, h3⟩ := hlist he
    exact ⟨(buildListMethod_req_spec lib c _ h1).1, (buildListMethod_res_spec lib c _ _ h2).1,
      by rw [buildListMethod_m_spec lib c _ _ _ h3]; rfl⟩
  · intro he
    obtain ⟨h1, h2⟩ := hcreate he
    exact ⟨(buildCreateMethod_req_spec lib c _ _ h1).1,
      by rw [buildCreateMethod_m_spec lib c _ _ _ h2]; rfl⟩

/-- A failure of the Update request builder is the failure of assembly, when the parts
before it are built. -/
theorem assemble_update_fails (lib : Library) (c : Config) (p : Parts) (f : Failure)
    (hres : buildResourceMessage.b lib c = Except.ok p.res)
    (hsvc : buildServiceDescriptor.b lib c = Except.ok p.svc)
    (hget : c.enabled Verb.get = true →
      buildGetMethod.req lib c = Except.ok p.getReq ∧
      buildGetMethod.m lib c p.res p.getReq = Except.ok p.getM)
    (hlist : c.enabled Verb.list = true →
      buildListMethod.req lib c = Except.ok p.listReq ∧
      buildListMethod.res lib c p.res = Except.ok p.listRes ∧
      buildListMethod.m lib c p.listReq p.listRes = Except.ok p.listM)
    (hcreate : c.enabled Verb.create = true →
      buildCreateMethod.req lib c p.res = Except.ok p.createReq ∧
      buildCreateMethod.m lib c p.res p.createReq = Except.ok p.createM)
    (hu : c.enabled Verb.update = true)
    (hupd : buildUpdateMethod.req lib c p.res = Except.error f) :
    assemble lib c = Except.error f := by
  obtain ⟨nres, nsvc, msvc, nget, nlist, ncreate⟩ :=
    names_before_update lib c p hres hsvc hget hlist hcreate
  simp only [Config.enabled, Verb.letter] at hget hlist hcreate hu
  simp only [Config.enabled, Verb.letter] at nget nlist ncreate
  cases hr : stringsContains c.Methods "r" <;>
  cases hl : stringsContains c.Methods "l" <;>
  cases hc : stringsContains c.Methods "c" <;>
  simp [hr, hl, hc] at hget hlist hcreate <;>
  simp [hr, hl, hc] at nget nlist ncreate <;>
  simp [assemble, buildResourceMessage, buildServiceDescriptor, buildGetMethod,
    buildListMethod, buildCreateMethod, buildUpdateMethod,
    hres, hsvc, hget, hlist, hcreate, hupd,
    nres, nsvc, msvc, nget, nlist, ncreate,
    hr, hl, hc, hu, bind, Except.bind, pure, Except.pure, orPanic,
    schemaBuilder.fileAddMessage, schemaBuilder.serviceAddMethod, schemaBuilder.getResource,
    FileBuilder.AddMessage, FileBuilder.TryAddMessage, FileBuilder.AddService,
    FileBuilder.TryAddService, FileBuilder.symbols, ServiceBuilder.AddMethod,
    ServiceBuilder.TryAddMethod,
    NewFile, FileBuilder.SetProto3, FileBuilder.SetPackageName,
    TopLevel.name_eq_iff, method_name_inj]

/-- A failure of the Delete method builder is the failure of assembly, when the parts
before it are built. -/
theorem assemble_delete_fails (lib : Library) (c : Config) (p : Parts) (f : Failure)
    (hres : buildResourceMessage.b lib c = Except.ok p.res)
    (hsvc : buildServiceDescriptor.b lib c = Except.ok p.svc)
    (hget : c.enabled Verb.get = true →
      buildGetMethod.req lib c = Except.ok p.getReq ∧
      buildGetMethod.m lib c p.res p.getReq = Except.ok p.getM)
    (hlist : c.enabled Verb.list = true →
      buildListMethod.req lib c = Except.ok p.listReq ∧
      buildListMethod.res lib c p.res = Except.ok p.listRes ∧
      buildListMethod.m lib c p.listReq p.listRes = Except.ok p.listM)
    (hcreate : c.enabled Verb.create = true →
      buildCreateMethod.req lib c p.res = Except.ok p.createReq ∧
      buildCreateMethod.m lib c p.res p.createReq = Except.ok p.createM)
    (hupdate : c.enabled Verb.update = true →
      buildUpdateMethod.req lib c p.res = Except.ok p.updateReq ∧
      buildUpdateMethod.m lib c p.res p.updateReq = Except.ok p.updateM)
    (hd : c.enabled Verb.delete = true)
    (hreq : buildDeleteMethod.req lib c = Except.ok p.deleteReq)
    (hdel : buildDeleteMethod.m lib c p.deleteReq = Except.error f) :
    assemble lib c = Except.error f := by
  obtain ⟨nres, nsvc, msvc, nget, nlist, ncreate⟩ :=
    names_before_update lib c p hres hsvc hget hlist hcreate
  have nupdate : c.enabled Verb.update = true →
      p.updateReq.name = TopLevel.name c (TopLevel.request Verb.update) ∧
      p.updateM.name = Verb.update.word ++ c.Resource := by
    intro he
    obtain ⟨h1, h2⟩ := hupdate he
    exact ⟨buildUpdateMethod_req_name lib c _ _ h1,
      by rw [buildUpdateMethod_m_spec lib c _ _ _ h2]; rfl⟩
  simp only [Config.enabled, Verb.letter] at hget hlist hcreate hupdate hd
  simp only [Config.enabled, Verb.letter] at nget nlist ncreate nupdate
  cases hr : stringsContains c.Methods "r" <;>
  cases hl : stringsContains c.Methods "l" <;>
  cases hc : stringsContains c.Methods "c" <;>
  cases hu : stringsContains c.Methods "u" <;>
  simp [hr, hl, hc, hu] at hget hlist hcreate hupdate <;>
  simp [hr, hl, hc, hu] at nget nlist ncreate nupdate <;>
  simp [assemble, buildResourceMessage, buildServiceDescriptor, buildGetMethod,
    buildListMethod, buildCreateMethod, buildUpdateMethod, buildDeleteMethod,
    hres, hsvc, hget, hlist, hcreate, hupdate, hreq, hdel,
    nres, nsvc, msvc, nget, nlist, ncreate, nupdate,
    hr, hl, hc, hu, hd, bind, Except.bind, pure, Except.pure, orPanic,
    schemaBuilder.fileAddMessage, schemaBuilder.serviceAddMethod, schemaBuilder.getResource,
    FileBuilder.AddMessage, FileBuilder.TryAddMessage, FileBuilder.AddService,
    FileBuilder.TryAddService, FileBuilder.symbols, ServiceBuilder.AddMethod,
    ServiceBuilder.TryAddMethod,
    NewFile, FileBuilder.SetProto3, FileBuilder.SetPackageName,
    TopLevel.name_eq_iff, method_name_inj]

theorem Build_of_assemble_error (lib : Library) (c : Config) (f : Failure)
    (h : assemble lib c = Except.error f) : Build lib c = Except.error f := by
  simp [Build, buildDescriptor, h, bind, Except.bind]

/-- Claim C18 fails on the code: when the well-known descriptors do not load, `Build` at
the example scenario ends in a panic carrying the error of the lookup, not in a returned
error. -/
theorem failed_lookup_panics :
    Build failingLibrary exampleConfig = Except.error (Failure.panic "descriptor not found") := by
  rfl

/-- Claim C18 as amended.  For a configuration whose names pass the checks of the builder
package, a failed lookup of a well-known type makes `Build` panic with the error of the
lookup instead of returning an error: the timestamp under `WithTimestamps`; otherwise the
field mask when Update is enabled under `WithUpdateFieldMask`; otherwise the empty type
when Delete is enabled. -/
theorem Build_outcome (lib : Library) (c : Config) (hacc : accepted lib c) :
    (∀ e : String, c.WithTimestamps = true →
      lib.LoadMessageDescriptorForMessage WellKnown.Timestamp = Except.error e →
      Build lib c = Except.error (Failure.panic e)) ∧
    (∀ e : String,
      (c.WithTimestamps = true →
        ∃ ts, lib.LoadMessageDescriptorForMessage WellKnown.Timestamp = Except.ok ts) →
      c.enabled Verb.update = true → c.WithUpdateFieldMask = true →
      lib.LoadMessageDescriptorForMessage WellKnown.FieldMask = Except.error e →
      Build lib c = Except.error (Failure.panic e)) ∧
    (∀ e : String,
      (c.WithTimestamps = true →
        ∃ ts, lib.LoadMessageDescriptorForMessage WellKnown.Timestamp = Except.ok ts) →
      (c.enabled Verb.update = true → c.WithUpdateFieldMask = true →
        ∃ fm, lib.LoadMessageDescriptorForMessage WellKnown.FieldMask = Except.ok fm) →
      c.enabled Verb.delete = true →
      lib.LoadMessageDescriptorForMessage WellKnown.Empty = Except.error e →
      Build lib c = Except.error (Failure.panic e)) := by
  have hparts : (c.WithTimestamps = true →
      ∃ ts, lib.LoadMessageDescriptorForMessage WellKnown.Timestamp = Except.ok ts) →
      ∃ p : Parts,
        buildResourceMessage.b lib c = Except.ok p.res ∧
        buildServiceDescriptor.b lib c = Except.ok p.svc ∧
        (c.enabled Verb.get = true →
          buildGetMethod.req lib c = Except.ok p.getReq ∧
          buildGetMethod.m lib c p.res p.getReq = Except.ok p.getM) ∧
        (c.enabled Verb.list = true →
          buildListMethod.req lib c = Except.ok p.listReq ∧
          buildListMethod.res lib c p.res = Except.ok p.listRes ∧
          buildListMethod.m lib c p.listReq p.listRes = Except.ok p.listM) ∧
        (c.enabled Verb.create = true →
          buildCreateMethod.req lib c p.res = Except.ok p.createReq ∧
          buildCreateMethod.m lib c p.res p.createReq = Except.ok p.createM) := by
    intro h
    cases ht : c.WithTimestamps with
    | true =>
      obtain ⟨ts, hts⟩ := h ht
      exact parts_exist_before_update lib c ts hacc (fun _ => hts)
    | false =>
      exact parts_exist_before_update lib c { fullName := "" } hacc
        (fun h1 => by rw [ht] at h1; cases h1)
  refine ⟨fun e ht hts => ?_, fun e hts hu hm hfm => ?_, fun e hts hfm hd hem => ?_⟩
  · exact Build_of_assemble_error lib c _
      (assemble_resource_fails lib c _ (buildResourceMessage_b_panics lib c e hacc ht hts))
  · obtain ⟨p, hres, hsvc, hget, hlist, hcreate⟩ := hparts hts
    exact Build_of_assemble_error lib c _
      (assemble_update_fails lib c p _ hres hsvc hget hlist hcreate hu
        (buildUpdateMethod_req_panics lib c p.res e hacc hu hm hfm))
  · obtain ⟨p, hres, hsvc, hget, hlist, hcreate⟩ := hparts hts
    have hupd : ∃ (r : MessageBuilder) (m : MethodBuilder), c.enabled Verb.update = true →
        buildUpdateMethod.req lib c p.res = Except.ok r ∧
        buildUpdateMethod.m lib c p.res r = Except.ok m := by
      by_cases he : c.enabled Verb.update = true
      · have hr : ∃ r, buildUpdateMethod.req lib c p.res = Except.ok r := by
          cases hm : c.WithUpdateFieldMask with
          | true =>
            obtain ⟨fm, h⟩ := hfm he hm
            exact buildUpdateMethod_req_ok lib c p.res fm hacc he (fun _ => h)
          | false =>
            exact buildUpdateMethod_req_ok lib c p.res { fullName := "" } hacc he
              (fun h1 => by rw [hm] at h1; cases h1)
        obtain ⟨r, hr⟩ := hr
        obtain ⟨m, hm⟩ := buildUpdateMethod_m_ok lib c p.res r hacc he
        exact ⟨r, m, fun _ => ⟨hr, hm⟩⟩
      · exact ⟨p.res, p.getM, fun h => absurd h he⟩
    obtain ⟨ur, um, hupdate⟩ := hupd
    obtain ⟨dr, hdr⟩ := buildDeleteMethod_req_ok lib c hacc hd
    exact Build_of_assemble_error lib c _
      (assemble_delete_fails lib c { p with updateReq := ur, updateM := um, deleteReq := dr } _
        hres hsvc hget hlist hcreate hupdate hd hdr
        (buildDeleteMethod_m_panics lib c dr e hem))

/-- Claim C18 as amended, at the example scenario, which passes the checks: with no
descriptor loading `Build` panics with the error of the timestamp lookup. -/
theorem Build_outcome_example :
    accepted failingLibrary exampleConfig ∧
    exampleConfig.WithTimestamps = true ∧
    failingLibrary.LoadMessageDescriptorForMessage WellKnown.Timestamp =
      Except.error "descriptor not found" ∧
    Build failingLibrary exampleConfig =
      Except.error (Failure.panic "descriptor not found") := by
  have hacc : accepted failingLibrary exampleConfig :=
    ⟨all_checkName_ok _ _ (by decide), fun _ => by decide,
      fun _ _ => ⟨by decide, by decide⟩, fun _ _ => by decide, fun _ _ => by decide⟩
  exact ⟨hacc, rfl, rfl,
    (Build_outcome failingLibrary exampleConfig hacc).1 "descriptor not found" rfl rfl⟩

/-! ## Field names within a message -/

theorem nodup_snoc {α : Type} (l : List α) (a : α) :
    (l ++ [a]).Nodup ↔ a ∉ l ∧ l.Nodup := by
  rw [List.nodup_append]
  simp only [List.nodup_cons, List.not_mem_nil, not_false_eq_true, List.nodup_nil, and_self,
    List.disjoint_singleton, true_and]
  tauto

theorem buildResourceMessage_b_nodup (lib : Library) (c : Config) :
    holds (buildResourceMessage.b lib c) (fun b => b.fieldNames.Nodup) := by
  unfold buildResourceMessage.b
  cases hd : c.WithDisplayName <;> cases ht : c.WithTimestamps <;>
  cases ha : c.WithAnnotations <;>
  simp only [holds_bind, holds_pure, holds_map, holds_NewMessage, holds_NewField,
    holds_NewMapField, holds_AddField, holds_orPanic, MessageBuilder.SetComments,
    MessageBuilder.SetOptions, FieldBuilder.SetComments, FieldBuilder.SetOptions,
    MessageBuilder.fieldNames, Bool.false_eq_true, if_false, if_true, List.map_append,
    List.map_cons, nodup_snoc, List.map_nil, List.nodup_nil] <;>
  tauto

theorem buildGetMethod_req_nodup (lib : Library) (c : Config) :
    holds (buildGetMethod.req lib c) (fun b => b.fieldNames.Nodup) := by
  unfold buildGetMethod.req
  simp only [holds_bind, holds_pure, holds_map, holds_NewMessage, holds_NewField,
    holds_AddField, MessageBuilder.SetComments, FieldBuilder.SetComments,
    FieldBuilder.SetOptions, MessageBuilder.fieldNames, List.map_append, List.map_cons,
    nodup_snoc, List.map_nil, List.nodup_nil]
  tauto

theorem buildListMethod_req_nodup (lib : Library) (c : Config) :
    holds (buildListMethod.req lib c) (fun b => b.fieldNames.Nodup) := by
  unfold buildListMethod.req
  cases hp : c.HasParent <;> cases hf : c.WithListFilter <;> cases ho : c.WithListOrderBy <;>
    simp only [holds_bind, holds_pure, holds_map, holds_NewMessage, holds_NewField,
      holds_AddField, MessageBuilder.SetComments, FieldBuilder.SetComments,
      FieldBuilder.SetOptions, MessageBuilder.fieldNames, Bool.false_eq_true, if_false,
      if_true, List.map_append, List.map_cons, nodup_snoc, List.map_nil, List.nodup_nil] <;>
    tauto

theorem buildListMethod_res_nodup (lib : Library) (c : Config) (res : MessageBuilder) :
    holds (buildListMethod.res lib c res) (fun b => b.fieldNames.Nodup) := by
  unfold buildListMethod.res
  simp only [holds_bind, holds_pure, holds_map, holds_NewMessage, holds_NewField,
    holds_AddField, MessageBuilder.SetComments, FieldBuilder.SetComments,
    FieldBuilder.SetRepeated, MessageBuilder.fieldNames, List.map_append, List.map_cons,
    nodup_snoc, List.map_nil, List.nodup_nil]
  tauto

theorem buildCreateMethod_req_nodup (lib : Library) (c : Config) (res : MessageBuilder) :
    holds (buildCreateMethod.req lib c res) (fun b => b.fieldNames.Nodup) := by
  unfold buildCreateMethod.req
  cases hp : c.HasParent <;> cases hi : c.IDRequired <;>
    simp only [holds_bind, holds_pure, holds_map, holds_NewMessage, holds_NewField,
      holds_AddField, MessageBuilder.SetComments, FieldBuilder.SetComments,
      FieldBuilder.SetOptions, MessageBuilder.fieldNames, Bool.false_eq_true, if_false,
      if_true, List.map_append, List.map_cons, nodup_snoc, List.map_nil, List.nodup_nil] <;>
    tauto

theorem buildUpdateMethod_req_nodup (lib : Library) (c : Config) (res : MessageBuilder) :
    holds (buildUpdateMethod.req lib c res) (fun b => b.fieldNames.Nodup) := by
  unfold buildUpdateMethod.req
  cases hm : c.WithUpdateFieldMask <;> cases ha : c.WithUpdateAllowMissing <;>
    simp only [holds_bind, holds_pure, holds_map, holds_NewMessage, holds_NewField,
      holds_AddField, holds_orPanic, MessageBuilder.SetComments, FieldBuilder.SetComments,
      FieldBuilder.SetOptions, MessageBuilder.fieldNames, Bool.false_eq_true, if_false,
      if_true, List.map_append, List.map_cons, nodup_snoc, List.map_nil, List.nodup_nil] <;>
    tauto

theorem buildDeleteMethod_req_nodup (lib : Library) (c : Config) :
    holds (buildDeleteMethod.req lib c) (fun b => b.fieldNames.Nodup) := by
  unfold buildDeleteMethod.req
  cases ha : c.WithUpdateAllowMissing <;>
    simp only [holds_bind, holds_pure, holds_map, holds_NewMessage, holds_NewField,
      holds_AddField, MessageBuilder.SetComments, FieldBuilder.SetComments,
      FieldBuilder.SetOptions, MessageBuilder.fieldNames, Bool.false_eq_true, if_false,
      if_true, List.map_append, List.map_cons, nodup_snoc, List.map_nil, List.nodup_nil] <;>
    tauto

/-- Every message of a state that `buildServiceDescriptor` returns has pairwise distinct
field names, when the messages of the state it starts from have. -/
theorem buildServiceDescriptor_nodup (lib : Library) (s t : schemaBuilder)
    (h : buildServiceDescriptor lib s = Except.ok t)
    (hs : ∀ msg ∈ s.file.messages, msg.fieldNames.Nodup) :
    ∀ msg ∈ t.file.messages, msg.fieldNames.Nodup := by
  unfold buildServiceDescriptor at h
  obtain ⟨b, hb, h⟩ := bind_eq_ok _ _ _ h
  obtain ⟨file, hfile, h⟩ := bind_eq_ok _ _ _ h
  obtain ⟨s1, h1, h⟩ := bind_eq_ok _ _ _ h
  obtain ⟨s2, h2, h⟩ := bind_eq_ok _ _ _ h
  obtain ⟨s3, h3, h⟩ := bind_eq_ok _ _ _ h
  obtain ⟨s4, h4, h⟩ := bind_eq_ok _ _ _ h
  have hfilemsg : file.messages = s.file.messages := by
    simp only [FileBuilder.AddService, FileBuilder.TryAddService] at hfile
    by_cases hm : b.name ∈ s.file.symbols
    · simp only [hm, if_true] at hfile; cases hfile
    · simp only [hm, if_false] at hfile
      cases hfile
      rfl
  obtain ⟨c1, -, m1⟩ := buildGetMethod_frame lib _ s1 h1
  obtain ⟨c2, -, m2⟩ := buildListMethod_frame lib s1 s2 h2
  obtain ⟨c3, -, m3⟩ := buildCreateMethod_frame lib s2 s3 h3
  obtain ⟨c4, -, m4⟩ := buildUpdateMethod_frame lib s3 s4 h4
  obtain ⟨c5, -, m5⟩ := buildDeleteMethod_frame lib s4 t h
  have n0 : ∀ msg ∈ file.messages, msg.fieldNames.Nodup := by
    rw [hfilemsg]; exact hs
  have n1 : ∀ msg ∈ s1.file.messages, msg.fieldNames.Nodup := by
    intro msg hm
    rcases m1 msg hm with h | h
    · exact n0 msg h
    · exact buildGetMethod_req_nodup lib _ msg h
  have n2 : ∀ msg ∈ s2.file.messages, msg.fieldNames.Nodup := by
    intro msg hm
    rcases m2 msg hm with h | h | ⟨res, h⟩
    · exact n1 msg h
    · exact buildListMethod_req_nodup lib _ msg h
    · exact buildListMethod_res_nodup lib _ res msg h
  have n3 : ∀ msg ∈ s3.file.messages, msg.fieldNames.Nodup := by
    intro msg hm
    rcases m3 msg hm with h | ⟨res, h⟩
    · exact n2 msg h
    · exact buildCreateMethod_req_nodup lib _ res msg h
  have n4 : ∀ msg ∈ s4.file.messages, msg.fieldNames.Nodup := by
    intro msg hm
    rcases m4 msg hm with h | ⟨res, h⟩
    · exact n3 msg h
    · exact buildUpdateMethod_req_nodup lib _ res msg h
  intro msg hm
  rcases m5 msg hm with h | h
  · exact n4 msg h
  · exact buildDeleteMethod_req_nodup lib _ msg h

/-- Every message of an assembled state has pairwise distinct field names. -/
theorem assemble_nodup (lib : Library) (c : Config) (s : schemaBuilder)
    (h : assemble lib c = Except.ok s) :
    ∀ msg ∈ s.file.messages, msg.fieldNames.Nodup := by
  unfold assemble at h
  obtain ⟨s1, h1, h⟩ := bind_eq_ok _ _ _ h
  refine buildServiceDescriptor_nodup lib s1 s h ?_
  unfold buildResourceMessage at h1
  obtain ⟨b, hb, h1⟩ := bind_eq_ok _ _ _ h1
  obtain ⟨u, hu, h1⟩ := bind_eq_ok _ _ _ h1
  cases h1
  obtain ⟨-, -, -, hmsgs⟩ := fileAddMessage_frame lib _ u b hu
  intro msg hm
  simp only [hmsgs] at hm
  rcases List.mem_append.1 hm with hm | hm
  · simp [NewFile, FileBuilder.SetProto3, FileBuilder.SetPackageName] at hm
  · rw [List.mem_singleton.1 hm]
    exact buildResourceMessage_b_nodup lib c b hb

/-- Claim C19.  For every configuration, in every schema that assembly returns the field
names are pairwise distinct within every message of the file: the builder package refuses
a second field of a name that the message already holds, so a configuration whose
computed field name meets another field of its message (such as resource `Parent` under a
parent pattern) ends in a panic and yields no schema.  Assembly does return a schema when
the names pass the checks of the builder package and the three well-known descriptors
load. -/
theorem field_names_distinct (lib : Library) (c : Config) :
    (∀ s : schemaBuilder, assemble lib c = Except.ok s →
      ∀ msg ∈ s.file.messages, (msg.fields.map (fun f => f.name)).Nodup) ∧
    (∀ ts fm em : MessageDescriptor, accepted lib c →
      lib.LoadMessageDescriptorForMessage WellKnown.Timestamp = Except.ok ts →
      lib.LoadMessageDescriptorForMessage WellKnown.FieldMask = Except.ok fm →
      lib.LoadMessageDescriptorForMessage WellKnown.Empty = Except.ok em →
      ∃ s : schemaBuilder, assemble lib c = Except.ok s) := by
  refine ⟨fun s hs => assemble_nodup lib c s hs, fun ts fm em hacc hts hfm hem => ?_⟩
  obtain ⟨p, -, hs⟩ := assemble_ok lib c ts fm em hacc hts hfm hem
  exact ⟨_, hs⟩

/-- Claim C19 at the example scenario: assembly returns a schema, whose messages have the
field names listed, pairwise distinct within each message; and for resource `Parent` under
a parent pattern assembly panics at the second field `parent` of the Create request and
returns no schema. -/
theorem field_names_distinct_example :
    (∃ s : schemaBuilder, assemble exampleLibrary exampleConfig = Except.ok s ∧
      s.file.messages.map (fun msg => msg.fields.map (fun f => f.name)) =
        [["name", "display_name", "create_time", "update_time", "annotations"],
         ["name"],
         ["parent", "page_size", "page_token", "filter", "order_by"],
         ["books", "next_page_token"],
         ["parent", "book_id", "book"],
         ["book", "update_mask", "allow_missing"],
         ["name", "allow_missing"]] ∧
      ∀ msg ∈ s.file.messages, (msg.fields.map (fun f => f.name)).Nodup) ∧
    assemble exampleLibrary
        { exampleConfig with Resource := "Parent", PluralResource := "Parents" } =
      Except.error (Failure.panic "duplicate name parent") := by
  refine ⟨?_, rfl⟩
  obtain ⟨s, hs⟩ := (field_names_distinct exampleLibrary exampleConfig).2 _ _ _
    accepted_example rfl rfl rfl
  refine ⟨s, hs, ?_, (field_names_distinct exampleLibrary exampleConfig).1 s hs⟩
  have h2 : (assemble exampleLibrary exampleConfig).map
      (fun s => s.file.messages.map (fun msg => msg.fields.map (fun f => f.name))) =
      Except.ok
        [["name", "display_name", "create_time", "update_time", "annotations"],
         ["name"],
         ["parent", "page_size", "page_token", "filter", "order_by"],
         ["books", "next_page_token"],
         ["parent", "book_id", "book"],
         ["book", "update_mask", "allow_missing"],
         ["name", "allow_missing"]] := rfl
  rw [hs] at h2
  exact Except.ok.inj h2

/-! ## Top-level names -/

/-- Claim C20. For every `Resource` the names of the top-level declarations (the resource
message, the service, the five request messages and the List response) are pairwise distinct.
When the names pass the checks of the builder package and the three well-known descriptors load,
no registration with the file is refused for a name that the file already holds: assembly
returns a schema, in which no name is registered twice among the messages and services of the
file, and every name of a message that a method has as request or response type is the name of
exactly one message of the file. -/
theorem top_level_names_distinct (lib : Library) (c : Config)
    (ts fm em : MessageDescriptor)
    (hacc : accepted lib c)
    (hts : lib.LoadMessageDescriptorForMessage WellKnown.Timestamp = Except.ok ts)
    (hfm : lib.LoadMessageDescriptorForMessage WellKnown.FieldMask = Except.ok fm)
    (hem : lib.LoadMessageDescriptorForMessage WellKnown.Empty = Except.ok em) :
    Function.Injective (TopLevel.name c) ∧
    ∃ s : schemaBuilder, assemble lib c = Except.ok s ∧
      (s.file.messages.map (fun m => m.name) ++
        s.file.services.map (fun sb => sb.name)).Nodup ∧
      (∀ sb ∈ s.file.services, ∀ m ∈ sb.methods, ∀ (n : String) (stream : Bool),
        m.req = RpcType.message n stream ∨ m.resp = RpcType.message n stream →
          (s.file.messages.map (fun m => m.name)).count n = 1) := by
  refine ⟨TopLevel.name_injective c, ?_⟩
  obtain ⟨s, res, sb, hs, -, -, -, hmsgs, hsvc, -, hsbname, hmeth⟩ :=
    assemble_shape lib c ts fm em hacc hts hfm hem
  have hkeys : s.file.messages.map (fun m => m.name) =
      (TopLevel.resource :: (Verb.all.filter c.enabled).flatMap (fun v =>
        TopLevel.request v :: if v = Verb.list then [TopLevel.listResponse] else [])).map
        (TopLevel.name c) := by
    rw [hmsgs, List.map_cons, List.map_flatMap]
    congr 1
    apply List.flatMap_congr
    intro v _
    cases v <;> simp [TopLevel.name, Verb.word]
  have hnodup : (TopLevel.resource :: (Verb.all.filter c.enabled).flatMap (fun v =>
        TopLevel.request v :: if v = Verb.list then [TopLevel.listResponse] else []) ++
      [TopLevel.service]).Nodup := by
    simp only [Verb.all, List.filter]
    cases c.enabled Verb.get <;> cases c.enabled Verb.list <;>
      cases c.enabled Verb.create <;> cases c.enabled Verb.update <;>
      cases c.enabled Verb.delete <;> decide
  have hall : (s.file.messages.map (fun m => m.name) ++
      s.file.services.map (fun sb => sb.name)).Nodup := by
    have h1 : s.file.services.map (fun sb => sb.name) =
        [TopLevel.service].map (TopLevel.name c) := by
      rw [hsvc]
      simp [TopLevel.name, hsbname]
    rw [hkeys, h1, ← List.map_append]
    exact List.Nodup.map (TopLevel.name_injective c) hnodup
  have hmn : (s.file.messages.map (fun m => m.name)).Nodup := (List.nodup_append.1 hall).1
  refine ⟨s, hs, hall, fun sb1 hsb m hm n stream hn => ?_⟩
  rw [hsvc, List.mem_singleton] at hsb
  subst hsb
  apply List.count_eq_one_of_mem hmn
  have h1 : (m.name, m.req, m.resp) ∈ sb1.methods.map (fun m => (m.name, m.req, m.resp)) :=
    List.mem_map_of_mem _ hm
  rw [hmeth] at h1
  obtain ⟨w, hw, e⟩ := List.mem_map.1 h1
  simp only [Prod.mk.injEq] at e
  obtain ⟨-, hq, hp⟩ := e
  have hwin : w ∈ Verb.all.filter c.enabled := hw
  rw [hmsgs]
  rcases hn with hn | hn
  · rw [hn] at hq
    have hname : n = w.word ++ c.Resource ++ "Request" := by
      injection hq with h1 h2
      exact h1.symm
    rw [hname]
    refine List.mem_cons_of_mem _ (List.mem_flatMap.2 ⟨w, hwin, ?_⟩)
    cases w <;> simp [Verb.word]
  · rw [hn] at hp
    cases w with
    | list =>
      simp only at hp
      have hname : n = "List" ++ c.Resource ++ "Response" := by
        injection hp with h1 h2
        exact h1.symm
      rw [hname]
      refine List.mem_cons_of_mem _ (List.mem_flatMap.2 ⟨Verb.list, hwin, ?_⟩)
      simp
    | delete => simp at hp
    | get =>
      simp only at hp
      have hname : n = c.Resource := by
        injection hp with h1 h2
        exact h1.symm
      rw [hname]
      exact List.mem_cons_self _ _
    | create =>
      simp only at hp
      have hname : n = c.Resource := by
        injection hp with h1 h2
        exact h1.symm
      rw [hname]
      exact List.mem_cons_self _ _
    | update =>
      simp only at hp
      have hname : n = c.Resource := by
        injection hp with h1 h2
        exact h1.symm
      rw [hname]
      exact List.mem_cons_self _ _

/-- Claim C20 at the example scenario: the eight names registered with the file are
pairwise distinct, and `BookService`, `ListBookRequest` and `ListBookResponse` differ. -/
theorem top_level_names_distinct_example :
    accepted exampleLibrary exampleConfig ∧
    (exampleLibrary.LoadMessageDescriptorForMessage WellKnown.Timestamp =
        Except.ok { fullName := "google.protobuf.Timestamp" } ∧
      exampleLibrary.LoadMessageDescriptorForMessage WellKnown.FieldMask =
        Except.ok { fullName := "google.protobuf.FieldMask" } ∧
      exampleLibrary.LoadMessageDescriptorForMessage WellKnown.Empty =
        Except.ok { fullName := "google.protobuf.Empty" }) ∧
    ∃ s : schemaBuilder, assemble exampleLibrary exampleConfig = Except.ok s ∧
      (s.file.messages.map (fun m => m.name) ++
        s.file.services.map (fun sb => sb.name)).Nodup := by
  refine ⟨accepted_example, ⟨rfl, rfl, rfl⟩, ?_⟩
  obtain ⟨s, hs, h, -⟩ := (top_level_names_distinct exampleLibrary exampleConfig
    _ _ _ accepted_example rfl rfl rfl).2
  exact ⟨s, hs, h⟩

/-! ## References from a method to its request message -/

/-- Claim C21 fails for Update: in the example scenario the URL template of `UpdateBook`
binds the variable `book.name`, and `UpdateBookRequest` has the fields `book`,
`update_mask`, `allow_missing`, none of which is named `book.name` or `name`. -/
theorem update_url_variable_is_a_path :
    (assemble exampleLibrary exampleConfig).map
        (fun s =>
          (s.file.services.flatMap (fun sb =>
              (sb.methods.filter (fun m => m.name == "UpdateBook")).map
                (fun m => m.options.map (fun o => o.http.map (fun r => r.Pattern)))),
            (s.file.messages.filter (fun m => m.name == "UpdateBookRequest")).map
              (fun m => m.fields.map (fun f => f.name)))) =
      Except.ok
        ([some (some (HttpPattern.Patch "/v1/\x7bbook.name=publishers/*/books/*\x7d"))],
         [["book", "update_mask", "allow_missing"]]) ∧
    urlVariable exampleLibrary exampleConfig Verb.update = some "book.name" := by
  constructor <;> rfl

/-- Claim C21 as amended. With `WithHTTPOptions` set, names that pass the checks of the builder
package and the three well-known descriptors loading, assembly returns a schema in which every
method named verb+Resource has as request type a message `req` of the file, one method signature
(the comma-joined field names of `signatureFields`) and an HTTP rule, such that: every field
name of the signature is the name of a field of `req`; the body of the rule, when not empty, is
the name of a field of `req`; the URL template starts with `/v1/{`, the variable of
`urlVariable` and `=`, or is `/v1/` followed by the collection identifier when no variable is
bound; for Get, List, Create and Delete the variable (`name`, `parent`) is the name of a field
of `req`; and for Update the variable is the path snake(Resource) followed by `.name`, where
snake(Resource) is the name of a field of `req` of the resource message type and `name` is the
name of a field of the resource message. -/
theorem method_references_resolve (lib : Library) (c : Config)
    (ts fm em : MessageDescriptor)
    (hacc : accepted lib c)
    (hts : lib.LoadMessageDescriptorForMessage WellKnown.Timestamp = Except.ok ts)
    (hfm : lib.LoadMessageDescriptorForMessage WellKnown.FieldMask = Except.ok fm)
    (hem : lib.LoadMessageDescriptorForMessage WellKnown.Empty = Except.ok em)
    (hhttp : c.WithHTTPOptions = true) :
    ∃ (s : schemaBuilder) (res : MessageBuilder),
      assemble lib c = Except.ok s ∧ s.resource = some res ∧
      ∀ v : Verb, ∀ sb ∈ s.file.services, ∀ m ∈ sb.methods, m.name = v.word ++ c.Resource →
        ∃ (req : MessageBuilder) (o : MethodOptions) (rule : HttpRule),
          req ∈ s.file.messages ∧ m.req = RpcTypeMessage req false ∧
          m.options = some o ∧
          o.methodSignature = some [stringsJoin (signatureFields lib c v) ","] ∧
          o.http = some rule ∧
          (∀ n ∈ signatureFields lib c v, ∃ f ∈ req.fields, f.name = n) ∧
          (rule.Body ≠ "" → ∃ f ∈ req.fields, f.name = rule.Body) ∧
          (∀ var, urlVariable lib c v = some var →
            ∃ pat rest : String,
              rule.Pattern.path = "/v1/\x7b" ++ var ++ "=" ++ pat ++ "\x7d" ++ rest) ∧
          (urlVariable lib c v = none →
            rule.Pattern.path = "/v1/" ++ c.ResourceCollectionIdentifier lib) ∧
          (v ≠ Verb.update → ∀ var, urlVariable lib c v = some var →
            ∃ f ∈ req.fields, f.name = var) ∧
          (v = Verb.update →
            urlVariable lib c v = some (c.ResourceSnakeCase lib ++ ".name") ∧
            (∃ f ∈ req.fields,
              f.name = c.ResourceSnakeCase lib ∧ f.type = FieldTypeMessage res) ∧
            ∃ g ∈ res.fields, g.name = "name") := by
  obtain ⟨s, p, sb, hs, hp, hsres, hsvc, -, hall, hin, -, -, -⟩ :=
    assemble_named lib c ts fm em hacc hts hfm hem
  obtain ⟨-, -, hresf⟩ := buildResourceMessage_b_spec lib c ts (fun _ => hts) _ hp.1
  refine ⟨s, p.res, hs, hsres, fun v sb1 hsb m hm hn => ?_⟩
  rw [hsvc, List.mem_singleton] at hsb
  subst hsb
  obtain ⟨hv, hmv⟩ := hall v m hm hn
  have hreqin := (hin v hv).1
  cases v with
  | get =>
    have hm1 : m = _ := hmv.trans
      (buildGetMethod_m_spec lib c _ _ _ (p.built_get lib c hp hv).2)
    have ho := congrArg MethodBuilder.options hm1
    simp only [hhttp, if_true] at ho
    have hf := (buildGetMethod_req_spec lib c _ (p.built_get lib c hp hv).1).2
    refine ⟨p.getReq, _, _, hreqin, ?_, ho, ?_, rfl, ?_, ?_, ?_, ?_, ?_, ?_⟩
    · rw [hm1]; rfl
    · simp [signatureFields, stringsJoin, String.intercalate, String.intercalate.go]
    · simp [signatureFields, hf]
    · simp
    · intro var hvar
      simp only [urlVariable, Option.some.injEq] at hvar
      subst hvar
      exact ⟨c.ResourceNameUrlRef lib, "", by simp [HttpPattern.path, String.ext_iff]⟩
    · simp [urlVariable]
    · intro _ var hvar
      simp only [urlVariable, Option.some.injEq] at hvar
      subst hvar
      simp [hf]
    · intro h; cases h
  | list =>
    have hm1 : m = _ := hmv.trans
      (buildListMethod_m_spec lib c _ _ _ (p.built_list lib c hp hv).2.2)
    have ho := congrArg MethodBuilder.options hm1
    simp only [hhttp, if_true] at ho
    have hf := (buildListMethod_req_spec lib c _ (p.built_list lib c hp hv).1).2
    refine ⟨p.listReq, _, _, hreqin, ?_, ho, ?_, rfl, ?_, ?_, ?_, ?_, ?_, ?_⟩
    · rw [hm1]; rfl
    · cases hp : c.HasParent <;>
        simp [signatureFields, hp, stringsJoin, String.intercalate, String.intercalate.go]
    · cases hp : c.HasParent <;> simp [signatureFields, hp, hf]
    · simp
    · intro var hvar
      cases hp : c.HasParent
      · simp [urlVariable, hp] at hvar
      · simp only [urlVariable, hp, if_true, Option.some.injEq] at hvar
        subst hvar
        exact ⟨c.ParentNameUrlRef, "/" ++ c.ResourceCollectionIdentifier lib,
          by simp [HttpPattern.path, String.ext_iff]⟩
    · intro hvar
      cases hp : c.HasParent
      · simp [HttpPattern.path]
      · simp [urlVariable, hp] at hvar
    · intro _ var hvar
      cases hp : c.HasParent
      · simp [urlVariable, hp] at hvar
      · simp only [urlVariable, hp, if_true, Option.some.injEq] at hvar
        subst hvar
        simp [hf, hp]
    · intro h; cases h
  | create =>
    have hm1 : m = _ := hmv.trans
      (buildCreateMethod_m_spec lib c _ _ _ (p.built_create lib c hp hv).2)
    have ho := congrArg MethodBuilder.options hm1
    simp only [hhttp, if_true] at ho
    have hf := (buildCreateMethod_req_spec lib c _ _ (p.built_create lib c hp hv).1).2
    refine ⟨p.createReq, _, _, hreqin, ?_, ho, ?_, rfl, ?_, ?_, ?_, ?_, ?_, ?_⟩
    · rw [hm1]; rfl
    · cases hp : c.HasParent <;> cases hi : c.IDRequired <;>
        simp [signatureFields, hp, hi, stringsJoin, String.intercalate, String.intercalate.go,
          String.ext_iff]
    · cases hp : c.HasParent <;> cases hi : c.IDRequired <;>
        simp [signatureFields, hp, hi, hf]
    · intro _
      refine List.mem_map.1 (?_ : c.ResourceSnakeCase lib ∈
        p.createReq.fields.map (fun f => f.name))
      simp [hf]
    · intro var hvar
      cases hp : c.HasParent
      · simp [urlVariable, hp] at hvar
      · simp only [urlVariable, hp, if_true, Option.some.injEq] at hvar
        subst hvar
        exact ⟨c.ParentNameUrlRef, "/" ++ c.ResourceCollectionIdentifier lib,
          by simp [HttpPattern.path, String.ext_iff]⟩
    · intro hvar
      cases hp : c.HasParent
      · simp [HttpPattern.path]
      · simp [urlVariable, hp] at hvar
    · intro _ var hvar
      cases hp : c.HasParent
      · simp [urlVariable, hp] at hvar
      · simp only [urlVariable, hp, if_true, Option.some.injEq] at hvar
        subst hvar
        simp [hf, hp]
    · intro h; cases h
  | update =>
    have hm1 : m = _ := hmv.trans
      (buildUpdateMethod_m_spec lib c _ _ _ (p.built_update lib c hp hv).2)
    have ho := congrArg MethodBuilder.options hm1
    simp only [hhttp, if_true] at ho
    have hupdf := (buildUpdateMethod_req_spec lib c _ fm (fun _ => hfm) _
      (p.built_update lib c hp hv).1).2
    refine ⟨p.updateReq, _, _, hreqin, ?_, ho, ?_, rfl, ?_, ?_, ?_, ?_, ?_, ?_⟩
    · rw [hm1]; rfl
    · cases hm1 : c.WithUpdateFieldMask <;>
        simp [signatureFields, hm1, stringsJoin, String.intercalate, String.intercalate.go,
          String.ext_iff]
    · rw [hupdf]
      cases hm1 : c.WithUpdateFieldMask <;> simp [signatureFields, hm1]
    · intro _
      rw [hupdf]
      simp
    · intro var hvar
      simp only [urlVariable, Option.some.injEq] at hvar
      subst hvar
      exact ⟨c.ResourceNameUrlRef lib, "", by simp [HttpPattern.path, String.ext_iff]⟩
    · simp [urlVariable]
    · intro h; exact absurd rfl h
    · intro _
      refine ⟨rfl, ?_, ?_⟩
      · rw [hupdf]
        simp [FieldTypeMessage]
      · rw [hresf]
        simp
  | delete =>
    have hm1 : m = _ := hmv.trans
      (buildDeleteMethod_m_spec lib c _ em hem _ (p.built_delete lib c hp hv).2)
    have ho := congrArg MethodBuilder.options hm1
    simp only [hhttp, if_true] at ho
    have hf := (buildDeleteMethod_req_spec lib c _ (p.built_delete lib c hp hv).1).2
    refine ⟨p.deleteReq, _, _, hreqin, ?_, ho, ?_, rfl, ?_, ?_, ?_, ?_, ?_, ?_⟩
    · rw [hm1]; rfl
    · simp [signatureFields, stringsJoin, String.intercalate, String.intercalate.go]
    · simp [signatureFields, hf]
    · simp
    · intro var hvar
      simp only [urlVariable, Option.some.injEq] at hvar
      subst hvar
      exact ⟨c.ResourceNameUrlRef lib, "", by simp [HttpPattern.path, String.ext_iff]⟩
    · simp [urlVariable]
    · intro _ var hvar
      simp only [urlVariable, Option.some.injEq] at hvar
      subst hvar
      simp [hf]
    · intro h; cases h

/-- Claim C21 as amended, at the example scenario: the signature `parent,book` of
`CreateBook` names two fields of its request message, and the URL variable `book.name` of
`UpdateBook` leads through the field `book` of its request message to the field `name` of
the resource message. -/
theorem method_references_resolve_example :
    accepted exampleLibrary exampleConfig ∧
    (exampleLibrary.LoadMessageDescriptorForMessage WellKnown.Timestamp =
        Except.ok { fullName := "google.protobuf.Timestamp" } ∧
      exampleLibrary.LoadMessageDescriptorForMessage WellKnown.FieldMask =
        Except.ok { fullName := "google.protobuf.FieldMask" } ∧
      exampleLibrary.LoadMessageDescriptorForMessage WellKnown.Empty =
        Except.ok { fullName := "google.protobuf.Empty" } ∧
      exampleConfig.WithHTTPOptions = true) ∧
    ∃ (s : schemaBuilder) (res : MessageBuilder),
      assemble exampleLibrary exampleConfig = Except.ok s ∧ s.resource = some res ∧
      (∀ sb ∈ s.file.services, ∀ m ∈ sb.methods, m.name = "CreateBook" →
        ∃ (req : MessageBuilder) (o : MethodOptions),
          req ∈ s.file.messages ∧ m.req = RpcTypeMessage req false ∧
          m.options = some o ∧ o.methodSignature = some ["parent,book"] ∧
          ∀ n ∈ ["parent", "book"], ∃ f ∈ req.fields, f.name = n) ∧
      (∀ sb ∈ s.file.services, ∀ m ∈ sb.methods, m.name = "UpdateBook" →
        ∃ req : MessageBuilder,
          req ∈ s.file.messages ∧ m.req = RpcTypeMessage req false ∧
          urlVariable exampleLibrary exampleConfig Verb.update = some "book.name" ∧
          (∃ f ∈ req.fields, f.name = "book" ∧ f.type = FieldTypeMessage res) ∧
          ∃ g ∈ res.fields, g.name = "name") := by
  refine ⟨accepted_example, ⟨rfl, rfl, rfl, rfl⟩, ?_⟩
  obtain ⟨s, res, hs, hres, h⟩ := method_references_resolve exampleLibrary exampleConfig
    _ _ _ accepted_example rfl rfl rfl rfl
  refine ⟨s, res, hs, hres, fun sb hsb m hm hn => ?_, fun sb hsb m hm hn => ?_⟩
  · obtain ⟨req, o, rule, hin, hreq, ho, hsig, -, hf, -⟩ := h Verb.create sb hsb m hm hn
    exact ⟨req, o, hin, hreq, ho, hsig.trans (by decide), hf⟩
  · obtain ⟨req, o, rule, hin, hreq, -, -, -, -, -, -, -, -, hu⟩ :=
      h Verb.update sb hsb m hm hn
    exact ⟨req, hin, hreq, hu rfl⟩

end AipResourceProtoGen
